import Mathlib

/-!
# Verification of the japanese_mahjong_theory core

A shallow embedding of the repository's core (tile model, wall, hand,
decomposer, wait analyzer, game manager) together with theorems checking
the natural-language specification against it.

Conventions of the embedding:
* Rust `u8` ranks are embedded as `Nat`; all tile values are possible,
  validity is a separate predicate, exactly as in the source.
* `BTreeMap Hai u8` / `BTreeSet Hai` are embedded as key-sorted
  association lists / sorted lists, with insert-or-replace keeping the
  key order (structural equality then agrees with the Rust maps).
* A Rust function that can panic (direct map indexing on a missing key,
  `Option::unwrap` on `None`) is embedded with an outer `Option`:
  `none` models the panic.  A Rust `Result<T, String>` is `Except String T`.
* A `&mut self` method is embedded as a function from the receiver to the
  new receiver (threading every intermediate mutation, including the
  explicit backup/restore steps of the source).
* Error message texts are abbreviated constants; the error structure
  (which variant fails where) follows the source.
-/

/-- Tile type (`Hai` in the source): three numbered suits and honors. -/
inductive Hai where
  | manzu (n : Nat)
  | pinzu (n : Nat)
  | souzu (n : Nat)
  | jihai (n : Nat)
deriving DecidableEq, Repr

/-- Number of players (`PlayerNumber`). -/
inductive PlayerNumber where
  | three
  | four
deriving DecidableEq, Repr

namespace Hai

/-- Discriminant order of the Rust `enum Hai` (`Manzu < Pinzu < Souzu < Jihai`). -/
def tagIdx : Hai → Nat
  | manzu _ => 0
  | pinzu _ => 1
  | souzu _ => 2
  | jihai _ => 3

/-- The numeric rank carried by the tile. -/
def rank : Hai → Nat
  | manzu n => n
  | pinzu n => n
  | souzu n => n
  | jihai n => n

/-- The derived `Ord` of the Rust enum: discriminant first, then rank. -/
def lt (a b : Hai) : Bool :=
  a.tagIdx < b.tagIdx || (a.tagIdx == b.tagIdx && a.rank < b.rank)

/-- Non-strict version of `Hai.lt`. -/
def le (a b : Hai) : Bool := lt a b || a == b

/-- `Hai::is_valid`: 1..9 of each suit and 1..7 honors on four players;
only 1m and 9m among characters on three players. -/
def is_valid (h : Hai) (pn : PlayerNumber) : Bool :=
  match h, pn with
  | manzu n, .four => 1 ≤ n && n ≤ 9
  | manzu n, .three => n == 1 || n == 9
  | pinzu n, _ => 1 ≤ n && n ≤ 9
  | souzu n, _ => 1 ≤ n && n ≤ 9
  | jihai n, _ => 1 ≤ n && n ≤ 7

/-- `Hai::previous`. -/
def previous (h : Hai) (pn : PlayerNumber) (doraLoop : Bool) : Option Hai :=
  match h with
  | manzu n =>
    match pn with
    | .four =>
      if n ≠ 1 then some (manzu (n - 1))
      else if doraLoop then some (manzu 9)
      else none
    | .three =>
      if doraLoop then
        if n = 1 then some (manzu 9)
        else if n = 9 then some (manzu 1)
        else none
      else none
  | pinzu n =>
    if n ≠ 1 then some (pinzu (n - 1))
    else if doraLoop then some (pinzu 9)
    else none
  | souzu n =>
    if n ≠ 1 then some (souzu (n - 1))
    else if doraLoop then some (souzu 9)
    else none
  | jihai n =>
    if doraLoop then
      if n = 1 then some (jihai 4)
      else if n = 5 then some (jihai 7)
      else some (jihai (n - 1))
    else if n ≠ 1 then some (jihai (n - 1))
    else none

/-- `Hai::next`. -/
def next (h : Hai) (pn : PlayerNumber) (doraLoop : Bool) : Option Hai :=
  match h with
  | manzu n =>
    match pn with
    | .four =>
      if n ≠ 9 then some (manzu (n + 1))
      else if doraLoop then some (manzu 1)
      else none
    | .three =>
      if doraLoop then
        if n = 1 then some (manzu 9)
        else if n = 9 then some (manzu 1)
        else none
      else none
  | pinzu n =>
    if n ≠ 9 then some (pinzu (n + 1))
    else if doraLoop then some (pinzu 1)
    else none
  | souzu n =>
    if n ≠ 9 then some (souzu (n + 1))
    else if doraLoop then some (souzu 1)
    else none
  | jihai n =>
    if doraLoop then
      if n = 4 then some (jihai 1)
      else if n = 7 then some (jihai 5)
      else some (jihai (n + 1))
    else if n ≠ 7 then some (jihai (n + 1))
    else none

/-- `Hai::yaochuupai_type` as the sorted list the `BTreeSet` iterates. -/
def yaochuupai_type : List Hai :=
  [manzu 1, manzu 9, pinzu 1, pinzu 9, souzu 1, souzu 9,
   jihai 1, jihai 2, jihai 3, jihai 4, jihai 5, jihai 6, jihai 7]

/-- `Hai::all_type` as the sorted list the `BTreeSet` iterates. -/
def all_type (pn : PlayerNumber) : List Hai :=
  (match pn with
   | .four => [manzu 1, manzu 2, manzu 3, manzu 4, manzu 5,
               manzu 6, manzu 7, manzu 8, manzu 9]
   | .three => [manzu 1, manzu 9]) ++
  [pinzu 1, pinzu 2, pinzu 3, pinzu 4, pinzu 5, pinzu 6, pinzu 7,
   pinzu 8, pinzu 9,
   souzu 1, souzu 2, souzu 3, souzu 4, souzu 5, souzu 6, souzu 7,
   souzu 8, souzu 9,
   jihai 1, jihai 2, jihai 3, jihai 4, jihai 5, jihai 6, jihai 7]

end Hai

/-- Insert into a list sorted by `Hai.le`, preserving sortedness. -/
def insertHai (h : Hai) : List Hai → List Hai
  | [] => [h]
  | x :: xs => if Hai.le h x then h :: x :: xs else x :: insertHai h xs

/-- `Vec::sort` on tiles: the unique ascending reordering of the multiset. -/
def sortHai : List Hai → List Hai
  | [] => []
  | x :: xs => insertHai x (sortHai xs)

/-- `remove_once` of the source: drop the first occurrence of `item`. -/
def remove_once [DecidableEq α] : List α → α → List α
  | [], _ => []
  | x :: xs, item => if x = item then xs else x :: remove_once xs item

/-- Lookup in an association list (`BTreeMap` access). -/
def alookup : List (Hai × Nat) → Hai → Option Nat
  | [], _ => none
  | (k, v) :: rest, h => if k = h then some v else alookup rest h

/-- `BTreeMap::insert`: replace the value at an existing key, otherwise
insert at the key-ordered position. -/
def map_insert : List (Hai × Nat) → Hai → Nat → List (Hai × Nat)
  | [], h, v => [(h, v)]
  | (k, w) :: rest, h, v =>
    if h = k then (h, v) :: rest
    else if Hai.lt h k then (h, v) :: (k, w) :: rest
    else (k, w) :: map_insert rest h v

/-- Remove a key from an association list (`BTreeMap::remove`). -/
def map_remove : List (Hai × Nat) → Hai → List (Hai × Nat)
  | [], _ => []
  | (k, w) :: rest, h => if k = h then rest else (k, w) :: map_remove rest h

/-- The wall (`Haiyama`): a per-tile count map. -/
structure Haiyama where
  map : List (Hai × Nat)
deriving DecidableEq, Repr

namespace Haiyama

/-- `Haiyama::new`: every valid tile with count 4. -/
def new (pn : PlayerNumber) : Haiyama :=
  ⟨(Hai.all_type pn).map (fun h => (h, 4))⟩

/-- `Haiyama::add`.  `none` models the panic of `self.map[hai]` on a
missing key; otherwise the source either increments (below 4) or errors. -/
def add (hy : Haiyama) (h : Hai) : Option (Except String Haiyama) :=
  match alookup hy.map h with
  | none => none
  | some n =>
    if n < 4 then some (.ok ⟨map_insert hy.map h (n + 1)⟩)
    else some (.error "Already 4 in haiyama, cannot add more one.")

/-- `Haiyama::discard`. -/
def discard (hy : Haiyama) (h : Hai) : Option (Except String Haiyama) :=
  match alookup hy.map h with
  | none => none
  | some n =>
    if n > 0 then some (.ok ⟨map_insert hy.map h (n - 1)⟩)
    else some (.error "Already no more in haiyama, cannot discard more one.")

/-- Loop body of `Haiyama::add_with_vec`; `backup` is the entry snapshot. -/
def addGo (autoRestore : Bool) (backup : Haiyama) :
    Haiyama → List Hai → Option (Haiyama × Option String)
  | cur, [] => some (cur, none)
  | cur, h :: rest =>
    match cur.add h with
    | none => none
    | some (.error e) => some ((if autoRestore then backup else cur), some e)
    | some (.ok cur') => addGo autoRestore backup cur' rest

/-- `Haiyama::add_with_vec`: returns the final wall and the error, if any.
With `autoRestore` the wall reverts to the entry snapshot on error. -/
def add_with_vec (hy : Haiyama) (v : List Hai) (autoRestore : Bool) :
    Option (Haiyama × Option String) :=
  addGo autoRestore hy hy v

/-- Loop body of `Haiyama::discard_with_vec`. -/
def discardGo (autoRestore : Bool) (backup : Haiyama) :
    Haiyama → List Hai → Option (Haiyama × Option String)
  | cur, [] => some (cur, none)
  | cur, h :: rest =>
    match cur.discard h with
    | none => none
    | some (.error _) =>
      some ((if autoRestore then backup else cur),
            some "Not enough in haiyama to discard.")
    | some (.ok cur') => discardGo autoRestore backup cur' rest

/-- `Haiyama::discard_with_vec`. -/
def discard_with_vec (hy : Haiyama) (v : List Hai) (autoRestore : Bool) :
    Option (Haiyama × Option String) :=
  discardGo autoRestore hy hy v

end Haiyama

/-- Meld type (`Mentsu`): run, triplet, quad. -/
inductive Mentsu where
  | juntsu (a b c : Hai)
  | koutsu (h : Hai)
  | kantsu (h : Hai)
deriving DecidableEq, Repr

/-- Resolved kan kinds (`Kan`). -/
inductive Kan where
  | daiminkan (kantsu : Mentsu) (rinshanhai : Option Hai)
  | kakan (kantsu : Mentsu) (rinshanhai : Option Hai)
  | ankan (kantsu : Mentsu) (rinshanhai : Option Hai)
  | unknown (kantsu : Mentsu) (rinshanhai : Option Hai)
deriving DecidableEq, Repr

/-- Call kinds (`Naku`). -/
inductive Naku where
  | chii (juntsu : Mentsu) (nakihai : Hai)
  | pon (m : Mentsu)
  | kan (k : Kan)
deriving DecidableEq, Repr

/-- The hand (`Tehai`): free tiles plus fixed melds. -/
structure Tehai where
  juntehai : List Hai
  fuuro : List Mentsu
deriving DecidableEq, Repr

namespace Tehai

/-- `Tehai::discard`: remove the first occurrence of `hai` from the free
tiles, or error when absent. -/
def discard (t : Tehai) (hai : Hai) : Except String Tehai :=
  if hai ∈ t.juntehai then
    .ok { t with juntehai := remove_once t.juntehai hai }
  else
    .error "No enough hai to discard."

/-- Loop of `Tehai::chii`: discard each run tile different from the
called tile; the source restores the backup on failure, which the
`Except` threading models (the error carries no state). -/
def chiiGo (nakihai : Hai) : Tehai → List Hai → Except String Tehai
  | t, [] => .ok t
  | t, h :: rest =>
    if h = nakihai then chiiGo nakihai t rest
    else
      match t.discard h with
      | .error e => .error e
      | .ok t' => chiiGo nakihai t' rest

/-- `Tehai::chii`. -/
def chii (t : Tehai) (juntsu : Mentsu) (nakihai : Hai) : Except String Tehai :=
  match juntsu with
  | .juntsu a b c =>
    match chiiGo nakihai t [a, b, c] with
    | .error e => .error e
    | .ok t' => .ok { t' with fuuro := t'.fuuro ++ [juntsu] }
  | _ => .error "Logic error: Tehai chii can only accept Mentsu Juntsu."

/-- `Tehai::pon`. -/
def pon (t : Tehai) (koutsu : Mentsu) : Except String Tehai :=
  match koutsu with
  | .koutsu hai =>
    match t.discard hai with
    | .error e => .error e
    | .ok t1 =>
      match t1.discard hai with
      | .error e => .error e
      | .ok t2 => .ok { t2 with fuuro := t2.fuuro ++ [koutsu] }
  | _ => .error "Logic error: Tehai pon can only accept Mentsu Koutsu."

/-- The `fuuro` scan of `Tehai::kan`: the source looks for an existing
`Mentsu::Kantsu` of the same tile (note: a quad, not a triplet) and
remembers its index. -/
def findKantsuIdx (fuuro : List Mentsu) (hai : Hai) : Option Nat :=
  match fuuro with
  | [] => none
  | m :: rest =>
    match m with
    | .kantsu i => if i = hai then some 0 else (findKantsuIdx rest hai).map (· + 1)
    | _ => (findKantsuIdx rest hai).map (· + 1)

/-- Append the replacement tile and re-sort (`Tehai::kan` tail). -/
def pushRinshan (t : Tehai) (rinshanhai : Option Hai) : Tehai :=
  match rinshanhai with
  | none => t
  | some r => { t with juntehai := sortHai (t.juntehai ++ [r]) }

/-- `Tehai::kan`: resolve an ambiguous kan against the hand, returning
the mutated hand and the resolved kind.  Mirrors the source, including
the `fuuro` scan for a `Kantsu` (`exist_koutsu`). -/
def kan (t : Tehai) (kantsu : Mentsu) (rinshanhai : Option Hai) :
    Except String (Tehai × Kan) :=
  match kantsu with
  | .kantsu hai =>
    let hai_num := t.juntehai.count hai
    let existIdx := findKantsuIdx t.fuuro hai
    if t.juntehai.length % 3 = 2 then
      if hai_num = 1 ∧ existIdx.isSome then
        match t.discard hai with
        | .error e => .error e
        | .ok t1 =>
          let t2 := { t1 with fuuro := t1.fuuro.set (existIdx.getD 0) kantsu }
          .ok (pushRinshan t2 rinshanhai, .kakan kantsu rinshanhai)
      else if hai_num = 4 ∧ existIdx.isNone then
        match t.discard hai with
        | .error e => .error e
        | .ok t1 =>
          match t1.discard hai with
          | .error e => .error e
          | .ok t2 =>
            match t2.discard hai with
            | .error e => .error e
            | .ok t3 =>
              match t3.discard hai with
              | .error e => .error e
              | .ok t4 =>
                let t5 := { t4 with fuuro := t4.fuuro ++ [kantsu] }
                .ok (pushRinshan t5 rinshanhai, .ankan kantsu rinshanhai)
      else .error "Logic error: Tehai currently is not able to kan."
    else if t.juntehai.length % 3 = 1 then
      if hai_num = 3 ∧ existIdx.isNone then
        match t.discard hai with
        | .error e => .error e
        | .ok t1 =>
          match t1.discard hai with
          | .error e => .error e
          | .ok t2 =>
            match t2.discard hai with
            | .error e => .error e
            | .ok t3 =>
              let t4 := { t3 with fuuro := t3.fuuro ++ [kantsu] }
              .ok (pushRinshan t4 rinshanhai, .daiminkan kantsu rinshanhai)
      else .error "Logic error: Tehai currently is not able to kan."
    else .error "Logic error: Tehai currently is not able to kan."
  | _ => .error "Logic error: Tehai kan can only accept Mentsu Kantsu."

/-- `Tehai::de_chii`: undo a chii. -/
def de_chii (t : Tehai) (juntsu : Mentsu) (nakihai : Hai) : Except String Tehai :=
  match juntsu with
  | .juntsu a b c =>
    if juntsu ∈ t.fuuro then
      let t1 := { t with fuuro := remove_once t.fuuro juntsu }
      let back := ([a, b, c].filter (fun h => h ≠ nakihai))
      .ok { t1 with juntehai := sortHai (t1.juntehai ++ back) }
    else .error "Logic error: can not find juntsu in fuuro."
  | _ => .error "Logic error: Tehai de_chii can only accept Mentsu Juntsu."

/-- `Tehai::de_pon`: undo a pon. -/
def de_pon (t : Tehai) (koutsu : Mentsu) : Except String Tehai :=
  match koutsu with
  | .koutsu hai =>
    if koutsu ∈ t.fuuro then
      let t1 := { t with fuuro := remove_once t.fuuro koutsu }
      .ok { t1 with juntehai := sortHai (t1.juntehai ++ [hai, hai]) }
    else .error "Logic error: can not find koutsu in fuuro."
  | _ => .error "Logic error: Tehai de_pon can only accept Mentsu Koutsu."

/-- `Tehai::de_kan`: undo a resolved kan; on a failing replacement-tile
removal the source restores the backup, so the error carries no state. -/
def de_kan (t : Tehai) (k : Kan) : Except String Tehai :=
  let step : Except String (Tehai × Option Hai) :=
    match k with
    | .daiminkan kantsu rinshanhai =>
      match kantsu with
      | .kantsu hai =>
        if kantsu ∈ t.fuuro then
          let t1 := { t with fuuro := remove_once t.fuuro kantsu }
          .ok ({ t1 with juntehai := t1.juntehai ++ [hai, hai, hai] }, rinshanhai)
        else .error "Logic error: can not find kantsu in fuuro."
      | _ => .error "Logic error: interaction Kan can only include Kantsu."
    | .ankan kantsu rinshanhai =>
      match kantsu with
      | .kantsu hai =>
        if kantsu ∈ t.fuuro then
          let t1 := { t with fuuro := remove_once t.fuuro kantsu }
          .ok ({ t1 with juntehai := t1.juntehai ++ [hai, hai, hai, hai] }, rinshanhai)
        else .error "Logic error: can not find kantsu in fuuro."
      | _ => .error "Logic error: interaction Kan can only include Kantsu."
    | .kakan kantsu rinshanhai =>
      match kantsu with
      | .kantsu hai =>
        if kantsu ∈ t.fuuro then
          let t1 := { t with fuuro := remove_once t.fuuro kantsu ++ [Mentsu.koutsu hai] }
          .ok ({ t1 with juntehai := t1.juntehai ++ [hai] }, rinshanhai)
        else .error "Logic error: can not find kantsu in fuuro."
      | _ => .error "Logic error: interaction Kan can only include Kantsu."
    | .unknown _ _ =>
      .error "Logic error: Tehai de_kan can not accept Kan Unknown."
  match step with
  | .error e => .error e
  | .ok (t1, rinshanhai) =>
    match rinshanhai with
    | none => .ok t1
    | some r =>
      match t1.discard r with
      | .error e => .error e
      | .ok t2 => .ok t2

end Tehai

/-- Winning pattern kinds (`Hourakei`). -/
inductive Hourakei where
  | mentsute
  | chiitoitsu
  | kokushimusou
deriving DecidableEq, Repr

/-- A decomposition of the free tiles (`Decomposer`).  `Toitsu`,
`Taatsu` and `Ukihai` are tuple structs over tiles in the source and are
embedded as the tiles / pairs themselves. -/
structure Decomposer where
  mentsu_vec : List Mentsu
  toitsu_vec : List Hai
  taatsu_vec : List (Hai × Hai)
  valid_ukihai_vec : List Hai
  invalid_ukihai_vec : List Hai
  hourakei : Hourakei
deriving DecidableEq, Repr

/-- `Decomposer::new`. -/
def Decomposer.new : Decomposer := ⟨[], [], [], [], [], .mentsute⟩

/-- Is the tile an honor (`matches!(h, Hai::Jihai(_))`). -/
def Hai.isJihai : Hai → Bool
  | .jihai _ => true
  | _ => false

lemma remove_once_length_le [DecidableEq α] (l : List α) (a : α) :
    (remove_once l a).length ≤ l.length := by
  induction l with
  | nil => simp [remove_once]
  | cons x xs ih =>
    simp only [remove_once]
    split
    · simp
    · simpa using Nat.succ_le_succ ih

lemma remove_once_cons_self [DecidableEq α] (a : α) (l : List α) :
    remove_once (a :: l) a = l := by
  simp [remove_once]

/-- `Tehai::split`, as a recursion over the (sorted) free-tile list.
Each branch removes the consumed tiles with `remove_once` and recurses;
the leaf decomposers are collected in the source's push order.  The
`fuel` argument only makes the recursion structural (so that it
computes by kernel reduction): every recursive call strictly shrinks
the tile list, so with `fuel ≥ length` the zero-fuel case is
unreachable. -/
def splitGo (pn : PlayerNumber) : Nat → List Hai → Decomposer → List Decomposer
  | _, [], d => [d]
  | _, [x], d => [{ d with invalid_ukihai_vec := d.invalid_ukihai_vec ++ [x] }]
  | 0, _ :: _ :: _, _ => []
  | fuel + 1, current :: next :: rest, d =>
    let toitsuPart :=
      if current = next then
        splitGo pn fuel
          (remove_once (remove_once (current :: next :: rest) current) current)
          { d with toitsu_vec := d.toitsu_vec ++ [current] }
      else []
    let koutsuPart :=
      match rest with
      | [] => []
      | next_next :: rest2 =>
        if current = next ∧ current = next_next then
          splitGo pn fuel
            (remove_once (remove_once (remove_once
              (current :: next :: next_next :: rest2) current) current) current)
            { d with mentsu_vec := d.mentsu_vec ++ [Mentsu.koutsu current] }
        else []
    let runPart :=
      if current.isJihai then []
      else
        match Hai.next current pn false with
        | none => []
        | some cp1 =>
          let cp2opt := Hai.next cp1 pn false
          if cp1 ∈ current :: next :: rest then
            let taatsu1 :=
              splitGo pn fuel
                (remove_once (remove_once (current :: next :: rest) current) cp1)
                { d with taatsu_vec := d.taatsu_vec ++ [(current, cp1)] }
            let juntsuPart :=
              match cp2opt with
              | none => []
              | some cp2 =>
                if cp2 ∈ current :: next :: rest then
                  splitGo pn fuel
                    (remove_once (remove_once (remove_once
                      (current :: next :: rest) current) cp1) cp2)
                    { d with mentsu_vec :=
                        d.mentsu_vec ++ [Mentsu.juntsu current cp1 cp2] }
                else []
            taatsu1 ++ juntsuPart
          else
            match cp2opt with
            | none => []
            | some cp2 =>
              if cp2 ∈ current :: next :: rest then
                splitGo pn fuel
                  (remove_once (remove_once (current :: next :: rest) current) cp2)
                  { d with taatsu_vec := d.taatsu_vec ++ [(current, cp2)] }
              else []
    let ukihaiPart :=
      splitGo pn fuel (remove_once (current :: next :: rest) current)
        { d with invalid_ukihai_vec := d.invalid_ukihai_vec ++ [current] }
    toitsuPart ++ koutsuPart ++ runPart ++ ukihaiPart

/-- The chiitoitsu scan of `Tehai::decompose`: walk the sorted free
tiles tracking the previous tile and whether it was already used for a
pair. -/
def chiitoiGo : Hai → Bool → List Hai → Decomposer → Decomposer
  | last, used, [], d =>
    if !used then { d with valid_ukihai_vec := d.valid_ukihai_vec ++ [last] }
    else d
  | last, used, cur :: rest, d =>
    if cur = last then
      if !used then
        chiitoiGo last true rest
          { d with toitsu_vec := d.toitsu_vec ++ [cur] }
      else
        chiitoiGo last true rest
          { d with invalid_ukihai_vec := d.invalid_ukihai_vec ++ [cur] }
    else
      let d' :=
        if !used then { d with valid_ukihai_vec := d.valid_ukihai_vec ++ [last] }
        else d
      chiitoiGo cur false rest d'

/-- The chiitoitsu decomposer built by `Tehai::decompose` (the source
only builds it when the iterator yields a first tile). -/
def chiitoiDecomposer (l : List Hai) : Option Decomposer :=
  match l with
  | [] => none
  | h :: rest =>
    some (chiitoiGo h false rest { Decomposer.new with hourakei := .chiitoitsu })

/-- The kokushimusou merge of `Tehai::decompose`: walk the sorted
yaochuu kinds against the sorted free tiles, marking the first copy of
each kind and a single duplicate as valid, everything else invalid.
The `fuel` argument only makes the recursion structural; each step
consumes from one of the two lists. -/
def kokushiGo : Nat → List Hai → List Hai → Bool → Bool → Decomposer → Decomposer
  | _, [], _, _, _, d => d
  | _, _ :: _, [], _, _, d => d
  | 0, _ :: _, _ :: _, _, _, d => d
  | fuel + 1, y :: ys, j :: js, toitsuIncluded, iterChanged, d =>
    if Hai.lt y j then kokushiGo fuel ys (j :: js) toitsuIncluded true d
    else if Hai.lt j y then
      kokushiGo fuel (y :: ys) js toitsuIncluded iterChanged
        { d with invalid_ukihai_vec := d.invalid_ukihai_vec ++ [j] }
    else
      if iterChanged then
        kokushiGo fuel (y :: ys) js toitsuIncluded false
          { d with valid_ukihai_vec := d.valid_ukihai_vec ++ [j] }
      else if !toitsuIncluded then
        kokushiGo fuel (y :: ys) js true false
          { d with valid_ukihai_vec := d.valid_ukihai_vec ++ [j] }
      else
        kokushiGo fuel (y :: ys) js toitsuIncluded false
          { d with invalid_ukihai_vec := d.invalid_ukihai_vec ++ [j] }

/-- The kokushimusou decomposer built by `Tehai::decompose`.  The fuel
`|yaochuu| + |l|` bounds the merge (each step consumes from one side). -/
def kokushiDecomposer (l : List Hai) : Decomposer :=
  kokushiGo (Hai.yaochuupai_type.length + l.length) Hai.yaochuupai_type l
    false true { Decomposer.new with hourakei := .kokushimusou }

/-- `Decomposer::shanten`.  `usize` subtraction is embedded as truncated
`Nat` subtraction; the source never underflows on the decomposers it
builds. -/
def Decomposer.shanten (d : Decomposer) (juntehai_number : Nat) : Int :=
  match d.hourakei with
  | .mentsute =>
    if ¬ d.toitsu_vec.Nodup then 13
    else
      let mx := (juntehai_number + 1) / 3
      let taatsu_num := min (mx - 1 - d.mentsu_vec.length) d.taatsu_vec.length
      let toitsu_num :=
        min (mx - d.mentsu_vec.length - taatsu_num) d.toitsu_vec.length
      (((juntehai_number / 3) * 2 : Nat) : Int)
        - 2 * d.mentsu_vec.length - toitsu_num - taatsu_num
  | .chiitoitsu =>
    13 - 2 * (d.toitsu_vec.length : Int)
      - ((min d.valid_ukihai_vec.length (7 - d.toitsu_vec.length) : Nat) : Int)
  | .kokushimusou => 13 - (d.valid_ukihai_vec.length : Int)

/-- The `push_into_decomposers` closure of `Tehai::decompose`: track the
minimum shanten and the set (dedup list) of decomposers achieving it. -/
def push_into (n : Nat) (acc : Int × List Decomposer) (d : Decomposer) :
    Int × List Decomposer :=
  if d.shanten n = acc.1 then
    (acc.1, if d ∈ acc.2 then acc.2 else acc.2 ++ [d])
  else if d.shanten n < acc.1 then (d.shanten n, [d])
  else acc

/-- `Tehai::decompose`. -/
def Tehai.decompose (t : Tehai) (pn : PlayerNumber) :
    Except String (Int × List Decomposer) :=
  if t.juntehai.length % 3 ≠ 2 then
    .error "The number of hai on hand must be 3k+2."
  else
    let n := t.juntehai.length
    let init : Int × List Decomposer := ((((n / 3) * 2 : Nat) : Int), [])
    let mentsuteDecs :=
      (splitGo pn t.juntehai.length t.juntehai Decomposer.new).map
        (fun d => { d with hourakei := Hourakei.mentsute })
    let acc1 := mentsuteDecs.foldl (push_into n) init
    if n ≠ 14 ∨ t.fuuro.length ≠ 0 then .ok acc1
    else
      let acc2 :=
        match chiitoiDecomposer t.juntehai with
        | none => acc1
        | some d => push_into n acc1 d
      let acc3 := push_into n acc2 (kokushiDecomposer t.juntehai)
      .ok acc3

/-- Game state (`State`). -/
inductive GMState where
  | waitToInit
  | fullHai
  | lackOneHai
  | waitForRinshanhai
deriving DecidableEq, Repr

/-- Wall operations (`HaiyamaOperation`). -/
inductive HaiyamaOperation where
  | add (v : List Hai)
  | discard (v : List Hai)
deriving DecidableEq, Repr

/-- Hand operations (`TehaiOperation`). -/
inductive TehaiOperation where
  | init (t : Tehai)
  | add (hai : Hai) (haiyama_sensitive : Bool)
  | discard (hai : Hai)
  | naku (kind : Naku) (haiyama_sensitive : Bool)
deriving DecidableEq, Repr

/-- All operations (`Operation`). -/
inductive Operation where
  | haiyama (kind : HaiyamaOperation) (haiyama_sensitive : Bool)
  | tehai (op : TehaiOperation)
deriving DecidableEq, Repr

/-- The game manager (`GameManager`).  `sutehai_type` is the sorted
list the `BTreeSet` iterates; `history` grows at the tail. -/
structure GameManager where
  haiyama : Haiyama
  tehai : Option Tehai
  sutehai_type : List Hai
  state : GMState
  player_number : PlayerNumber
  history : List (Operation × GMState × List Hai)
deriving DecidableEq, Repr

/-- `GameManager::new`. -/
def GameManager.new (pn : PlayerNumber) : GameManager :=
  ⟨Haiyama.new pn, none, [], .waitToInit, pn, []⟩

/-- A wait condition (`MachiCondition`): candidate discard, waited
tiles with remaining counts, furiten flag. -/
structure MachiCondition where
  sutehai : Hai
  machihai : List (Hai × Nat)
  furiten : Bool
deriving DecidableEq, Repr

namespace MachiCondition

/-- `MachiCondition::nokori`: total remaining copies over the waits. -/
def nokori (c : MachiCondition) : Nat := (c.machihai.map Prod.snd).sum

/-- `MachiCondition::new`. -/
def new (sutehai : Hai) : MachiCondition := ⟨sutehai, [], false⟩

end MachiCondition

/-- Loop of `MachiCondition::handle_taatsu`.  Note the source's Pinzu
branch: for an adjacent partial it inserts `previous` of *both* ends
(where the Manzu and Souzu branches insert `previous` of the left end
and `next` of the right end). -/
def handleTaatsuGo (pn : PlayerNumber) :
    MachiCondition → List (Hai × Hai) → Except String MachiCondition
  | c, [] => .ok c
  | c, (t0, t1) :: rest =>
    match t0, t1 with
    | .manzu lhs, .manzu rhs =>
      if rhs - lhs = 2 then
        handleTaatsuGo pn
          { c with machihai := map_insert c.machihai (.manzu (lhs + 1)) 4 } rest
      else if rhs - lhs = 1 then
        let c1 :=
          match Hai.previous t0 pn false with
          | some machi => { c with machihai := map_insert c.machihai machi 4 }
          | none => c
        let c2 :=
          match Hai.next t1 pn false with
          | some machi => { c1 with machihai := map_insert c1.machihai machi 4 }
          | none => c1
        handleTaatsuGo pn c2 rest
      else handleTaatsuGo pn c rest
    | .pinzu lhs, .pinzu rhs =>
      if rhs - lhs = 2 then
        handleTaatsuGo pn
          { c with machihai := map_insert c.machihai (.pinzu (lhs + 1)) 4 } rest
      else if rhs - lhs = 1 then
        let c1 :=
          match Hai.previous t0 pn false with
          | some machi => { c with machihai := map_insert c.machihai machi 4 }
          | none => c
        let c2 :=
          match Hai.previous t1 pn false with
          | some machi => { c1 with machihai := map_insert c1.machihai machi 4 }
          | none => c1
        handleTaatsuGo pn c2 rest
      else handleTaatsuGo pn c rest
    | .souzu lhs, .souzu rhs =>
      if rhs - lhs = 2 then
        handleTaatsuGo pn
          { c with machihai := map_insert c.machihai (.souzu (lhs + 1)) 4 } rest
      else if rhs - lhs = 1 then
        let c1 :=
          match Hai.previous t0 pn false with
          | some machi => { c with machihai := map_insert c.machihai machi 4 }
          | none => c
        let c2 :=
          match Hai.next t1 pn false with
          | some machi => { c1 with machihai := map_insert c1.machihai machi 4 }
          | none => c1
        handleTaatsuGo pn c2 rest
      else handleTaatsuGo pn c rest
    | _, _ => .error "Logic error: Code cannot reach here."

namespace MachiCondition

/-- `MachiCondition::handle_taatsu`. -/
def handle_taatsu (c : MachiCondition) (d : Decomposer) (pn : PlayerNumber) :
    Except String MachiCondition :=
  handleTaatsuGo pn c d.taatsu_vec

/-- `MachiCondition::handle_mentsute`. -/
def handle_mentsute (c : MachiCondition) (d : Decomposer) (pn : PlayerNumber)
    (juntehai_number : Nat) : Except String MachiCondition :=
  let mx := (juntehai_number + 1) / 3
  if d.mentsu_vec.length + d.taatsu_vec.length > mx - 1 then .ok c
  else if d.mentsu_vec.length + d.taatsu_vec.length + d.toitsu_vec.length > mx
  then .ok c
  else
    match c.handle_taatsu d pn with
    | .error e => .error e
    | .ok c1 =>
      let c2 :=
        if d.toitsu_vec.length > 1 then
          d.toitsu_vec.foldl
            (fun acc t => { acc with machihai := map_insert acc.machihai t 4 }) c1
        else c1
      if d.mentsu_vec.length + d.taatsu_vec.length + d.toitsu_vec.length < mx
      then
        let c3 :=
          d.toitsu_vec.foldl
            (fun acc t => { acc with machihai := map_insert acc.machihai t 4 }) c2
        let c4 :=
          d.invalid_ukihai_vec.foldl
            (fun acc u =>
              if u = acc.sutehai then acc
              else
                let acc1 := { acc with machihai := map_insert acc.machihai u 4 }
                if d.mentsu_vec.length + d.taatsu_vec.length < mx - 1 then
                  if u.isJihai then acc1
                  else
                    let acc2 :=
                      match Hai.previous u pn false with
                      | some m =>
                        let a := { acc1 with
                                   machihai := map_insert acc1.machihai m 4 }
                        match Hai.previous m pn false with
                        | some m2 =>
                          { a with machihai := map_insert a.machihai m2 4 }
                        | none => a
                      | none => acc1
                    let acc3 :=
                      match Hai.next u pn false with
                      | some m =>
                        let a := { acc2 with
                                   machihai := map_insert acc2.machihai m 4 }
                        match Hai.next m pn false with
                        | some m2 =>
                          { a with machihai := map_insert a.machihai m2 4 }
                        | none => a
                      | none => acc2
                    acc3
                else acc1) c3
        .ok c4
      else .ok c2

/-- `MachiCondition::handle_chiitoitsu`. -/
def handle_chiitoitsu (c : MachiCondition) (d : Decomposer)
    (pn : PlayerNumber) : Except String MachiCondition :=
  if d.toitsu_vec.length + d.valid_ukihai_vec.length ≥ 7 then
    .ok (d.valid_ukihai_vec.foldl
      (fun acc h =>
        if h ≠ acc.sutehai then
          { acc with machihai := map_insert acc.machihai h 4 }
        else acc) c)
  else
    let all_hai := (Hai.all_type pn).filter (fun h => h ∉ d.toitsu_vec)
    .ok (all_hai.foldl
      (fun acc h => { acc with machihai := map_insert acc.machihai h 4 }) c)

end MachiCondition

/-- The adjacent-duplicate scan of `handle_kokushimusou` detecting a
yaochuu pair among the valid floats. -/
def yaochuuPairScan : List Hai → Bool
  | [] => false
  | x :: rest => go x rest
where
  go : Hai → List Hai → Bool
    | _, [] => false
    | last, h :: t => if h = last then true else go h t

/-- The merge loop of `handle_kokushimusou`: insert each yaochuu kind
missing from the valid floats; returns the pending yaochuu value, the
rest of the yaochuu iterator and the updated condition.  The `fuel`
argument only makes the recursion structural; each step consumes from
one of the two sides. -/
def kokushiMachiGo :
    Nat → Option Hai → List Hai → List Hai → Bool → MachiCondition →
    Option Hai × List Hai × MachiCondition
  | _, none, yrest, _, _, c => (none, yrest, c)
  | _, some y, yrest, [], _, c => (some y, yrest, c)
  | 0, some y, yrest, _ :: _, _, c => (some y, yrest, c)
  | fuel + 1, some y, yrest, j :: js, used, c =>
    if Hai.lt y j then
      let c' :=
        if !used then { c with machihai := map_insert c.machihai y 4 } else c
      kokushiMachiGo fuel yrest.head? yrest.tail (j :: js) false c'
    else if Hai.lt j y then kokushiMachiGo fuel (some y) yrest js used c
    else kokushiMachiGo fuel (some y) yrest js true c

namespace MachiCondition

/-- `MachiCondition::handle_kokushimusou`. -/
def handle_kokushimusou (c : MachiCondition) (d : Decomposer) :
    Except String MachiCondition :=
  let yaochuupai_pair := yaochuuPairScan d.valid_ukihai_vec
  if !yaochuupai_pair then
    .ok (Hai.yaochuupai_type.foldl
      (fun acc y => { acc with machihai := map_insert acc.machihai y 4 }) c)
  else
    let r := kokushiMachiGo
      (Hai.yaochuupai_type.length + d.valid_ukihai_vec.length)
      Hai.yaochuupai_type.head? Hai.yaochuupai_type.tail
      d.valid_ukihai_vec false c
    -- `if !yaochuupai_pair { insert pending }` is dead here (the pair exists)
    .ok (r.2.1.foldl
      (fun acc y => { acc with machihai := map_insert acc.machihai y 4 }) r.2.2)

/-- `MachiCondition::handle`. -/
def handle (c : MachiCondition) (d : Decomposer) (juntehai_number : Nat)
    (pn : PlayerNumber) : Except String MachiCondition :=
  if d.shanten juntehai_number ≤ -1 then
    .error "Logic Error: Code cannot reach here."
  else
    if c.sutehai ∉ d.invalid_ukihai_vec ∧
        ¬(d.hourakei = .chiitoitsu ∧ c.sutehai ∈ d.valid_ukihai_vec) then
      .ok c
    else
      match d.hourakei with
      | .mentsute => c.handle_mentsute d pn juntehai_number
      | .chiitoitsu => c.handle_chiitoitsu d pn
      | .kokushimusou => c.handle_kokushimusou d

end MachiCondition

/-- The interactive pass of `MachiCondition::finally`: set furiten from
the discarded set, overwrite each wait count from the wall (`none`
models the panic of wall indexing on a missing key) and collect the
keys that dropped to zero. -/
def finallyIntGo (gm : GameManager) :
    List (Hai × Nat) → Bool → Option (List (Hai × Nat) × Bool × List Hai)
  | [], f => some ([], f, [])
  | (k, _) :: rest, f =>
    let f' := f || decide (k ∈ gm.sutehai_type)
    match alookup gm.haiyama.map k with
    | none => none
    | some v =>
      match finallyIntGo gm rest f' with
      | none => none
      | some (m, ff, zs) =>
        some ((k, v) :: m, ff, if v = 0 then k :: zs else zs)

/-- The per-tile decrement of the non-interactive `finally` pass. -/
def check_count (m : List (Hai × Nat)) (item : Hai) : List (Hai × Nat) :=
  match alookup m item with
  | none => m
  | some v =>
    if v > 1 then map_insert m item (v - 1)
    else if v = 1 then map_remove m item
    else m

/-- Tiles contributed by a fixed meld (3 for run/triplet, 4 for quad). -/
def mentsuTiles : Mentsu → List Hai
  | .juntsu a b c => [a, b, c]
  | .koutsu h => [h, h, h]
  | .kantsu h => [h, h, h, h]

/-- `MachiCondition::finally`. -/
def MachiCondition.final_pass (c : MachiCondition) (t : Tehai)
    (gm : Option GameManager) : Option MachiCondition :=
  match gm with
  | some gm =>
    match finallyIntGo gm c.machihai c.furiten with
    | none => none
    | some (m, f, zs) =>
      some { c with machihai := zs.foldl map_remove m, furiten := f }
  | none =>
    let m1 := t.juntehai.foldl check_count c.machihai
    let m2 := (t.fuuro.flatMap mentsuTiles).foldl check_count m1
    some { c with machihai := m2 }

/-- Accumulate a tile into the candidate-discard set, first-seen order. -/
def addUnique (l : List Hai) (h : Hai) : List Hai :=
  if h ∈ l then l else l ++ [h]

/-- The `sutehai_set` collection of `Tehai::analyze`. -/
def collectSutehai (ds : List Decomposer) : List Hai :=
  ds.foldl
    (fun acc d =>
      let acc1 := d.invalid_ukihai_vec.foldl addUnique acc
      if d.hourakei = .chiitoitsu ∧ d.invalid_ukihai_vec.length = 0 then
        d.valid_ukihai_vec.foldl addUnique acc1
      else acc1) []

/-- Build one condition per candidate discard: fold `handle` over every
decomposer, then run `finally`. -/
def buildConds (ds : List Decomposer) (n : Nat) (pn : PlayerNumber)
    (t : Tehai) (gm : Option GameManager) :
    List Hai → Option (Except String (List MachiCondition))
  | [] => some (.ok [])
  | s :: rest =>
    let handled :=
      ds.foldlM (fun acc d => MachiCondition.handle acc d n pn)
        (MachiCondition.new s)
    match handled with
    | .error e => some (.error e)
    | .ok c =>
      match c.final_pass t gm with
      | none => none
      | some c' =>
        match buildConds ds n pn t gm rest with
        | none => none
        | some (.error e) => some (.error e)
        | some (.ok cs) => some (.ok (c' :: cs))

/-- The comparator of the final `sort_by` of `Tehai::analyze`:
descending total remaining count, then ascending discard tile. -/
def condLe (a b : MachiCondition) : Bool :=
  if a.nokori = b.nokori then Hai.le a.sutehai b.sutehai else b.nokori < a.nokori

/-- Insertion step for sorting conditions. -/
def insertCond (x : MachiCondition) : List MachiCondition → List MachiCondition
  | [] => [x]
  | y :: ys => if condLe x y then x :: y :: ys else y :: insertCond x ys

/-- Sorting by `condLe` (total on the produced conditions, whose
discard tiles are distinct). -/
def sortConds : List MachiCondition → List MachiCondition
  | [] => []
  | x :: xs => insertCond x (sortConds xs)

/-- `Tehai::analyze`. -/
def Tehai.analyze (t : Tehai) (pn : PlayerNumber) (gm : Option GameManager) :
    Option (Except String (Int × List MachiCondition)) :=
  match t.decompose pn with
  | .error e => some (.error e)
  | .ok (shanten, decomposers) =>
    if shanten ≤ -2 then some (.error "Logic Error: Shanten is less than -1.")
    else if shanten = -1 then some (.ok (shanten, []))
    else
      let sutehai_set := collectSutehai decomposers
      match buildConds decomposers t.juntehai.length pn t gm sutehai_set with
      | none => none
      | some (.error e) => some (.error e)
      | some (.ok conds) =>
        let kept := conds.filter (fun c => c.nokori > 0)
        some (.ok (shanten, sortConds kept))

namespace GameManager

/-- `GameManager::tehai_analyze`. -/
def tehai_analyze (gm : GameManager) :
    Option (Except String (Int × List MachiCondition)) :=
  match gm.tehai with
  | none => some (.error "Not initialized.")
  | some t => t.analyze gm.player_number (some gm)

/-- `GameManager::operate_wait_to_init`. -/
def operate_wait_to_init (gm : GameManager) (op : Operation) :
    Option (GameManager × Option String) :=
  match op with
  | .tehai (.init t) =>
    if t.fuuro.length ≠ 0 then
      some (gm, some "Cannot initialized with fuuro.")
    else if t.juntehai.length = 13 ∨ t.juntehai.length = 14 then
      let st := if t.juntehai.length = 13 then GMState.lackOneHai
                else GMState.fullHai
      let gm1 := { gm with state := st }
      match gm1.haiyama.discard_with_vec t.juntehai true with
      | none => none
      | some (hy, some e) =>
        some ({ gm1 with haiyama := hy, state := .waitToInit }, some e)
      | some (hy, none) =>
        some ({ gm1 with haiyama := hy, tehai := some t }, none)
    else
      some (gm, some "Cannot initialize tehai, only 13 and 14 are supported.")
  | .haiyama (.add v) sensitive =>
    match gm.haiyama.add_with_vec v sensitive with
    | none => none
    | some (hy, some e) =>
      if sensitive then some ({ gm with haiyama := hy }, some e)
      else some ({ gm with haiyama := hy }, none)
    | some (hy, none) => some ({ gm with haiyama := hy }, none)
  | .haiyama (.discard v) sensitive =>
    match gm.haiyama.discard_with_vec v sensitive with
    | none => none
    | some (hy, some e) =>
      if sensitive then some ({ gm with haiyama := hy }, some e)
      else some ({ gm with haiyama := hy }, none)
    | some (hy, none) => some ({ gm with haiyama := hy }, none)
  | _ => some (gm, some "Unsupported operation at current state.")

/-- The continuation closure of the ambiguous-kan arm of
`GameManager::operate_full_hai`, lifted to the top level (it captures
the pre-operation snapshots of wall, state and hand). -/
def full_hai_kan_cont (gm : GameManager) (kantsu : Mentsu)
    (rinshanhai : Option Hai) (sensitive : Bool) (op : Operation)
    (haiyama_backup : Haiyama) (state_backup : GMState)
    (tehai_backup : Option Tehai) (hy : Haiyama) (st : GMState) :
    Option (GameManager × Operation × Option String) :=
  let gm1 := { gm with haiyama := hy, state := st }
  match gm1.tehai with
  | none => none
  | some t =>
    match t.kan kantsu rinshanhai with
    | .ok (t', kan) =>
      match kan with
      | .ankan _ _ =>
        some ({ gm1 with tehai := some t' },
              .tehai (.naku (.kan kan) sensitive), none)
      | .kakan _ _ =>
        some ({ gm1 with tehai := some t' },
              .tehai (.naku (.kan kan) sensitive), none)
      | _ =>
        some ({ gm1 with
                  haiyama := haiyama_backup, state := state_backup,
                  tehai := tehai_backup }, op,
              some "Logic error: Tehai currently is not able to kan.")
    | .error e =>
      some ({ gm1 with
                haiyama := haiyama_backup, state := state_backup },
            op, some e)

/-- `GameManager::operate_full_hai` (also returns the possibly
kan-normalized operation). -/
def operate_full_hai (gm : GameManager) (op : Operation) :
    Option (GameManager × Operation × Option String) :=
  match op with
  | .tehai (.discard hai) =>
    match gm.tehai with
    | none => none
    | some t =>
      match t.discard hai with
      | .error e => some (gm, op, some e)
      | .ok t' =>
        some ({ gm with tehai := some t', state := .lackOneHai }, op, none)
  | .tehai (.naku (.kan (.unknown kantsu rinshanhai)) sensitive) =>
    let cont : Haiyama → GMState →
        Option (GameManager × Operation × Option String) :=
      full_hai_kan_cont gm kantsu rinshanhai sensitive op
        gm.haiyama gm.state gm.tehai
    match rinshanhai with
    | some r =>
      match gm.haiyama.discard r with
      | none => none
      | some (.error e) =>
        if sensitive then some (gm, op, some e)
        else cont gm.haiyama .fullHai
      | some (.ok hy') => cont hy' .fullHai
    | none => cont gm.haiyama .waitForRinshanhai
  | .haiyama (.add v) sensitive =>
    match gm.haiyama.add_with_vec v sensitive with
    | none => none
    | some (hy, some e) =>
      if sensitive then some ({ gm with haiyama := hy }, op, some e)
      else some ({ gm with haiyama := hy }, op, none)
    | some (hy, none) => some ({ gm with haiyama := hy }, op, none)
  | .haiyama (.discard v) sensitive =>
    match gm.haiyama.discard_with_vec v sensitive with
    | none => none
    | some (hy, some e) =>
      if sensitive then some ({ gm with haiyama := hy }, op, some e)
      else some ({ gm with haiyama := hy }, op, none)
    | some (hy, none) => some ({ gm with haiyama := hy }, op, none)
  | _ => some (gm, op, some "Unsupported operation at current state.")

/-- The continuation closure of the kan arm of
`GameManager::operate_lack_one_hai`, lifted to the top level. -/
def lack_kan_cont (gm : GameManager) (hai : Hai) (rinshanhai : Option Hai)
    (sensitive : Bool) (op : Operation) (haiyama_backup : Haiyama)
    (state_backup : GMState) (tehai_backup : Option Tehai)
    (hy : Haiyama) (st : GMState) :
    Option (GameManager × Operation × Option String) :=
  let gm1 := { gm with haiyama := hy, state := st }
  match gm1.tehai with
  | none => none
  | some t =>
    match t.kan (Mentsu.kantsu hai) rinshanhai with
    | .ok (t', kan) =>
      match kan with
      | .daiminkan _ _ =>
        some ({ gm1 with tehai := some t' },
              .tehai (.naku (.kan kan) sensitive), none)
      | _ =>
        some ({ gm1 with
                  haiyama := haiyama_backup, state := state_backup,
                  tehai := tehai_backup }, op,
              some "Logic error: Tehai currently is not able to kan.")
    | .error e =>
      some ({ gm1 with
                haiyama := haiyama_backup, state := state_backup },
            op, some e)

/-- The replacement-draw step of the kan arm of
`GameManager::operate_lack_one_hai`, lifted to the top level. -/
def lack_kan_step2 (gm : GameManager) (hai : Hai) (rinshanhai : Option Hai)
    (sensitive : Bool) (op : Operation) (haiyama_backup : Haiyama)
    (state_backup : GMState) (tehai_backup : Option Tehai)
    (hy1 : Haiyama) :
    Option (GameManager × Operation × Option String) :=
  match rinshanhai with
  | some r =>
    match Haiyama.discard hy1 r with
    | none => none
    | some (.error e) =>
      if sensitive then
        some ({ gm with haiyama := haiyama_backup }, op, some e)
      else
        lack_kan_cont gm hai rinshanhai sensitive op haiyama_backup
          state_backup tehai_backup hy1 .fullHai
    | some (.ok hy2) =>
      lack_kan_cont gm hai rinshanhai sensitive op haiyama_backup
        state_backup tehai_backup hy2 .fullHai
  | none =>
    lack_kan_cont gm hai rinshanhai sensitive op haiyama_backup
      state_backup tehai_backup hy1 .waitForRinshanhai

/-- `GameManager::operate_lack_one_hai`. -/
def operate_lack_one_hai (gm : GameManager) (op : Operation) :
    Option (GameManager × Operation × Option String) :=
  match op with
  | .tehai (.add hai sensitive) =>
    let cont : Haiyama → Option (GameManager × Operation × Option String) :=
      fun hy =>
        match gm.tehai with
        | none => none
        | some t =>
          some ({ gm with
                    haiyama := hy,
                    tehai := some { t with juntehai := sortHai (t.juntehai ++ [hai]) },
                    state := .fullHai }, op, none)
    match gm.haiyama.discard hai with
    | none => none
    | some (.error e) =>
      if sensitive then some (gm, op, some e) else cont gm.haiyama
    | some (.ok hy') => cont hy'
  | .tehai (.naku (.chii juntsu nakihai) sensitive) =>
    let backup := gm.haiyama
    let cont : Haiyama → Option (GameManager × Operation × Option String) :=
      fun hy =>
        match gm.tehai with
        | none => none
        | some t =>
          match t.chii juntsu nakihai with
          | .error e => some ({ gm with haiyama := backup }, op, some e)
          | .ok t' =>
            some ({ gm with
                    haiyama := hy, tehai := some t',
                    state := .fullHai }, op, none)
    match gm.haiyama.discard nakihai with
    | none => none
    | some (.error e) =>
      if sensitive then some (gm, op, some e) else cont gm.haiyama
    | some (.ok hy') => cont hy'
  | .tehai (.naku (.pon (Mentsu.koutsu hai)) sensitive) =>
    let backup := gm.haiyama
    let cont : Haiyama → Option (GameManager × Operation × Option String) :=
      fun hy =>
        match gm.tehai with
        | none => none
        | some t =>
          match t.pon (Mentsu.koutsu hai) with
          | .error e => some ({ gm with haiyama := backup }, op, some e)
          | .ok t' =>
            some ({ gm with
                    haiyama := hy, tehai := some t',
                    state := .fullHai }, op, none)
    match gm.haiyama.discard hai with
    | none => none
    | some (.error e) =>
      if sensitive then some (gm, op, some e) else cont gm.haiyama
    | some (.ok hy') => cont hy'
  | .tehai (.naku (.kan (.unknown (Mentsu.kantsu hai) rinshanhai)) sensitive) =>
    let step2 : Haiyama → Option (GameManager × Operation × Option String) :=
      lack_kan_step2 gm hai rinshanhai sensitive op
        gm.haiyama gm.state gm.tehai
    match gm.haiyama.discard hai with
    | none => none
    | some (.error e) =>
      if sensitive then some (gm, op, some e) else step2 gm.haiyama
    | some (.ok hy1) => step2 hy1
  | .haiyama (.add v) sensitive =>
    match gm.haiyama.add_with_vec v sensitive with
    | none => none
    | some (hy, some e) =>
      if sensitive then some ({ gm with haiyama := hy }, op, some e)
      else some ({ gm with haiyama := hy }, op, none)
    | some (hy, none) => some ({ gm with haiyama := hy }, op, none)
  | .haiyama (.discard v) sensitive =>
    match gm.haiyama.discard_with_vec v sensitive with
    | none => none
    | some (hy, some e) =>
      if sensitive then some ({ gm with haiyama := hy }, op, some e)
      else some ({ gm with haiyama := hy }, op, none)
    | some (hy, none) => some ({ gm with haiyama := hy }, op, none)
  | _ => some (gm, op, some "Unsupported operation at current state.")

/-- `GameManager::operate_wait_for_rinshanhai`. -/
def operate_wait_for_rinshanhai (gm : GameManager) (op : Operation) :
    Option (GameManager × Option String) :=
  match op with
  | .tehai (.add hai sensitive) =>
    let cont : Haiyama → Option (GameManager × Option String) := fun hy =>
      match gm.tehai with
      | none => none
      | some t =>
        some ({ gm with
                  haiyama := hy,
                  tehai := some { t with juntehai := sortHai (t.juntehai ++ [hai]) },
                  state := .fullHai }, none)
    match gm.haiyama.discard hai with
    | none => none
    | some (.error e) =>
      if sensitive then some (gm, some e) else cont gm.haiyama
    | some (.ok hy') => cont hy'
  | .haiyama (.add v) sensitive =>
    match gm.haiyama.add_with_vec v sensitive with
    | none => none
    | some (hy, some e) =>
      if sensitive then some ({ gm with haiyama := hy }, some e)
      else some ({ gm with haiyama := hy }, none)
    | some (hy, none) => some ({ gm with haiyama := hy }, none)
  | .haiyama (.discard v) sensitive =>
    match gm.haiyama.discard_with_vec v sensitive with
    | none => none
    | some (hy, some e) =>
      if sensitive then some ({ gm with haiyama := hy }, some e)
      else some ({ gm with haiyama := hy }, none)
    | some (hy, none) => some ({ gm with haiyama := hy }, none)
  | _ => some (gm, some "Unsupported operation at current state.")

/-- `GameManager::operate`: dispatch by state, then on success push the
(normalized) operation with the prior state and discarded set. -/
def operate (gm : GameManager) (op : Operation) :
    Option (GameManager × Option String) :=
  let last_state := gm.state
  let r : Option (GameManager × Operation × Option String) :=
    match last_state with
    | .waitToInit =>
      match gm.operate_wait_to_init op with
      | none => none
      | some (gm1, e) => some (gm1, op, e)
    | .fullHai => gm.operate_full_hai op
    | .lackOneHai => gm.operate_lack_one_hai op
    | .waitForRinshanhai =>
      match gm.operate_wait_for_rinshanhai op with
      | none => none
      | some (gm1, e) => some (gm1, op, e)
  match r with
  | none => none
  | some (gm1, _, some e) => some (gm1, some e)
  | some (gm1, op', none) =>
    some ({ gm1 with
              history := gm1.history ++ [(op', last_state, gm1.sutehai_type)] },
          none)

/-- `GameManager::back_wait_to_init`. -/
def back_wait_to_init (gm : GameManager) (op : Operation) (hs : Bool) :
    Option (GameManager × Option String) :=
  match op with
  | .tehai (.init t) =>
    match gm.haiyama.add_with_vec t.juntehai hs with
    | none => none
    | some (hy, some e) =>
      if hs then some ({ gm with haiyama := hy }, some e)
      else
        some ({ gm with
                  haiyama := hy, tehai := none, state := .waitToInit }, none)
    | some (hy, none) =>
      some ({ gm with
                haiyama := hy, tehai := none, state := .waitToInit }, none)
  | .haiyama (.add v) _ =>
    match gm.haiyama.discard_with_vec v hs with
    | none => none
    | some (hy, some e) =>
      if hs then some ({ gm with haiyama := hy }, some e)
      else some ({ gm with haiyama := hy }, none)
    | some (hy, none) => some ({ gm with haiyama := hy }, none)
  | .haiyama (.discard v) _ =>
    match gm.haiyama.add_with_vec v hs with
    | none => none
    | some (hy, some e) =>
      if hs then some ({ gm with haiyama := hy }, some e)
      else some ({ gm with haiyama := hy }, none)
    | some (hy, none) => some ({ gm with haiyama := hy }, none)
  | _ => some (gm, some "Logic error: confused with impossible state.")

/-- The kan arm shared verbatim by `back_full_hai` and
`back_lack_one_hai` in the source: restore the called tile of a
daiminkan and the replacement tile to the wall, then `de_kan`. -/
def backKanArm (gm : GameManager) (kan : Kan) (hs : Bool) :
    Option (GameManager × Option String) :=
  let backup := gm.haiyama
  let contB : Haiyama → Option (GameManager × Option String) := fun hy2 =>
    match gm.tehai with
    | none => none
    | some t =>
      match t.de_kan kan with
      | .error e => some ({ gm with haiyama := backup }, some e)
      | .ok t' => some ({ gm with haiyama := hy2, tehai := some t' }, none)
  let contA : Haiyama → Option (GameManager × Option String) := fun hy1 =>
    match kan with
    | .unknown _ _ =>
      some ({ gm with haiyama := backup },
            some "Logic error: Tehai de_kan can not accept Kan Unknown.")
    | _ =>
      let rinshanhai :=
        match kan with
        | .daiminkan _ r => r
        | .kakan _ r => r
        | .ankan _ r => r
        | .unknown _ r => r
      match rinshanhai with
      | some r =>
        match Haiyama.add hy1 r with
        | none => none
        | some (.error e) =>
          if hs then some ({ gm with haiyama := backup }, some e)
          else contB hy1
        | some (.ok hy2) => contB hy2
      | none => contB hy1
  match kan with
  | .daiminkan (Mentsu.kantsu hai) _ =>
    match gm.haiyama.add hai with
    | none => none
    | some (.error e) => if hs then some (gm, some e) else contA gm.haiyama
    | some (.ok hy') => contA hy'
  | _ => contA gm.haiyama

/-- `GameManager::back_full_hai`. -/
def back_full_hai (gm : GameManager) (op : Operation) (hs : Bool) :
    Option (GameManager × Option String) :=
  match op with
  | .tehai (.discard hai) =>
    match gm.tehai with
    | none => none
    | some t =>
      some ({ gm with
                tehai := some
                  { t with juntehai := sortHai (t.juntehai ++ [hai]) } }, none)
  | .tehai (.naku (.kan kan) _) => backKanArm gm kan hs
  | .haiyama (.add v) _ =>
    match gm.haiyama.discard_with_vec v hs with
    | none => none
    | some (hy, some e) =>
      if hs then some ({ gm with haiyama := hy }, some e)
      else some ({ gm with haiyama := hy }, none)
    | some (hy, none) => some ({ gm with haiyama := hy }, none)
  | .haiyama (.discard v) _ =>
    match gm.haiyama.add_with_vec v hs with
    | none => none
    | some (hy, some e) =>
      if hs then some ({ gm with haiyama := hy }, some e)
      else some ({ gm with haiyama := hy }, none)
    | some (hy, none) => some ({ gm with haiyama := hy }, none)
  | _ => some (gm, some "Logic error: confused with impossible state.")

/-- `GameManager::back_lack_one_hai`.  Note the `Add` (draw) arm: the
source only removes the tile from the hand and never returns it to the
wall. -/
def back_lack_one_hai (gm : GameManager) (op : Operation) (hs : Bool) :
    Option (GameManager × Option String) :=
  match op with
  | .tehai (.add hai _) =>
    match gm.tehai with
    | none => none
    | some t =>
      match t.discard hai with
      | .error e => some (gm, some e)
      | .ok t' => some ({ gm with tehai := some t' }, none)
  | .tehai (.naku (.chii (Mentsu.juntsu a b c) nakihai) _) =>
    let backup := gm.haiyama
    let cont : Haiyama → Option (GameManager × Option String) := fun hy =>
      match gm.tehai with
      | none => none
      | some t =>
        match t.de_chii (Mentsu.juntsu a b c) nakihai with
        | .error e => some ({ gm with haiyama := backup }, some e)
        | .ok t' => some ({ gm with haiyama := hy, tehai := some t' }, none)
    match gm.haiyama.add nakihai with
    | none => none
    | some (.error e) => if hs then some (gm, some e) else cont gm.haiyama
    | some (.ok hy') => cont hy'
  | .tehai (.naku (.pon (Mentsu.koutsu hai)) _) =>
    let backup := gm.haiyama
    let cont : Haiyama → Option (GameManager × Option String) := fun hy =>
      match gm.tehai with
      | none => none
      | some t =>
        match t.de_pon (Mentsu.koutsu hai) with
        | .error e => some ({ gm with haiyama := backup }, some e)
        | .ok t' => some ({ gm with haiyama := hy, tehai := some t' }, none)
    match gm.haiyama.add hai with
    | none => none
    | some (.error e) => if hs then some (gm, some e) else cont gm.haiyama
    | some (.ok hy') => cont hy'
  | .tehai (.naku (.kan kan) _) => backKanArm gm kan hs
  | .haiyama (.add v) _ =>
    match gm.haiyama.discard_with_vec v hs with
    | none => none
    | some (hy, some e) =>
      if hs then some ({ gm with haiyama := hy }, some e)
      else some ({ gm with haiyama := hy }, none)
    | some (hy, none) => some ({ gm with haiyama := hy }, none)
  | .haiyama (.discard v) _ =>
    match gm.haiyama.add_with_vec v hs with
    | none => none
    | some (hy, some e) =>
      if hs then some ({ gm with haiyama := hy }, some e)
      else some ({ gm with haiyama := hy }, none)
    | some (hy, none) => some ({ gm with haiyama := hy }, none)
  | _ => some (gm, some "Logic error: confused with impossible state.")

/-- `GameManager::back_wait_for_rinshanhai`. -/
def back_wait_for_rinshanhai (gm : GameManager) (op : Operation) (hs : Bool) :
    Option (GameManager × Option String) :=
  match op with
  | .tehai (.add hai _) =>
    match gm.tehai with
    | none => none
    | some t =>
      match t.discard hai with
      | .error e => some (gm, some e)
      | .ok t' => some ({ gm with tehai := some t' }, none)
  | .haiyama (.add v) _ =>
    match gm.haiyama.discard_with_vec v hs with
    | none => none
    | some (hy, some e) =>
      if hs then some ({ gm with haiyama := hy }, some e)
      else some ({ gm with haiyama := hy }, none)
    | some (hy, none) => some ({ gm with haiyama := hy }, none)
  | .haiyama (.discard v) _ =>
    match gm.haiyama.add_with_vec v hs with
    | none => none
    | some (hy, some e) =>
      if hs then some ({ gm with haiyama := hy }, some e)
      else some ({ gm with haiyama := hy }, none)
    | some (hy, none) => some ({ gm with haiyama := hy }, none)
  | _ => some (gm, some "Logic error: confused with impossible state.")

/-- `GameManager::back`: pop the last history entry, apply the inverse
by the recorded prior state, then restore state and discarded set; on
failure push the entry back and report the error. -/
def back (gm : GameManager) (hs : Bool) :
    Option (GameManager × Except String (Operation × GMState)) :=
  match gm.history.getLast? with
  | none => some (gm, .error "No more operation history.")
  | some (op, last_state, st) =>
    let gmP := { gm with history := gm.history.dropLast }
    let r :=
      match last_state with
      | .waitToInit => gmP.back_wait_to_init op hs
      | .fullHai => gmP.back_full_hai op hs
      | .lackOneHai => gmP.back_lack_one_hai op hs
      | .waitForRinshanhai => gmP.back_wait_for_rinshanhai op hs
    match r with
    | none => none
    | some (gm1, none) =>
      some ({ gm1 with state := last_state, sutehai_type := st },
            .ok (op, last_state))
    | some (gm1, some e) =>
      some ({ gm1 with history := gm1.history ++ [(op, last_state, st)] },
            .error e)

end GameManager

/-! ## Basic lemmas about the map embedding -/

lemma alookup_map_four (l : List Hai) (h : Hai) :
    alookup (l.map (fun x => (x, 4))) h = if h ∈ l then some 4 else none := by
  induction l with
  | nil => simp [alookup]
  | cons x xs ih =>
    simp only [List.map_cons, alookup, List.mem_cons]
    by_cases hx : x = h
    · subst hx; simp
    · have hx' : ¬(h = x) := fun he => hx he.symm
      simp [hx, hx', ih]

lemma mem_all_type (pn : PlayerNumber) (h : Hai) :
    h ∈ Hai.all_type pn ↔ h.is_valid pn = true := by
  cases pn <;> cases h <;>
    simp [Hai.all_type, Hai.is_valid, Hai.manzu.injEq, Hai.pinzu.injEq,
      Hai.souzu.injEq, Hai.jihai.injEq] <;> omega

lemma haiyama_new_lookup (pn : PlayerNumber) (h : Hai) :
    alookup (Haiyama.new pn).map h =
      if h.is_valid pn = true then some 4 else none := by
  by_cases hv : h.is_valid pn = true
  · simp [Haiyama.new, alookup_map_four, (mem_all_type pn h).mpr hv, hv]
  · have hm : h ∉ Hai.all_type pn := fun hmem => hv ((mem_all_type pn h).mp hmem)
    simp [Haiyama.new, alookup_map_four, hm, hv]

lemma alookup_map_insert (m : List (Hai × Nat)) (k : Hai) (v : Nat) (q : Hai) :
    alookup (map_insert m k v) q = if q = k then some v else alookup m q := by
  induction m with
  | nil =>
    by_cases hq : q = k
    · subst hq; simp [map_insert, alookup]
    · have : ¬(k = q) := fun he => hq he.symm
      simp [map_insert, alookup, hq, this]
  | cons aw rest ih =>
    obtain ⟨a, w⟩ := aw
    simp only [map_insert]
    by_cases hka : k = a
    · subst hka
      by_cases hq : q = k
      · subst hq; simp [alookup]
      · have : ¬(k = q) := fun he => hq he.symm
        simp [alookup, hq, this]
    · rw [if_neg hka]
      by_cases hlt : Hai.lt k a = true
      · rw [if_pos hlt]
        by_cases hq : q = k
        · subst hq; simp [alookup]
        · have : ¬(k = q) := fun he => hq he.symm
          simp [alookup, hq, this]
      · rw [if_neg hlt]
        by_cases haq : a = q
        · have hqk : ¬(q = k) := fun he => hka (by rw [← he]; exact haq.symm)
          simp [alookup, haq, hqk]
        · simp [alookup, haq, ih]

/-- Well-formedness of a wall relative to a player count: exactly the
valid tiles are present as keys. -/
def Haiyama.domain_matches (pn : PlayerNumber) (hy : Haiyama) : Prop :=
  ∀ h : Hai, (alookup hy.map h).isSome ↔ h.is_valid pn = true

lemma haiyama_new_domain_matches (pn : PlayerNumber) :
    Haiyama.domain_matches pn (Haiyama.new pn) := by
  intro h
  rw [haiyama_new_lookup]
  by_cases hv : h.is_valid pn = true <;> simp [hv]

instance {e a : Type} [DecidableEq e] [DecidableEq a] : DecidableEq (Except e a) := by
  intro x y
  cases x <;> cases y <;>
    first
      | (apply isFalse; intro h; exact Except.noConfusion h)
      | (rename_i u v
         exact if huv : u = v then isTrue (by rw [huv]) else
           isFalse (fun h => huv (by cases h; rfl)))

lemma haiyama_add_eq (hy : Haiyama) (h : Hai) (n : Nat)
    (hn : alookup hy.map h = some n) :
    hy.add h =
      if n < 4 then some (Except.ok ⟨map_insert hy.map h (n + 1)⟩)
      else some (Except.error "Already 4 in haiyama, cannot add more one.") := by
  unfold Haiyama.add
  rw [hn]

lemma haiyama_discard_eq (hy : Haiyama) (h : Hai) (n : Nat)
    (hn : alookup hy.map h = some n) :
    hy.discard h =
      if n > 0 then some (Except.ok ⟨map_insert hy.map h (n - 1)⟩)
      else
        some (Except.error
          "Already no more in haiyama, cannot discard more one.") := by
  unfold Haiyama.discard
  rw [hn]

/-! ## C10 -/

/-- C10: `Haiyama::add` and `Haiyama::discard` never panic when the
tile is valid for the player count the wall was created with: wall
indexing is by direct map lookup, `Haiyama::new` populates exactly the
valid tiles (each with count 4), and `add`/`discard` preserve that key
set, returning `Ok` or a descriptive `Err`. -/
theorem c10_haiyama_indexing_total (pn : PlayerNumber) (h : Hai) (hy : Haiyama) :
    (alookup (Haiyama.new pn).map h =
      if h.is_valid pn = true then some 4 else none) ∧
    (Haiyama.domain_matches pn hy → h.is_valid pn = true →
      (hy.add h).isSome = true ∧ (hy.discard h).isSome = true ∧
      (∀ hy2, hy.add h = some (Except.ok hy2) →
        Haiyama.domain_matches pn hy2) ∧
      (∀ hy2, hy.discard h = some (Except.ok hy2) →
        Haiyama.domain_matches pn hy2)) := by
  refine ⟨haiyama_new_lookup pn h, ?_⟩
  intro hdom hv
  have hsome : (alookup hy.map h).isSome := (hdom h).mpr hv
  obtain ⟨n, hn⟩ := Option.isSome_iff_exists.mp hsome
  refine ⟨?_, ?_, ?_, ?_⟩
  · rw [haiyama_add_eq hy h n hn]
    split <;> simp
  · rw [haiyama_discard_eq hy h n hn]
    split <;> simp
  · intro hy2 hadd
    rw [haiyama_add_eq hy h n hn] at hadd
    by_cases hlt : n < 4
    · rw [if_pos hlt] at hadd
      simp only [Option.some.injEq, Except.ok.injEq] at hadd
      intro q
      rw [← hadd, alookup_map_insert]
      by_cases hq : q = h
      · subst hq; simpa using hv
      · simp [hq, hdom q]
    · rw [if_neg hlt] at hadd
      simp at hadd
  · intro hy2 hdis
    rw [haiyama_discard_eq hy h n hn] at hdis
    by_cases hgt : n > 0
    · rw [if_pos hgt] at hdis
      simp only [Option.some.injEq, Except.ok.injEq] at hdis
      intro q
      rw [← hdis, alookup_map_insert]
      by_cases hq : q = h
      · subst hq; simpa using hv
      · simp [hq, hdom q]
    · rw [if_neg hgt] at hdis
      simp at hdis

/-- Witness for C10 at the four-player wall and the 1m tile. -/
theorem c10_witness :
    ((Haiyama.new .four).add (.manzu 1)).isSome = true ∧
    ((Haiyama.new .four).discard (.manzu 1)).isSome = true := by
  have h := (c10_haiyama_indexing_total .four (.manzu 1) (Haiyama.new .four)).2
    (haiyama_new_domain_matches .four) (by decide)
  exact ⟨h.1, h.2.1⟩

/-! ## C9 -/

/-- C9: whenever `Tehai::analyze` succeeds with shanten −1 (a winning
hand), the returned list of wait conditions is empty. -/
theorem c9_win_no_conditions (t : Tehai) (pn : PlayerNumber)
    (gm : Option GameManager) (s : Int) (conds : List MachiCondition)
    (h : t.analyze pn gm = some (Except.ok (s, conds))) (hs : s = -1) :
    conds = [] := by
  unfold Tehai.analyze at h
  cases hd : t.decompose pn with
  | error e => rw [hd] at h; simp at h
  | ok p =>
    obtain ⟨sh, ds⟩ := p
    rw [hd] at h
    dsimp only at h
    by_cases h2 : sh ≤ -2
    · rw [if_pos h2] at h; simp at h
    · rw [if_neg h2] at h
      by_cases h1 : sh = -1
      · rw [if_pos h1] at h
        simp only [Option.some.injEq, Except.ok.injEq, Prod.mk.injEq] at h
        exact h.2.symm
      · rw [if_neg h1] at h
        cases hb : buildConds ds t.juntehai.length pn t gm (collectSutehai ds) with
        | none => rw [hb] at h; simp at h
        | some r =>
          rw [hb] at h
          cases r with
          | error e => simp at h
          | ok cs =>
            simp only [Option.some.injEq, Except.ok.injEq, Prod.mk.injEq] at h
            exact absurd (h.1 ▸ hs) h1

/-- Witness for C9: the two-tile winning hand of a single pair. -/
theorem c9_witness :
    Tehai.analyze ⟨[Hai.jihai 1, Hai.jihai 1], []⟩ PlayerNumber.four none
      = some (Except.ok (-1, [])) ∧ ([] : List MachiCondition) = [] :=
  ⟨by rfl, c9_win_no_conditions ⟨[Hai.jihai 1, Hai.jihai 1], []⟩
    PlayerNumber.four none (-1) [] (by rfl) rfl⟩

/-! ## Operation sequences (spec-side harness) -/

/-- Run a sequence of operations, requiring every one to succeed
(no panic, no error) — the "successful operation sequence" of the spec. -/
def runOps : GameManager → List Operation → Option GameManager
  | gm, [] => some gm
  | gm, op :: rest =>
    match gm.operate op with
    | some (gm', none) => runOps gm' rest
    | _ => none

/-! ## C1 -/

/-- A 13-tile starting hand without honors (sorted). -/
def c1_t13 : Tehai :=
  ⟨[Hai.manzu 1, Hai.manzu 2, Hai.manzu 3, Hai.pinzu 4, Hai.pinzu 5,
    Hai.pinzu 6, Hai.souzu 7, Hai.souzu 8, Hai.souzu 9, Hai.jihai 2,
    Hai.jihai 2, Hai.jihai 3, Hai.jihai 3], []⟩

/-- Initialize with 13 tiles, then draw 1z (both strict). -/
def c1_ops : List Operation :=
  [Operation.tehai (.init c1_t13),
   Operation.tehai (.add (Hai.jihai 1) true)]

/-- The manager after the two successful operations. -/
def c1_gm2 : Option GameManager := runOps (GameManager.new .four) c1_ops

/-- The manager after undoing the draw (strict), when the undo reports
success. -/
def c1_after_back : Option GameManager :=
  c1_gm2.bind (fun gm =>
    (gm.back true).bind (fun r =>
      match r.2 with
      | .ok _ => some r.1
      | .error _ => none))

/-- The manager after undoing both operations (strict). -/
def c1_after_back2 : Option GameManager :=
  c1_after_back.bind (fun gm =>
    (gm.back true).bind (fun r =>
      match r.2 with
      | .ok _ => some r.1
      | .error _ => none))

/-- C1 (the code violates the claim): undoing a successful strict Draw
removes the drawn tile from the hand but does **not** return it to the
wall.  Before the draw the wall holds four 1z; after drawing it holds
three; after `back` (which succeeds) it still holds three, and after
undoing the whole sequence the wall differs from the initial wall, so
the round-trip property fails on this sequence. -/
theorem c1_draw_undo_loses_wall_tile :
    (runOps (GameManager.new PlayerNumber.four)
        [Operation.tehai (.init c1_t13)]).bind
      (fun gm => alookup gm.haiyama.map (Hai.jihai 1)) = some 4 ∧
    c1_gm2.bind (fun gm => alookup gm.haiyama.map (Hai.jihai 1)) = some 3 ∧
    c1_after_back.bind (fun gm => alookup gm.haiyama.map (Hai.jihai 1))
      = some 3 ∧
    c1_after_back.bind (fun gm => some (gm.tehai = some c1_t13 ∧
      gm.state = GMState.lackOneHai))
      = some (True ∧ True) ∧
    c1_after_back2.bind (fun gm =>
      some (decide (gm.haiyama = (GameManager.new PlayerNumber.four).haiyama)))
      = some false := by
  refine ⟨by rfl, by rfl, by rfl, ?_, by rfl⟩
  have : c1_after_back.bind (fun gm => some (gm.tehai = some c1_t13 ∧
      gm.state = GMState.lackOneHai))
      = some ((some c1_t13 = some c1_t13) ∧
              (GMState.lackOneHai = GMState.lackOneHai)) := by rfl
  rw [this]
  simp

/-! ## C2 -/

/-- A 13-tile starting hand: 11m 123p 789s 9m 44z 55z. -/
def c2_t13 : Tehai :=
  ⟨sortHai [Hai.manzu 1, Hai.manzu 1, Hai.pinzu 1, Hai.pinzu 2, Hai.pinzu 3,
    Hai.souzu 7, Hai.souzu 8, Hai.souzu 9, Hai.jihai 4, Hai.jihai 4,
    Hai.jihai 5, Hai.jihai 5, Hai.manzu 9], []⟩

/-- Initialize; pon 4z; discard 9m; pon 5z; **discard 1p**; draw 1z —
all strict and successful. -/
def c2_ops : List Operation :=
  [Operation.tehai (.init c2_t13),
   Operation.tehai (.naku (.pon (Mentsu.koutsu (Hai.jihai 4))) true),
   Operation.tehai (.discard (Hai.manzu 9)),
   Operation.tehai (.naku (.pon (Mentsu.koutsu (Hai.jihai 5))) true),
   Operation.tehai (.discard (Hai.pinzu 1)),
   Operation.tehai (.add (Hai.jihai 1) true)]

/-- The session state after the six operations. -/
def c2_final : Option GameManager := runOps (GameManager.new .four) c2_ops

/-- C2 (the code violates the claim): no operation ever inserts into
`sutehai_type`, so after the session (which contains the successful
`Discard(1p)`) the discarded set is empty and the analysis reports the
condition discarding 1z with waits containing 1p — a previously
discarded tile — yet `furiten = false`. -/
theorem c2_furiten_never_true :
    Operation.tehai (.discard (Hai.pinzu 1)) ∈ c2_ops ∧
    c2_final.bind (fun gm => some gm.sutehai_type) = some [] ∧
    c2_final.bind GameManager.tehai_analyze =
      some (Except.ok (0,
        [⟨Hai.jihai 1, [(Hai.pinzu 1, 3), (Hai.pinzu 2, 3)], false⟩])) := by
  refine ⟨by decide, by rfl, by rfl⟩

/-! ## C3 -/

/-- A Full-state manager whose hand holds exactly one free 2m and whose
fixed melds contain the triplet `Koutsu(2m)` (reachable by pon of 2m,
a discard, then drawing the fourth 2m). -/
def c3_gm : GameManager :=
  { haiyama := Haiyama.new .four
    tehai := some ⟨[Hai.manzu 2, Hai.pinzu 4, Hai.pinzu 5, Hai.pinzu 6,
                    Hai.souzu 7, Hai.souzu 8, Hai.souzu 9, Hai.jihai 1],
                   [Mentsu.koutsu (Hai.manzu 2)]⟩
    sutehai_type := []
    state := .fullHai
    player_number := .four
    history := [] }

/-- C3 (the code violates the claim): with one free 2m and a fixed
triplet of 2m in state Full, the ambiguous `Kan(2m)` is rejected
instead of resolving to an added kan: `Tehai::kan` scans `fuuro` for a
`Mentsu::Kantsu` (a quad) rather than the `Mentsu::Koutsu` that is
present, so the added-kan arm never fires; `operate` errors with the
manager unchanged. -/
theorem c3_added_kan_rejected :
    (c3_gm.tehai.map (fun t => (t.juntehai.count (Hai.manzu 2),
        Mentsu.koutsu (Hai.manzu 2) ∈ t.fuuro))) = some (1, True) ∧
    c3_gm.state = GMState.fullHai ∧
    (⟨[Hai.manzu 2, Hai.pinzu 4, Hai.pinzu 5, Hai.pinzu 6, Hai.souzu 7,
       Hai.souzu 8, Hai.souzu 9, Hai.jihai 1],
      [Mentsu.koutsu (Hai.manzu 2)]⟩ : Tehai).kan
        (Mentsu.kantsu (Hai.manzu 2)) none =
      Except.error "Logic error: Tehai currently is not able to kan." ∧
    c3_gm.operate
        (.tehai (.naku (.kan (.unknown (Mentsu.kantsu (Hai.manzu 2)) none))
          true)) =
      some (c3_gm,
        some "Logic error: Tehai currently is not able to kan.") := by
  refine ⟨?_, rfl, by rfl, by rfl⟩
  have : (c3_gm.tehai.map (fun t => (t.juntehai.count (Hai.manzu 2),
      Mentsu.koutsu (Hai.manzu 2) ∈ t.fuuro))) =
      some (1, Mentsu.koutsu (Hai.manzu 2) ∈
        [Mentsu.koutsu (Hai.manzu 2)]) := by rfl
  rw [this]
  simp

/-! ## C4 -/

/-- C4 (the code violates the claim): for an adjacent partial the
derived waits are `prev(a)` and `next(b)` in the Character and Bamboo
suits, but in the Dot suit the source inserts `previous` of *both*
ends, so the partial (4p,5p) yields waits {3p,4p} instead of the
claimed {3p,6p}; the gap case and the other suits behave as claimed. -/
theorem c4_pinzu_adjacent_taatsu_wrong_wait :
    handleTaatsuGo .four (MachiCondition.new (Hai.jihai 1))
        [(Hai.manzu 4, Hai.manzu 5)] =
      Except.ok ⟨Hai.jihai 1, [(Hai.manzu 3, 4), (Hai.manzu 6, 4)], false⟩ ∧
    handleTaatsuGo .four (MachiCondition.new (Hai.jihai 1))
        [(Hai.souzu 4, Hai.souzu 5)] =
      Except.ok ⟨Hai.jihai 1, [(Hai.souzu 3, 4), (Hai.souzu 6, 4)], false⟩ ∧
    handleTaatsuGo .four (MachiCondition.new (Hai.jihai 1))
        [(Hai.pinzu 4, Hai.pinzu 5)] =
      Except.ok ⟨Hai.jihai 1, [(Hai.pinzu 3, 4), (Hai.pinzu 4, 4)], false⟩ ∧
    handleTaatsuGo .four (MachiCondition.new (Hai.jihai 1))
        [(Hai.pinzu 4, Hai.pinzu 6)] =
      Except.ok ⟨Hai.jihai 1, [(Hai.pinzu 5, 4)], false⟩ := by
  refine ⟨by rfl, by rfl, by rfl, by rfl⟩

/-! ## Order lemmas for `Hai.le` -/

lemma hai_le_refl (a : Hai) : Hai.le a a = true := by
  simp [Hai.le]

lemma hai_le_trans {a b c : Hai} (h1 : Hai.le a b = true)
    (h2 : Hai.le b c = true) : Hai.le a c = true := by
  simp only [Hai.le, Hai.lt, Bool.or_eq_true, Bool.and_eq_true, beq_iff_eq,
    decide_eq_true_eq] at *
  rcases h1 with h1 | h1
  · rcases h2 with h2 | h2
    · left; omega
    · subst h2; left; exact h1
  · subst h1; exact h2

lemma hai_le_antisymm {a b : Hai} (h1 : Hai.le a b = true)
    (h2 : Hai.le b a = true) : a = b := by
  simp only [Hai.le, Hai.lt, Bool.or_eq_true, Bool.and_eq_true, beq_iff_eq,
    decide_eq_true_eq] at *
  rcases h1 with h1 | h1
  · rcases h2 with h2 | h2
    · omega
    · exact h2.symm
  · exact h1

/-- Ascending adjacency in `Hai.le`, as a computable predicate. -/
def haiSortedB : List Hai → Bool
  | [] => true
  | [_] => true
  | a :: b :: t => Hai.le a b && haiSortedB (b :: t)

/-- Sortedness of a tile list. -/
def HaiSorted (l : List Hai) : Prop := haiSortedB l = true

instance : DecidablePred HaiSorted := fun l =>
  inferInstanceAs (Decidable (haiSortedB l = true))

lemma hai_sorted_cons_le {x y : Hai} {l : List Hai}
    (h : HaiSorted (x :: y :: l)) : Hai.le x y = true := by
  have := h
  unfold HaiSorted haiSortedB at this
  exact (Bool.and_eq_true _ _ |>.mp this).1

lemma hai_sorted_tail {x : Hai} {l : List Hai} (h : HaiSorted (x :: l)) :
    HaiSorted l := by
  cases l with
  | nil => rfl
  | cons b t =>
    have := h
    unfold HaiSorted haiSortedB at this
    exact (Bool.and_eq_true _ _ |>.mp this).2

lemma hai_sorted_head_le {x y : Hai} {l : List Hai}
    (h : HaiSorted (x :: l)) (hm : y ∈ l) : Hai.le x y = true := by
  induction l generalizing x with
  | nil => cases hm
  | cons a t ih =>
    have hxa : Hai.le x a = true := hai_sorted_cons_le h
    rcases List.mem_cons.mp hm with rfl | hmt
    · exact hxa
    · exact hai_le_trans hxa (ih (hai_sorted_tail h) hmt)

lemma hai_sorted_head_notin {x c : Hai} {l : List Hai}
    (h : HaiSorted (x :: c :: l)) (hne : c ≠ x) : x ∉ c :: l := by
  intro hm
  have hle : Hai.le x _ = true := hai_sorted_head_le h hm
  rcases List.mem_cons.mp hm with rfl | hmt
  · exact hne (hai_le_antisymm (hai_sorted_cons_le h) hle)
  · have hxc : Hai.le x c = true := hai_sorted_cons_le h
    have hcx : Hai.le c x = true :=
      hai_sorted_head_le (hai_sorted_tail h) hmt
    exact hne (hai_le_antisymm hcx hxc)

/-! ## C5: spec-side pair/single kind counts -/

/-- `P` of the spec: the number of distinct tiles occurring at least
twice in the hand. -/
def pairKinds (l : List Hai) : Nat :=
  (l.toFinset.filter (fun h => 2 ≤ l.count h)).card

/-- `K` of the spec: the number of distinct tiles occurring exactly
once in the hand (available as future pairs). -/
def singleKinds (l : List Hai) : Nat :=
  (l.toFinset.filter (fun h => l.count h = 1)).card

lemma filter_ne_of_not_mem {x : Hai} {l : List Hai} (h : x ∉ l) :
    l.filter (fun a => a ≠ x) = l := by
  apply List.filter_eq_self.mpr
  intro a ha
  simp only [ne_eq, decide_eq_true_eq]
  exact fun he => h (he ▸ ha)

lemma pairKinds_cons_of_not_mem {x : Hai} {l : List Hai} (h : x ∉ l) :
    pairKinds (x :: l) = pairKinds l := by
  unfold pairKinds
  have hx1 : (x :: l).count x = 1 := by
    simp [List.count_cons, List.count_eq_zero_of_not_mem h]
  rw [List.toFinset_cons, Finset.filter_insert, if_neg (by omega)]
  apply congrArg Finset.card
  apply Finset.filter_congr
  intro a ha
  simp only [List.mem_toFinset] at ha
  have hax : a ≠ x := fun he => h (he ▸ ha)
  simp [List.count_cons, hax]

lemma singleKinds_cons_of_not_mem {x : Hai} {l : List Hai} (h : x ∉ l) :
    singleKinds (x :: l) = 1 + singleKinds l := by
  unfold singleKinds
  have hx1 : (x :: l).count x = 1 := by
    simp [List.count_cons, List.count_eq_zero_of_not_mem h]
  rw [List.toFinset_cons, Finset.filter_insert, if_pos hx1]
  have hxnot : x ∉ Finset.filter (fun a => (x :: l).count a = 1) l.toFinset :=
    fun hx => h (List.mem_toFinset.mp (Finset.mem_filter.mp hx).1)
  rw [Finset.card_insert_of_not_mem hxnot, Nat.add_comm]
  apply congrArg (1 + ·)
  apply congrArg Finset.card
  apply Finset.filter_congr
  intro a ha
  simp only [List.mem_toFinset] at ha
  have hax : a ≠ x := fun he => h (he ▸ ha)
  simp [List.count_cons, hax]

lemma count_filter_ne {x a : Hai} (l : List Hai) (h : a ≠ x) :
    (l.filter (fun b => b ≠ x)).count a = l.count a := by
  induction l with
  | nil => simp
  | cons b t ih =>
    simp only [ne_eq, decide_not] at ih
    by_cases hbx : b = x
    · subst hbx
      have : a ≠ b := h
      simp [List.filter_cons, List.count_cons, this, ih]
    · by_cases hab : a = b
      · subst hab
        simp [List.filter_cons, hbx, List.count_cons, ih]
      · have hba : ¬(b = a) := fun he => hab he.symm
        simp [List.filter_cons, hbx, List.count_cons, hab, hba, ih]

lemma insert_eq_insert_erase {x : Hai} (s : Finset Hai) :
    insert x s = insert x (s.erase x) := by
  ext a
  by_cases hax : a = x <;> simp [hax]

lemma pairKinds_cons_pair (x : Hai) (t : List Hai) :
    pairKinds (x :: x :: t) = 1 + pairKinds (t.filter (fun a => a ≠ x)) := by
  unfold pairKinds
  have hcx : 2 ≤ (x :: x :: t).count x := by
    simp [List.count_cons]
  have htf : (t.filter (fun a => a ≠ x)).toFinset = t.toFinset.erase x := by
    rw [List.toFinset_filter]
    simp only [ne_eq, decide_not]
    rw [← Finset.filter_ne' t.toFinset x]
    apply Finset.filter_congr
    intro a _
    simp
  rw [htf, List.toFinset_cons, List.toFinset_cons, Finset.insert_idem,
    Finset.filter_insert, if_pos hcx, insert_eq_insert_erase,
    ← Finset.filter_erase]
  rw [Finset.card_insert_of_not_mem (fun hx =>
    Finset.not_mem_erase x _ (Finset.mem_of_mem_filter x hx))]
  rw [Nat.add_comm]
  apply congrArg (1 + ·)
  apply congrArg Finset.card
  apply Finset.filter_congr
  intro a ha
  have hax : a ≠ x := Finset.ne_of_mem_erase ha
  have h1 : (x :: x :: t).count a = t.count a := by
    simp [List.count_cons, hax]
  have h2 : (t.filter (fun b => b ≠ x)).count a = t.count a :=
    count_filter_ne t hax
  simp only [h1, h2]

lemma singleKinds_cons_pair (x : Hai) (t : List Hai) :
    singleKinds (x :: x :: t) = singleKinds (t.filter (fun a => a ≠ x)) := by
  unfold singleKinds
  have hcx : ¬((x :: x :: t).count x = 1) := by
    simp [List.count_cons]
  have htf : (t.filter (fun a => a ≠ x)).toFinset = t.toFinset.erase x := by
    rw [List.toFinset_filter]
    simp only [ne_eq, decide_not]
    rw [← Finset.filter_ne' t.toFinset x]
    apply Finset.filter_congr
    intro a _
    simp
  rw [htf, List.toFinset_cons, List.toFinset_cons, Finset.insert_idem,
    Finset.filter_insert, if_neg hcx]
  have herase : Finset.filter (fun h => (x :: x :: t).count h = 1) t.toFinset
      = Finset.filter (fun h => (x :: x :: t).count h = 1)
          (t.toFinset.erase x) := by
    ext a
    simp only [Finset.mem_filter, Finset.mem_erase]
    constructor
    · intro ⟨hmem, hcnt⟩
      refine ⟨⟨?_, hmem⟩, hcnt⟩
      intro hax
      subst hax
      exact hcx hcnt
    · intro ⟨⟨_, hmem⟩, hcnt⟩
      exact ⟨hmem, hcnt⟩
  rw [herase]
  apply congrArg Finset.card
  apply Finset.filter_congr
  intro a ha
  have hax : a ≠ x := Finset.ne_of_mem_erase ha
  have h1 : (x :: x :: t).count a = t.count a := by
    simp [List.count_cons, hax]
  have h2 : (t.filter (fun b => b ≠ x)).count a = t.count a :=
    count_filter_ne t hax
  simp only [h1, h2]

/-- Characterization of the chiitoitsu scan on a sorted tail: it adds
`P` pairs and `K` singles of the remaining tiles (kind `last` excluded
when already used), leaving the pattern kind unchanged. -/
lemma chiitoiGo_lens (rest : List Hai) :
    ∀ (last : Hai) (used : Bool) (d : Decomposer),
      HaiSorted (last :: rest) →
      (chiitoiGo last used rest d).toitsu_vec.length =
        d.toitsu_vec.length +
          (if used then pairKinds (rest.filter (fun a => a ≠ last))
           else pairKinds (last :: rest)) ∧
      (chiitoiGo last used rest d).valid_ukihai_vec.length =
        d.valid_ukihai_vec.length +
          (if used then singleKinds (rest.filter (fun a => a ≠ last))
           else singleKinds (last :: rest)) ∧
      (chiitoiGo last used rest d).hourakei = d.hourakei := by
  induction rest with
  | nil =>
    intro last used d _
    cases used with
    | false =>
      refine ⟨?_, ?_, ?_⟩ <;>
        simp [chiitoiGo, pairKinds, singleKinds, List.count_cons,
          Finset.filter_singleton]
    | true =>
      refine ⟨?_, ?_, ?_⟩ <;>
        simp [chiitoiGo, pairKinds, singleKinds]
  | cons cur t ih =>
    intro last used d hsorted
    by_cases hcl : cur = last
    · subst hcl
      cases used with
      | false =>
        have hrec := ih cur true
          { d with toitsu_vec := d.toitsu_vec ++ [cur] }
          (hai_sorted_tail hsorted)
        refine ⟨?_, ?_, ?_⟩
        · rw [show chiitoiGo cur false (cur :: t) d =
            chiitoiGo cur true t { d with toitsu_vec := d.toitsu_vec ++ [cur] }
            from by simp [chiitoiGo]]
          rw [hrec.1]
          simp [pairKinds_cons_pair]
          omega
        · rw [show chiitoiGo cur false (cur :: t) d =
            chiitoiGo cur true t { d with toitsu_vec := d.toitsu_vec ++ [cur] }
            from by simp [chiitoiGo]]
          rw [hrec.2.1]
          simp [singleKinds_cons_pair]
        · rw [show chiitoiGo cur false (cur :: t) d =
            chiitoiGo cur true t { d with toitsu_vec := d.toitsu_vec ++ [cur] }
            from by simp [chiitoiGo]]
          exact hrec.2.2
      | true =>
        have hrec := ih cur true
          { d with invalid_ukihai_vec := d.invalid_ukihai_vec ++ [cur] }
          (hai_sorted_tail hsorted)
        have hred : chiitoiGo cur true (cur :: t) d =
            chiitoiGo cur true t
              { d with invalid_ukihai_vec := d.invalid_ukihai_vec ++ [cur] } :=
          by simp [chiitoiGo]
        refine ⟨?_, ?_, ?_⟩
        · rw [hred, hrec.1]
          simp [List.filter_cons]
        · rw [hred, hrec.2.1]
          simp [List.filter_cons]
        · rw [hred]
          exact hrec.2.2
    · have hnotin : last ∉ cur :: t := hai_sorted_head_notin hsorted hcl
      have hncl : ¬(cur = last) := hcl
      cases used with
      | false =>
        have hrec := ih cur false
          { d with valid_ukihai_vec := d.valid_ukihai_vec ++ [last] }
          (hai_sorted_tail hsorted)
        have hred : chiitoiGo last false (cur :: t) d =
            chiitoiGo cur false t
              { d with valid_ukihai_vec := d.valid_ukihai_vec ++ [last] } :=
          by simp [chiitoiGo, hncl]
        refine ⟨?_, ?_, ?_⟩
        · rw [hred, hrec.1]
          simp [pairKinds_cons_of_not_mem hnotin]
        · rw [hred, hrec.2.1]
          simp [singleKinds_cons_of_not_mem hnotin]
          omega
        · rw [hred]
          exact hrec.2.2
      | true =>
        have hrec := ih cur false d (hai_sorted_tail hsorted)
        have hred : chiitoiGo last true (cur :: t) d =
            chiitoiGo cur false t d := by simp [chiitoiGo, hncl]
        have hfid : (cur :: t).filter (fun a => a ≠ last) = cur :: t :=
          filter_ne_of_not_mem hnotin
        simp only [ne_eq, decide_not] at hfid
        refine ⟨?_, ?_, ?_⟩
        · rw [hred, hrec.1]
          simp only [ne_eq, decide_not, hfid]
          simp
        · rw [hred, hrec.2.1]
          simp only [ne_eq, decide_not, hfid]
          simp
        · rw [hred]
          exact hrec.2.2

/-- The 14-tile counterexample hand 1122m 1122p 12345s 1z (sorted):
four pairs and six distinct singles. -/
def c5_hand : List Hai :=
  [Hai.manzu 1, Hai.manzu 1, Hai.manzu 2, Hai.manzu 2, Hai.pinzu 1,
   Hai.pinzu 1, Hai.pinzu 2, Hai.pinzu 2, Hai.souzu 1, Hai.souzu 2,
   Hai.souzu 3, Hai.souzu 4, Hai.souzu 5, Hai.jihai 1]

/-- C5 counterexample: on the hand 1122m1122p12345s1z (P = 4 pairs,
K = 6 singles, P + K ≥ 7), the decomposer computes seven-pairs shanten
2, while the claimed formula `6 − P − min(K, 7 − P)` gives −1. -/
theorem c5_counterexample :
    c5_hand.length = 14 ∧ HaiSorted c5_hand ∧
    pairKinds c5_hand = 4 ∧ singleKinds c5_hand = 6 ∧
    (chiitoiDecomposer c5_hand).map (fun d => d.shanten 14) = some 2 ∧
    (6 - (pairKinds c5_hand : Int)
        - ((min (singleKinds c5_hand) (7 - pairKinds c5_hand) : Nat) : Int))
      = -1 ∧
    (2 : Int) ≠ -1 := by
  refine ⟨rfl, by decide, by decide, by decide, by rfl, by decide, by decide⟩

/-- C5 amended: for every sorted hand of 14 free tiles with no fixed
melds, the seven-pairs shanten computed by the decomposer equals
`13 − 2·P − min(K, 7 − P)` (equivalently `6 − P` when `P + K ≥ 7` and
`13 − 2·P − K` when `P + K < 7`), with `P` the number of distinct pairs
present and `K` the number of distinct single tiles. -/
theorem c5_chiitoitsu_shanten_formula (l : List Hai)
    (hs : HaiSorted l) (hn : l.length = 14) (d : Decomposer)
    (hd : chiitoiDecomposer l = some d) :
    d.shanten l.length =
      13 - 2 * (pairKinds l : Int)
        - ((min (singleKinds l) (7 - pairKinds l) : Nat) : Int) := by
  cases l with
  | nil => simp at hn
  | cons h rest =>
    have hlens := chiitoiGo_lens rest h false
      { Decomposer.new with hourakei := .chiitoitsu } hs
    simp only [chiitoiDecomposer, Option.some.injEq] at hd
    subst hd
    have hhour : (chiitoiGo h false rest
        { Decomposer.new with hourakei := .chiitoitsu }).hourakei =
        Hourakei.chiitoitsu := hlens.2.2
    unfold Decomposer.shanten
    rw [hhour]
    have ht := hlens.1
    have hv := hlens.2.1
    simp only [if_neg (by simp : ¬(false = true))] at ht hv
    rw [ht, hv]
    simp [Decomposer.new]

/-- Witness for the amended C5 at the counterexample hand. -/
theorem c5_witness :
    ((chiitoiDecomposer c5_hand).getD Decomposer.new).shanten c5_hand.length
      = 13 - 2 * (pairKinds c5_hand : Int)
        - ((min (singleKinds c5_hand) (7 - pairKinds c5_hand) : Nat) : Int) :=
  c5_chiitoitsu_shanten_formula c5_hand (by decide) (by decide)
    ((chiitoiDecomposer c5_hand).getD Decomposer.new) (by rfl)

/-! ## C6: spec-side yaochuu counts and the merge characterization -/

lemma hai_lt_trans {a b c : Hai} (h1 : Hai.lt a b = true)
    (h2 : Hai.lt b c = true) : Hai.lt a c = true := by
  simp only [Hai.lt, Bool.or_eq_true, Bool.and_eq_true, beq_iff_eq,
    decide_eq_true_eq] at *
  omega

lemma hai_lt_asymm {a b : Hai} (h1 : Hai.lt a b = true)
    (h2 : Hai.le b a = true) : False := by
  simp only [Hai.le, Hai.lt, Bool.or_eq_true, Bool.and_eq_true, beq_iff_eq,
    decide_eq_true_eq] at *
  rcases h2 with h2 | h2
  · omega
  · subst h2; omega

lemma hai_eq_of_not_lt {a b : Hai} (h1 : ¬ Hai.lt a b = true)
    (h2 : ¬ Hai.lt b a = true) : a = b := by
  cases a <;> cases b <;>
    simp [Hai.lt, Hai.tagIdx, Hai.rank] at h1 h2 ⊢ <;>
    omega

lemma hai_lt_ne {a b : Hai} (h : Hai.lt a b = true) : a ≠ b := by
  intro he
  subst he
  simp only [Hai.lt, Bool.or_eq_true, Bool.and_eq_true, beq_iff_eq,
    decide_eq_true_eq] at h
  omega

/-- Strictly ascending tile list (a `BTreeSet` iteration order). -/
def strictAscB : List Hai → Bool
  | [] => true
  | [_] => true
  | a :: b :: t => Hai.lt a b && strictAscB (b :: t)

/-- Strict ascending order as a proposition. -/
def StrictAsc (l : List Hai) : Prop := strictAscB l = true

instance : DecidablePred StrictAsc := fun l =>
  inferInstanceAs (Decidable (strictAscB l = true))

lemma strict_asc_tail {x : Hai} {l : List Hai} (h : StrictAsc (x :: l)) :
    StrictAsc l := by
  cases l with
  | nil => rfl
  | cons b t =>
    have := h
    unfold StrictAsc strictAscB at this
    exact (Bool.and_eq_true _ _ |>.mp this).2

lemma strict_asc_cons_lt {x y : Hai} {l : List Hai}
    (h : StrictAsc (x :: y :: l)) : Hai.lt x y = true := by
  have := h
  unfold StrictAsc strictAscB at this
  exact (Bool.and_eq_true _ _ |>.mp this).1

lemma strict_asc_head_lt {x y : Hai} {l : List Hai}
    (h : StrictAsc (x :: l)) (hm : y ∈ l) : Hai.lt x y = true := by
  induction l generalizing x with
  | nil => cases hm
  | cons a t ih =>
    have hxa : Hai.lt x a = true := strict_asc_cons_lt h
    rcases List.mem_cons.mp hm with rfl | hmt
    · exact hxa
    · exact hai_lt_trans hxa (ih (strict_asc_tail h) hmt)

lemma hai_sorted_mem_le {x y : Hai} {l : List Hai}
    (h : HaiSorted (x :: l)) (hm : y ∈ x :: l) : Hai.le x y = true := by
  rcases List.mem_cons.mp hm with rfl | hmt
  · exact hai_le_refl _
  · exact hai_sorted_head_le h hmt

/-- The number of kinds from `L` present in `js`. -/
def kdMatches (L js : List Hai) : Nat := (L.filter (fun k => k ∈ js)).length

/-- The distinct-kind contribution of the pending merge state: the head
kind counts only while its first copy has not been consumed (`iC`). -/
def kdHead : List Hai → List Hai → Bool → Nat
  | [], _, _ => 0
  | y :: ys, js, iC => (if iC = true ∧ y ∈ js then 1 else 0) + kdMatches ys js

/-- The duplicate contribution of the pending merge state: one extra
valid slot unless already used (`tI`); for the head kind a single copy
suffices when its first copy was already consumed (`¬iC`). -/
def kdDup : List Hai → List Hai → Bool → Bool → Nat
  | _, _, true, _ => 0
  | [], _, false, _ => 0
  | y :: ys, js, false, iC =>
    if (¬iC = true ∧ y ∈ js) ∨ (iC = true ∧ 2 ≤ js.count y) ∨
        (∃ k ∈ ys, 2 ≤ js.count k) then 1 else 0

lemma kdHead_true (L js : List Hai) : kdHead L js true = kdMatches L js := by
  cases L with
  | nil => simp [kdHead, kdMatches]
  | cons y ys =>
    simp only [kdHead, kdMatches, List.filter_cons]
    by_cases hm : y ∈ js <;> (simp [hm]; try omega)

lemma kdMatches_nil_right (L : List Hai) : kdMatches L [] = 0 := by
  simp [kdMatches]

lemma kdMatches_congr {L js1 js2 : List Hai}
    (h : ∀ k ∈ L, (k ∈ js1 ↔ k ∈ js2)) :
    kdMatches L js1 = kdMatches L js2 := by
  unfold kdMatches
  apply congrArg List.length
  apply List.filter_congr
  intro k hk
  simp [h k hk]

lemma kdDup_congr_js {L js1 js2 : List Hai} {tI iC : Bool}
    (hmem : ∀ k ∈ L, (k ∈ js1 ↔ k ∈ js2))
    (hcnt : ∀ k ∈ L, js1.count k = js2.count k) :
    kdDup L js1 tI iC = kdDup L js2 tI iC := by
  cases tI with
  | true => cases L <;> simp [kdDup]
  | false =>
    cases L with
    | nil => rfl
    | cons y ys =>
      simp only [kdDup]
      refine if_congr ?_ rfl rfl
      have hy := hmem y (List.mem_cons_self y ys)
      have hyc := hcnt y (List.mem_cons_self y ys)
      constructor
      · rintro (⟨h1, h2⟩ | ⟨h1, h2⟩ | ⟨k, hk, h2⟩)
        · exact Or.inl ⟨h1, hy.mp h2⟩
        · exact Or.inr (Or.inl ⟨h1, hyc ▸ h2⟩)
        · exact Or.inr (Or.inr ⟨k, hk,
            (hcnt k (List.mem_cons_of_mem y hk)) ▸ h2⟩)
      · rintro (⟨h1, h2⟩ | ⟨h1, h2⟩ | ⟨k, hk, h2⟩)
        · exact Or.inl ⟨h1, hy.mpr h2⟩
        · exact Or.inr (Or.inl ⟨h1, hyc.symm ▸ h2⟩)
        · exact Or.inr (Or.inr ⟨k, hk,
            (hcnt k (List.mem_cons_of_mem y hk)).symm ▸ h2⟩)

lemma kdHead_congr_js {L js1 js2 : List Hai} {iC : Bool}
    (hmem : ∀ k ∈ L, (k ∈ js1 ↔ k ∈ js2)) :
    kdHead L js1 iC = kdHead L js2 iC := by
  cases L with
  | nil => rfl
  | cons y ys =>
    simp only [kdHead]
    have hy := hmem y (List.mem_cons_self y ys)
    have hm : kdMatches ys js1 = kdMatches ys js2 :=
      kdMatches_congr (fun k hk => hmem k (List.mem_cons_of_mem y hk))
    rw [hm]
    congr 1
    exact if_congr (and_congr Iff.rfl hy) rfl rfl

lemma kdDup_skip_head {y : Hai} {ys js : List Hai} {iC : Bool}
    (hnotin : y ∉ js) :
    kdDup (y :: ys) js false iC = kdDup ys js false true := by
  have hcy : js.count y = 0 := List.count_eq_zero.mpr hnotin
  cases ys with
  | nil => simp [kdDup, hnotin, hcy]
  | cons y2 ys2 =>
    simp [kdDup, hnotin, hcy, List.mem_cons]

lemma kdDup_consume_pair {y : Hai} {ys jt : List Hai}
    (hcnt2 : ∀ k ∈ ys, (y :: jt).count k = jt.count k) :
    kdDup (y :: ys) (y :: jt) false true = kdDup (y :: ys) jt false false := by
  have hcyy : (y :: jt).count y = jt.count y + 1 := by
    simp [List.count_cons]
  simp only [kdDup]
  refine if_congr ?_ rfl rfl
  constructor
  · intro h
    simp only [not_true_eq_false, false_and, false_or, true_and] at h
    rcases h with h2 | ⟨k, hk, h2⟩
    · rw [hcyy] at h2
      have : y ∈ jt := List.count_pos_iff.mp (by omega)
      simp [this]
    · rw [hcnt2 k hk] at h2
      exact Or.inr (Or.inr ⟨k, hk, h2⟩)
  · intro h
    simp only [Bool.false_eq_true, false_and, false_or, not_false_eq_true,
      true_and] at h
    rcases h with h2 | ⟨k, hk, h2⟩
    · refine Or.inr (Or.inl ⟨trivial, ?_⟩)
      rw [hcyy]
      have : 0 < jt.count y := List.count_pos_iff.mpr h2
      omega
    · exact Or.inr (Or.inr ⟨k, hk, (hcnt2 k hk).symm ▸ h2⟩)

/-- Characterization of the kokushimusou merge: with a strictly
ascending kind list and a sorted tile list, the valid floats gained are
the distinct contribution (`kdHead`) plus the single duplicate slot
(`kdDup`); the pattern kind is unchanged. -/
lemma kokushiGo_spec :
    ∀ (fuel : Nat) (L js : List Hai) (tI iC : Bool) (d : Decomposer),
      L.length + js.length ≤ fuel → StrictAsc L → HaiSorted js →
      (kokushiGo fuel L js tI iC d).valid_ukihai_vec.length =
        d.valid_ukihai_vec.length + kdHead L js iC + kdDup L js tI iC ∧
      (kokushiGo fuel L js tI iC d).hourakei = d.hourakei := by
  intro fuel
  induction fuel with
  | zero =>
    intro L js tI iC d hf _ _
    match L, js with
    | [], js => cases tI <;> simp [kokushiGo, kdHead, kdDup]
    | y :: ys, [] =>
      cases tI <;>
        simp [kokushiGo, kdHead, kdDup, kdMatches_nil_right,
          List.count_nil]
    | y :: ys, j :: jt => simp at hf
  | succ fuel ih =>
    intro L js tI iC d hf hasc hsor
    match L, js with
    | [], js => cases tI <;> simp [kokushiGo, kdHead, kdDup]
    | y :: ys, [] =>
      cases tI <;>
        simp [kokushiGo, kdHead, kdDup, kdMatches_nil_right,
          List.count_nil]
    | y :: ys, j :: jt =>
      have hf' : ys.length + (j :: jt).length ≤ fuel := by
        simp at hf ⊢; omega
      have hf'' : (y :: ys).length + jt.length ≤ fuel := by
        simp at hf ⊢; omega
      by_cases hyj : Hai.lt y j = true
      · have hred : kokushiGo (fuel + 1) (y :: ys) (j :: jt) tI iC d =
            kokushiGo fuel ys (j :: jt) tI true d := by
          simp [kokushiGo, hyj]
        have hnotin : y ∉ j :: jt := fun hm =>
          hai_lt_asymm hyj (hai_sorted_mem_le hsor hm)
        have hcy : (j :: jt).count y = 0 := by
          exact List.count_eq_zero.mpr hnotin
        have hrec := ih ys (j :: jt) tI true d hf' (strict_asc_tail hasc) hsor
        refine ⟨?_, hred ▸ hrec.2⟩
        rw [hred, hrec.1]
        have hh : kdHead (y :: ys) (j :: jt) iC = kdHead ys (j :: jt) true := by
          rw [kdHead_true]
          simp [kdHead, hnotin]
        have hd : kdDup (y :: ys) (j :: jt) tI iC =
            kdDup ys (j :: jt) tI true := by
          cases tI with
          | true => cases ys <;> simp [kdDup]
          | false => exact kdDup_skip_head hnotin
        rw [hh, hd]
      · by_cases hjy : Hai.lt j y = true
        · have hred : kokushiGo (fuel + 1) (y :: ys) (j :: jt) tI iC d =
              kokushiGo fuel (y :: ys) jt tI iC
                { d with invalid_ukihai_vec := d.invalid_ukihai_vec ++ [j] } :=
            by simp [kokushiGo, hyj, hjy]
          have hne : ∀ k ∈ y :: ys, k ≠ j := by
            intro k hk
            rcases List.mem_cons.mp hk with rfl | hk2
            · exact fun he => hai_lt_ne hjy he.symm
            · exact fun he =>
                hai_lt_ne (hai_lt_trans hjy (strict_asc_head_lt hasc hk2))
                  he.symm
          have hmem : ∀ k ∈ y :: ys, (k ∈ j :: jt ↔ k ∈ jt) := by
            intro k hk
            simp [List.mem_cons, hne k hk]
          have hcnt : ∀ k ∈ y :: ys, (j :: jt).count k = jt.count k := by
            intro k hk
            simp [List.count_cons, hne k hk]
          have hrec := ih (y :: ys) jt tI iC
            { d with invalid_ukihai_vec := d.invalid_ukihai_vec ++ [j] }
            hf'' hasc (hai_sorted_tail hsor)
          refine ⟨?_, hred ▸ hrec.2⟩
          rw [hred, hrec.1, kdHead_congr_js hmem, kdDup_congr_js hmem hcnt]
        · have heq : y = j := hai_eq_of_not_lt hyj hjy
          subst heq
          have hneys : ∀ k ∈ ys, k ≠ y := fun k hk he =>
            hai_lt_ne (strict_asc_head_lt hasc hk) he.symm
          have hmem2 : ∀ k ∈ ys, (k ∈ y :: jt ↔ k ∈ jt) := by
            intro k hk
            simp [List.mem_cons, hneys k hk]
          have hcnt2 : ∀ k ∈ ys, (y :: jt).count k = jt.count k := by
            intro k hk
            simp [List.count_cons, hneys k hk]
          have hmy : kdMatches ys (y :: jt) = kdMatches ys jt :=
            kdMatches_congr hmem2
          have hcyy : (y :: jt).count y = jt.count y + 1 := by
            simp [List.count_cons]
          cases iC with
          | true =>
            have hred : kokushiGo (fuel + 1) (y :: ys) (y :: jt) tI true d =
                kokushiGo fuel (y :: ys) jt tI false
                  { d with valid_ukihai_vec := d.valid_ukihai_vec ++ [y] } :=
              by simp [kokushiGo, hyj]
            have hrec := ih (y :: ys) jt tI false
              { d with valid_ukihai_vec := d.valid_ukihai_vec ++ [y] }
              hf'' hasc (hai_sorted_tail hsor)
            refine ⟨?_, hred ▸ hrec.2⟩
            rw [hred, hrec.1]
            have hh : kdHead (y :: ys) (y :: jt) true =
                1 + kdHead (y :: ys) jt false := by
              simp [kdHead, hmy]
            have hd : kdDup (y :: ys) (y :: jt) tI true =
                kdDup (y :: ys) jt tI false := by
              cases tI with
              | true => simp [kdDup]
              | false => exact kdDup_consume_pair hcnt2
            rw [hh, hd]
            simp [Nat.add_assoc, Nat.add_comm, Nat.add_left_comm]
          | false =>
            cases tI with
            | false =>
              have hred : kokushiGo (fuel + 1) (y :: ys) (y :: jt) false false
                  d = kokushiGo fuel (y :: ys) jt true false
                    { d with valid_ukihai_vec := d.valid_ukihai_vec ++ [y] } :=
                by simp [kokushiGo, hyj]
              have hrec := ih (y :: ys) jt true false
                { d with valid_ukihai_vec := d.valid_ukihai_vec ++ [y] }
                hf'' hasc (hai_sorted_tail hsor)
              refine ⟨?_, hred ▸ hrec.2⟩
              rw [hred, hrec.1]
              have hh : kdHead (y :: ys) (y :: jt) false =
                  kdHead (y :: ys) jt false := by
                simp [kdHead, hmy]
              have hd1 : kdDup (y :: ys) (y :: jt) false false = 1 := by
                simp [kdDup]
              have hd2 : kdDup (y :: ys) jt true false = 0 := by
                simp [kdDup]
              rw [hh, hd1, hd2]
              simp [Nat.add_assoc, Nat.add_comm, Nat.add_left_comm]
            | true =>
              have hred : kokushiGo (fuel + 1) (y :: ys) (y :: jt) true false
                  d = kokushiGo fuel (y :: ys) jt true false
                    { d with invalid_ukihai_vec :=
                        d.invalid_ukihai_vec ++ [y] } :=
                by simp [kokushiGo, hyj]
              have hrec := ih (y :: ys) jt true false
                { d with invalid_ukihai_vec := d.invalid_ukihai_vec ++ [y] }
                hf'' hasc (hai_sorted_tail hsor)
              refine ⟨?_, hred ▸ hrec.2⟩
              rw [hred, hrec.1]
              have hh : kdHead (y :: ys) (y :: jt) false =
                  kdHead (y :: ys) jt false := by
                simp [kdHead, hmy]
              have hd1 : kdDup (y :: ys) (y :: jt) true false = 0 := by
                simp [kdDup]
              have hd2 : kdDup (y :: ys) jt true false = 0 := by
                simp [kdDup]
              rw [hh, hd1, hd2]

/-- The number of distinct terminal/honor kinds present in a tile list
(`D` of the spec formula). -/
def yaochuuKinds (l : List Hai) : Nat :=
  (Hai.yaochuupai_type.filter (fun k => k ∈ l)).length

/-- 1 when some terminal/honor kind appears at least twice, else 0. -/
def yaochuuDup (l : List Hai) : Nat :=
  if ∃ k ∈ Hai.yaochuupai_type, 2 ≤ l.count k then 1 else 0

lemma kdDup_head_true (y : Hai) (ys js : List Hai) :
    kdDup (y :: ys) js false true =
      if ∃ k ∈ y :: ys, 2 ≤ js.count k then 1 else 0 := by
  simp only [kdDup]
  refine if_congr ?_ rfl rfl
  simp [List.mem_cons, or_and_right, exists_or]

lemma kokushiDecomposer_valid_len (l : List Hai) (hs : HaiSorted l) :
    (kokushiDecomposer l).valid_ukihai_vec.length =
      yaochuuKinds l + yaochuuDup l := by
  have hspec := kokushiGo_spec (Hai.yaochuupai_type.length + l.length)
    Hai.yaochuupai_type l false true
    { Decomposer.new with hourakei := .kokushimusou }
    (le_refl _) (by decide) hs
  have h1 := hspec.1
  unfold kokushiDecomposer
  rw [h1, kdHead_true]
  have h2 : kdDup Hai.yaochuupai_type l false true = yaochuuDup l := by
    rw [show Hai.yaochuupai_type = Hai.manzu 1 ::
        [Hai.manzu 9, Hai.pinzu 1, Hai.pinzu 9, Hai.souzu 1, Hai.souzu 9,
         Hai.jihai 1, Hai.jihai 2, Hai.jihai 3, Hai.jihai 4, Hai.jihai 5,
         Hai.jihai 6, Hai.jihai 7] from rfl]
    rw [kdDup_head_true]
    rfl
  rw [h2]
  simp [Decomposer.new, kdMatches, yaochuuKinds]

lemma kokushiDecomposer_hourakei (l : List Hai) (hs : HaiSorted l) :
    (kokushiDecomposer l).hourakei = Hourakei.kokushimusou := by
  have hspec := kokushiGo_spec (Hai.yaochuupai_type.length + l.length)
    Hai.yaochuupai_type l false true
    { Decomposer.new with hourakei := .kokushimusou }
    (le_refl _) (by decide) hs
  exact hspec.2

/-- C6: for every sorted free-tile list, the thirteen-orphans shanten
number produced by the decomposer equals `13 − D − dup`, where `D` is
the number of distinct terminal/honor kinds present and `dup` is 1 when
some terminal/honor kind appears at least twice; consequently it is −1
exactly when all 13 kinds are present and one of them is duplicated
(13 such 14-tile hands, not 156). -/
theorem c6_kokushi_shanten_formula (l : List Hai) (hs : HaiSorted l) :
    (kokushiDecomposer l).shanten l.length =
      13 - (yaochuuKinds l : Int) - (yaochuuDup l : Int) ∧
    ((kokushiDecomposer l).shanten l.length = -1 ↔
      yaochuuKinds l = 13 ∧ yaochuuDup l = 1) := by
  have hval := kokushiDecomposer_valid_len l hs
  have hhou := kokushiDecomposer_hourakei l hs
  have hsh : (kokushiDecomposer l).shanten l.length =
      13 - ((yaochuuKinds l + yaochuuDup l : Nat) : Int) := by
    unfold Decomposer.shanten
    rw [hhou, hval]
  have hDle : yaochuuKinds l ≤ 13 := by
    have := List.length_filter_le (fun k => decide (k ∈ l))
      Hai.yaochuupai_type
    simpa [yaochuuKinds] using this
  have hdup : yaochuuDup l ≤ 1 := by
    unfold yaochuuDup
    split <;> omega
  constructor
  · rw [hsh]; push_cast; ring
  · rw [hsh]
    constructor
    · intro h
      have : (yaochuuKinds l + yaochuuDup l : Nat) = 14 := by omega
      omega
    · rintro ⟨h1, h2⟩
      rw [h1, h2]
      rfl

/-- C6 counterexample: the hands consisting of all 13 terminal/honor
kinds plus one duplicate number 13 as multisets (the decomposer treats
the hand as a sorted multiset), each with thirteen-orphans shanten −1 —
not 156 as the claim counts them. -/
theorem c6_counterexample :
    (Hai.yaochuupai_type.map
      (fun y => sortHai (Hai.yaochuupai_type ++ [y]))).Nodup ∧
    (Hai.yaochuupai_type.map
      (fun y => sortHai (Hai.yaochuupai_type ++ [y]))).length = 13 ∧
    (∀ l ∈ Hai.yaochuupai_type.map
      (fun y => sortHai (Hai.yaochuupai_type ++ [y])),
      l.length = 14 ∧ (kokushiDecomposer l).shanten l.length = -1) ∧
    (13 : Nat) ≠ 156 := by decide

def c6_hand : List Hai :=
  [Hai.manzu 1, Hai.manzu 1, Hai.manzu 9, Hai.pinzu 1, Hai.pinzu 9,
   Hai.souzu 1, Hai.souzu 9, Hai.jihai 1, Hai.jihai 2, Hai.jihai 3,
   Hai.jihai 4, Hai.jihai 5, Hai.jihai 6, Hai.jihai 7]

theorem c6_witness :
    HaiSorted c6_hand ∧
    ((kokushiDecomposer c6_hand).shanten c6_hand.length =
        13 - (yaochuuKinds c6_hand : Int) - (yaochuuDup c6_hand : Int) ∧
      ((kokushiDecomposer c6_hand).shanten c6_hand.length = -1 ↔
        yaochuuKinds c6_hand = 13 ∧ yaochuuDup c6_hand = 1)) :=
  ⟨by decide, c6_kokushi_shanten_formula c6_hand (by decide)⟩

lemma addGo_error_restore (backup : Haiyama) :
    ∀ (v : List Hai) (cur hy : Haiyama) (e : String),
      Haiyama.addGo true backup cur v = some (hy, some e) → hy = backup := by
  intro v
  induction v with
  | nil => intro cur hy e h; simp [Haiyama.addGo] at h
  | cons a rest ih =>
    intro cur hy e h
    simp only [Haiyama.addGo] at h
    cases hadd : cur.add a with
    | none => rw [hadd] at h; exact absurd h (by simp)
    | some r =>
      rw [hadd] at h
      cases r with
      | error e2 =>
        simp at h
        exact h.1.symm
      | ok cur2 => exact ih cur2 hy e h

lemma add_with_vec_error_restore (hy0 hy : Haiyama) (v : List Hai) (e : String)
    (h : Haiyama.add_with_vec hy0 v true = some (hy, some e)) : hy = hy0 :=
  addGo_error_restore hy0 v hy0 hy e h

lemma discardGo_error_restore (backup : Haiyama) :
    ∀ (v : List Hai) (cur hy : Haiyama) (e : String),
      Haiyama.discardGo true backup cur v = some (hy, some e) → hy = backup := by
  intro v
  induction v with
  | nil => intro cur hy e h; simp [Haiyama.discardGo] at h
  | cons a rest ih =>
    intro cur hy e h
    simp only [Haiyama.discardGo] at h
    cases hd : cur.discard a with
    | none => rw [hd] at h; exact absurd h (by simp)
    | some r =>
      rw [hd] at h
      cases r with
      | error e2 =>
        simp at h
        exact h.1.symm
      | ok cur2 => exact ih cur2 hy e h

lemma discard_with_vec_error_restore (hy0 hy : Haiyama) (v : List Hai)
    (e : String)
    (h : Haiyama.discard_with_vec hy0 v true = some (hy, some e)) : hy = hy0 :=
  discardGo_error_restore hy0 v hy0 hy e h

lemma c7aux_full_kan_cont (ghy : Haiyama) (gte : Option Tehai)
    (gsty : List Hai) (gst : GMState) (gpn : PlayerNumber)
    (ghist : List (Operation × GMState × List Hai))
    (kantsu : Mentsu) (rin : Option Hai) (s : Bool) (op : Operation)
    (hy : Haiyama) (st : GMState) (gm1 : GameManager) (op2 : Operation)
    (e : String)
    (h : GameManager.full_hai_kan_cont ⟨ghy, gte, gsty, gst, gpn, ghist⟩
        kantsu rin s op ghy gst gte hy st = some (gm1, op2, some e)) :
    gm1 = ⟨ghy, gte, gsty, gst, gpn, ghist⟩ := by
  simp only [GameManager.full_hai_kan_cont] at h
  cases gte with
  | none => exact absurd h (by simp)
  | some t =>
    dsimp only at h
    cases hk : t.kan kantsu rin with
    | error e2 =>
      rw [hk] at h
      simp at h
      exact h.1.symm
    | ok pr =>
      obtain ⟨t', kanv⟩ := pr
      rw [hk] at h
      cases kanv with
      | daiminkan k r =>
        simp at h
        exact h.1.symm
      | kakan k r => exact absurd h (by simp)
      | ankan k r => exact absurd h (by simp)
      | unknown k r =>
        simp at h
        exact h.1.symm

lemma c7aux_lack_kan_cont (ghy : Haiyama) (gte : Option Tehai)
    (gsty : List Hai) (gst : GMState) (gpn : PlayerNumber)
    (ghist : List (Operation × GMState × List Hai))
    (hai : Hai) (rin : Option Hai) (s : Bool) (op : Operation)
    (hy : Haiyama) (st : GMState) (gm1 : GameManager) (op2 : Operation)
    (e : String)
    (h : GameManager.lack_kan_cont ⟨ghy, gte, gsty, gst, gpn, ghist⟩
        hai rin s op ghy gst gte hy st = some (gm1, op2, some e)) :
    gm1 = ⟨ghy, gte, gsty, gst, gpn, ghist⟩ := by
  simp only [GameManager.lack_kan_cont] at h
  cases gte with
  | none => exact absurd h (by simp)
  | some t =>
    dsimp only at h
    cases hk : t.kan (Mentsu.kantsu hai) rin with
    | error e2 =>
      rw [hk] at h
      simp at h
      exact h.1.symm
    | ok pr =>
      obtain ⟨t', kanv⟩ := pr
      rw [hk] at h
      cases kanv with
      | daiminkan k r => exact absurd h (by simp)
      | kakan k r =>
        simp at h
        exact h.1.symm
      | ankan k r =>
        simp at h
        exact h.1.symm
      | unknown k r =>
        simp at h
        exact h.1.symm

lemma c7aux_lack_kan_step2 (ghy : Haiyama) (gte : Option Tehai)
    (gsty : List Hai) (gst : GMState) (gpn : PlayerNumber)
    (ghist : List (Operation × GMState × List Hai))
    (hai : Hai) (rin : Option Hai) (s : Bool) (op : Operation)
    (hy1 : Haiyama) (gm1 : GameManager) (op2 : Operation) (e : String)
    (h : GameManager.lack_kan_step2 ⟨ghy, gte, gsty, gst, gpn, ghist⟩
        hai rin s op ghy gst gte hy1 = some (gm1, op2, some e)) :
    gm1 = ⟨ghy, gte, gsty, gst, gpn, ghist⟩ := by
  simp only [GameManager.lack_kan_step2] at h
  cases rin with
  | none => exact c7aux_lack_kan_cont _ _ _ _ _ _ _ _ _ _ _ _ _ _ _ h
  | some r =>
    dsimp only at h
    cases hdr : Haiyama.discard hy1 r with
    | none => rw [hdr] at h; exact absurd h (by simp)
    | some res =>
      rw [hdr] at h
      cases res with
      | error e2 =>
        cases s with
        | true =>
          simp at h
          exact h.1.symm
        | false => exact c7aux_lack_kan_cont _ _ _ _ _ _ _ _ _ _ _ _ _ _ _ h
      | ok hy2 => exact c7aux_lack_kan_cont _ _ _ _ _ _ _ _ _ _ _ _ _ _ _ h

lemma c7aux_wait_to_init (ghy : Haiyama) (gte : Option Tehai)
    (gsty : List Hai) (gpn : PlayerNumber)
    (ghist : List (Operation × GMState × List Hai))
    (op : Operation) (gm1 : GameManager) (e : String)
    (h : GameManager.operate_wait_to_init
        ⟨ghy, gte, gsty, .waitToInit, gpn, ghist⟩ op = some (gm1, some e)) :
    gm1 = ⟨ghy, gte, gsty, .waitToInit, gpn, ghist⟩ := by
  match op with
  | .tehai (.init t) =>
    simp only [GameManager.operate_wait_to_init] at h
    by_cases hf : t.fuuro.length ≠ 0
    · rw [if_pos hf] at h
      simp at h
      exact h.1.symm
    · rw [if_neg hf] at h
      by_cases hl : t.juntehai.length = 13 ∨ t.juntehai.length = 14
      · rw [if_pos hl] at h
        cases hdw : Haiyama.discard_with_vec ghy t.juntehai true with
        | none => rw [hdw] at h; exact absurd h (by simp)
        | some p =>
          obtain ⟨hy2, e2⟩ := p
          rw [hdw] at h
          cases e2 with
          | none => exact absurd h (by simp)
          | some msg =>
            simp at h
            rw [← h.1, discard_with_vec_error_restore ghy hy2 t.juntehai
              msg hdw]
      · rw [if_neg hl] at h
        simp at h
        exact h.1.symm
  | .tehai (.add hai s) =>
    simp only [GameManager.operate_wait_to_init] at h
    simp at h
    exact h.1.symm
  | .tehai (.discard hai) =>
    simp only [GameManager.operate_wait_to_init] at h
    simp at h
    exact h.1.symm
  | .tehai (.naku k s) =>
    simp only [GameManager.operate_wait_to_init] at h
    simp at h
    exact h.1.symm
  | .haiyama (.add v) s =>
    simp only [GameManager.operate_wait_to_init] at h
    cases hv : Haiyama.add_with_vec ghy v s with
    | none => rw [hv] at h; exact absurd h (by simp)
    | some p =>
      obtain ⟨hy2, e2⟩ := p
      rw [hv] at h
      cases e2 with
      | none => exact absurd h (by simp)
      | some msg =>
        cases s with
        | false => simp at h
        | true =>
          simp at h
          rw [← h.1, add_with_vec_error_restore ghy hy2 v msg hv]
  | .haiyama (.discard v) s =>
    simp only [GameManager.operate_wait_to_init] at h
    cases hv : Haiyama.discard_with_vec ghy v s with
    | none => rw [hv] at h; exact absurd h (by simp)
    | some p =>
      obtain ⟨hy2, e2⟩ := p
      rw [hv] at h
      cases e2 with
      | none => exact absurd h (by simp)
      | some msg =>
        cases s with
        | false => simp at h
        | true =>
          simp at h
          rw [← h.1, discard_with_vec_error_restore ghy hy2 v msg hv]

lemma c7aux_full_hai (ghy : Haiyama) (gte : Option Tehai) (gsty : List Hai)
    (gst : GMState) (gpn : PlayerNumber)
    (ghist : List (Operation × GMState × List Hai))
    (op : Operation) (gm1 : GameManager) (op2 : Operation) (e : String)
    (h : GameManager.operate_full_hai ⟨ghy, gte, gsty, gst, gpn, ghist⟩ op =
      some (gm1, op2, some e)) :
    gm1 = ⟨ghy, gte, gsty, gst, gpn, ghist⟩ := by
  match op with
  | .tehai (.discard hai) =>
    simp only [GameManager.operate_full_hai] at h
    cases gte with
    | none => exact absurd h (by simp)
    | some t =>
      dsimp only at h
      cases hd : t.discard hai with
      | error e2 => rw [hd] at h; simp at h; exact h.1.symm
      | ok t' => rw [hd] at h; exact absurd h (by simp)
  | .tehai (.naku (.kan (.unknown kantsu rin)) s) =>
    simp only [GameManager.operate_full_hai] at h
    cases rin with
    | none => exact c7aux_full_kan_cont _ _ _ _ _ _ _ _ _ _ _ _ _ _ _ h
    | some r =>
      dsimp only at h
      cases hdr : Haiyama.discard ghy r with
      | none => rw [hdr] at h; exact absurd h (by simp)
      | some res =>
        rw [hdr] at h
        cases res with
        | error e2 =>
          cases s with
          | true => simp at h; exact h.1.symm
          | false => exact c7aux_full_kan_cont _ _ _ _ _ _ _ _ _ _ _ _ _ _ _ h
        | ok hy' => exact c7aux_full_kan_cont _ _ _ _ _ _ _ _ _ _ _ _ _ _ _ h
  | .haiyama (.add v) s =>
    simp only [GameManager.operate_full_hai] at h
    cases hv : Haiyama.add_with_vec ghy v s with
    | none => rw [hv] at h; exact absurd h (by simp)
    | some p =>
      obtain ⟨hy2, e2⟩ := p
      rw [hv] at h
      cases e2 with
      | none => exact absurd h (by simp)
      | some msg =>
        cases s with
        | false => simp at h
        | true =>
          simp at h
          rw [← h.1, add_with_vec_error_restore ghy hy2 v msg hv]
  | .haiyama (.discard v) s =>
    simp only [GameManager.operate_full_hai] at h
    cases hv : Haiyama.discard_with_vec ghy v s with
    | none => rw [hv] at h; exact absurd h (by simp)
    | some p =>
      obtain ⟨hy2, e2⟩ := p
      rw [hv] at h
      cases e2 with
      | none => exact absurd h (by simp)
      | some msg =>
        cases s with
        | false => simp at h
        | true =>
          simp at h
          rw [← h.1, discard_with_vec_error_restore ghy hy2 v msg hv]
  | .tehai (.init t) =>
    simp only [GameManager.operate_full_hai] at h
    simp at h
    exact h.1.symm
  | .tehai (.add hai s) =>
    simp only [GameManager.operate_full_hai] at h
    simp at h
    exact h.1.symm
  | .tehai (.naku (.chii m n) s) =>
    simp only [GameManager.operate_full_hai] at h
    simp at h
    exact h.1.symm
  | .tehai (.naku (.pon m) s) =>
    simp only [GameManager.operate_full_hai] at h
    simp at h
    exact h.1.symm
  | .tehai (.naku (.kan (.daiminkan m r)) s) =>
    simp only [GameManager.operate_full_hai] at h
    simp at h
    exact h.1.symm
  | .tehai (.naku (.kan (.kakan m r)) s) =>
    simp only [GameManager.operate_full_hai] at h
    simp at h
    exact h.1.symm
  | .tehai (.naku (.kan (.ankan m r)) s) =>
    simp only [GameManager.operate_full_hai] at h
    simp at h
    exact h.1.symm

lemma c7aux_lack_one_hai (ghy : Haiyama) (gte : Option Tehai)
    (gsty : List Hai) (gst : GMState) (gpn : PlayerNumber)
    (ghist : List (Operation × GMState × List Hai))
    (op : Operation) (gm1 : GameManager) (op2 : Operation) (e : String)
    (h : GameManager.operate_lack_one_hai ⟨ghy, gte, gsty, gst, gpn, ghist⟩
      op = some (gm1, op2, some e)) :
    gm1 = ⟨ghy, gte, gsty, gst, gpn, ghist⟩ := by
  match op with
  | .tehai (.add hai s) =>
    simp only [GameManager.operate_lack_one_hai] at h
    cases hdr : Haiyama.discard ghy hai with
    | none => rw [hdr] at h; exact absurd h (by simp)
    | some res =>
      rw [hdr] at h
      cases res with
      | error e2 =>
        cases s with
        | true => simp at h; exact h.1.symm
        | false =>
          cases gte with
          | none => exact absurd h (by simp)
          | some t => exact absurd h (by simp)
      | ok hy' =>
        cases gte with
        | none => exact absurd h (by simp)
        | some t => exact absurd h (by simp)
  | .tehai (.naku (.chii m n) s) =>
    simp only [GameManager.operate_lack_one_hai] at h
    cases hdr : Haiyama.discard ghy n with
    | none => rw [hdr] at h; exact absurd h (by simp)
    | some res =>
      rw [hdr] at h
      cases res with
      | error e2 =>
        cases s with
        | true => simp at h; exact h.1.symm
        | false =>
          cases gte with
          | none => exact absurd h (by simp)
          | some t =>
            dsimp only at h
            cases hc : t.chii m n with
            | error e3 => rw [hc] at h; simp at h; exact h.1.symm
            | ok t' => rw [hc] at h; exact absurd h (by simp)
      | ok hy' =>
        cases gte with
        | none => exact absurd h (by simp)
        | some t =>
          dsimp only at h
          cases hc : t.chii m n with
          | error e3 => rw [hc] at h; simp at h; exact h.1.symm
          | ok t' => rw [hc] at h; exact absurd h (by simp)
  | .tehai (.naku (.pon (Mentsu.koutsu hai)) s) =>
    simp only [GameManager.operate_lack_one_hai] at h
    cases hdr : Haiyama.discard ghy hai with
    | none => rw [hdr] at h; exact absurd h (by simp)
    | some res =>
      rw [hdr] at h
      cases res with
      | error e2 =>
        cases s with
        | true => simp at h; exact h.1.symm
        | false =>
          cases gte with
          | none => exact absurd h (by simp)
          | some t =>
            dsimp only at h
            cases hc : t.pon (Mentsu.koutsu hai) with
            | error e3 => rw [hc] at h; simp at h; exact h.1.symm
            | ok t' => rw [hc] at h; exact absurd h (by simp)
      | ok hy' =>
        cases gte with
        | none => exact absurd h (by simp)
        | some t =>
          dsimp only at h
          cases hc : t.pon (Mentsu.koutsu hai) with
          | error e3 => rw [hc] at h; simp at h; exact h.1.symm
          | ok t' => rw [hc] at h; exact absurd h (by simp)
  | .tehai (.naku (.kan (.unknown (Mentsu.kantsu hai) rin)) s) =>
    simp only [GameManager.operate_lack_one_hai] at h
    cases hdr : Haiyama.discard ghy hai with
    | none => rw [hdr] at h; exact absurd h (by simp)
    | some res =>
      rw [hdr] at h
      cases res with
      | error e2 =>
        cases s with
        | true => simp at h; exact h.1.symm
        | false => exact c7aux_lack_kan_step2 _ _ _ _ _ _ _ _ _ _ _ _ _ _ h
      | ok hy1 => exact c7aux_lack_kan_step2 _ _ _ _ _ _ _ _ _ _ _ _ _ _ h
  | .haiyama (.add v) s =>
    simp only [GameManager.operate_lack_one_hai] at h
    cases hv : Haiyama.add_with_vec ghy v s with
    | none => rw [hv] at h; exact absurd h (by simp)
    | some p =>
      obtain ⟨hy2, e2⟩ := p
      rw [hv] at h
      cases e2 with
      | none => exact absurd h (by simp)
      | some msg =>
        cases s with
        | false => simp at h
        | true =>
          simp at h
          rw [← h.1, add_with_vec_error_restore ghy hy2 v msg hv]
  | .haiyama (.discard v) s =>
    simp only [GameManager.operate_lack_one_hai] at h
    cases hv : Haiyama.discard_with_vec ghy v s with
    | none => rw [hv] at h; exact absurd h (by simp)
    | some p =>
      obtain ⟨hy2, e2⟩ := p
      rw [hv] at h
      cases e2 with
      | none => exact absurd h (by simp)
      | some msg =>
        cases s with
        | false => simp at h
        | true =>
          simp at h
          rw [← h.1, discard_with_vec_error_restore ghy hy2 v msg hv]
  | .tehai (.init t) =>
    simp only [GameManager.operate_lack_one_hai] at h
    simp at h
    exact h.1.symm
  | .tehai (.discard hai) =>
    simp only [GameManager.operate_lack_one_hai] at h
    simp at h
    exact h.1.symm
  | .tehai (.naku (.pon (Mentsu.juntsu a b c)) s) =>
    simp only [GameManager.operate_lack_one_hai] at h
    simp at h
    exact h.1.symm
  | .tehai (.naku (.pon (Mentsu.kantsu k)) s) =>
    simp only [GameManager.operate_lack_one_hai] at h
    simp at h
    exact h.1.symm
  | .tehai (.naku (.kan (.unknown (Mentsu.juntsu a b c) rin)) s) =>
    simp only [GameManager.operate_lack_one_hai] at h
    simp at h
    exact h.1.symm
  | .tehai (.naku (.kan (.unknown (Mentsu.koutsu k) rin)) s) =>
    simp only [GameManager.operate_lack_one_hai] at h
    simp at h
    exact h.1.symm
  | .tehai (.naku (.kan (.daiminkan m r)) s) =>
    simp only [GameManager.operate_lack_one_hai] at h
    simp at h
    exact h.1.symm
  | .tehai (.naku (.kan (.kakan m r)) s) =>
    simp only [GameManager.operate_lack_one_hai] at h
    simp at h
    exact h.1.symm
  | .tehai (.naku (.kan (.ankan m r)) s) =>
    simp only [GameManager.operate_lack_one_hai] at h
    simp at h
    exact h.1.symm

lemma c7aux_wait_for_rinshanhai (ghy : Haiyama) (gte : Option Tehai)
    (gsty : List Hai) (gst : GMState) (gpn : PlayerNumber)
    (ghist : List (Operation × GMState × List Hai))
    (op : Operation) (gm1 : GameManager) (e : String)
    (h : GameManager.operate_wait_for_rinshanhai
      ⟨ghy, gte, gsty, gst, gpn, ghist⟩ op = some (gm1, some e)) :
    gm1 = ⟨ghy, gte, gsty, gst, gpn, ghist⟩ := by
  match op with
  | .tehai (.add hai s) =>
    simp only [GameManager.operate_wait_for_rinshanhai] at h
    cases hdr : Haiyama.discard ghy hai with
    | none => rw [hdr] at h; exact absurd h (by simp)
    | some res =>
      rw [hdr] at h
      cases res with
      | error e2 =>
        cases s with
        | true => simp at h; exact h.1.symm
        | false =>
          cases gte with
          | none => exact absurd h (by simp)
          | some t => exact absurd h (by simp)
      | ok hy' =>
        cases gte with
        | none => exact absurd h (by simp)
        | some t => exact absurd h (by simp)
  | .haiyama (.add v) s =>
    simp only [GameManager.operate_wait_for_rinshanhai] at h
    cases hv : Haiyama.add_with_vec ghy v s with
    | none => rw [hv] at h; exact absurd h (by simp)
    | some p =>
      obtain ⟨hy2, e2⟩ := p
      rw [hv] at h
      cases e2 with
      | none => exact absurd h (by simp)
      | some msg =>
        cases s with
        | false => simp at h
        | true =>
          simp at h
          rw [← h.1, add_with_vec_error_restore ghy hy2 v msg hv]
  | .haiyama (.discard v) s =>
    simp only [GameManager.operate_wait_for_rinshanhai] at h
    cases hv : Haiyama.discard_with_vec ghy v s with
    | none => rw [hv] at h; exact absurd h (by simp)
    | some p =>
      obtain ⟨hy2, e2⟩ := p
      rw [hv] at h
      cases e2 with
      | none => exact absurd h (by simp)
      | some msg =>
        cases s with
        | false => simp at h
        | true =>
          simp at h
          rw [← h.1, discard_with_vec_error_restore ghy hy2 v msg hv]
  | .tehai (.init t) =>
    simp only [GameManager.operate_wait_for_rinshanhai] at h
    simp at h
    exact h.1.symm
  | .tehai (.discard hai) =>
    simp only [GameManager.operate_wait_for_rinshanhai] at h
    simp at h
    exact h.1.symm
  | .tehai (.naku k s) =>
    simp only [GameManager.operate_wait_for_rinshanhai] at h
    simp at h
    exact h.1.symm

/-- C7: every `GameManager::operate` call that reports an error is
atomic — the returned manager (wall, hand, discarded set, state and
operation history) is exactly the pre-operation manager. -/
theorem c7_operation_atomicity (gm : GameManager) (op : Operation)
    (gm' : GameManager) (e : String)
    (h : GameManager.operate gm op = some (gm', some e)) : gm' = gm := by
  obtain ⟨ghy, gte, gsty, gst, gpn, ghist⟩ := gm
  simp only [GameManager.operate] at h
  cases gst with
  | waitToInit =>
    dsimp only at h
    cases hw : GameManager.operate_wait_to_init
        ⟨ghy, gte, gsty, .waitToInit, gpn, ghist⟩ op with
    | none => rw [hw] at h; exact absurd h (by simp)
    | some p =>
      obtain ⟨g2, e2⟩ := p
      rw [hw] at h
      cases e2 with
      | none => exact absurd h (by simp)
      | some msg =>
        simp at h
        rw [← h.1]
        exact c7aux_wait_to_init _ _ _ _ _ _ _ _ hw
  | fullHai =>
    dsimp only at h
    cases hw : GameManager.operate_full_hai
        ⟨ghy, gte, gsty, .fullHai, gpn, ghist⟩ op with
    | none => rw [hw] at h; exact absurd h (by simp)
    | some p =>
      obtain ⟨g2, op2, e2⟩ := p
      rw [hw] at h
      cases e2 with
      | none => exact absurd h (by simp)
      | some msg =>
        simp at h
        rw [← h.1]
        exact c7aux_full_hai _ _ _ _ _ _ _ _ _ _ hw
  | lackOneHai =>
    dsimp only at h
    cases hw : GameManager.operate_lack_one_hai
        ⟨ghy, gte, gsty, .lackOneHai, gpn, ghist⟩ op with
    | none => rw [hw] at h; exact absurd h (by simp)
    | some p =>
      obtain ⟨g2, op2, e2⟩ := p
      rw [hw] at h
      cases e2 with
      | none => exact absurd h (by simp)
      | some msg =>
        simp at h
        rw [← h.1]
        exact c7aux_lack_one_hai _ _ _ _ _ _ _ _ _ _ hw
  | waitForRinshanhai =>
    dsimp only at h
    cases hw : GameManager.operate_wait_for_rinshanhai
        ⟨ghy, gte, gsty, .waitForRinshanhai, gpn, ghist⟩ op with
    | none => rw [hw] at h; exact absurd h (by simp)
    | some p =>
      obtain ⟨g2, e2⟩ := p
      rw [hw] at h
      cases e2 with
      | none => exact absurd h (by simp)
      | some msg =>
        simp at h
        rw [← h.1]
        exact c7aux_wait_for_rinshanhai _ _ _ _ _ _ _ _ _ hw

theorem c7_witness :
    GameManager.operate (GameManager.new .four)
        (.tehai (.discard (Hai.jihai 1))) =
      some (GameManager.new .four,
            some "Unsupported operation at current state.") ∧
    GameManager.new .four = GameManager.new .four :=
  ⟨by rfl,
   c7_operation_atomicity (GameManager.new .four)
     (.tehai (.discard (Hai.jihai 1))) (GameManager.new .four)
     "Unsupported operation at current state." (by rfl)⟩

/-! ## C8 -/

/-- Wall count of a tile kind (0 when the key is absent). -/
def wallOf (hy : Haiyama) (t : Hai) : Nat := (alookup hy.map t).getD 0

/-- Copies of a tile kind among the hand's free tiles. -/
def tehaiFree (te : Option Tehai) (t : Hai) : Nat :=
  match te with
  | none => 0
  | some x => x.juntehai.count t

/-- Copies of a tile kind contributed by the hand's fixed melds. -/
def tehaiMeld (te : Option Tehai) (t : Hai) : Nat :=
  match te with
  | none => 0
  | some x => (x.fuuro.map (fun m => (mentsuTiles m).count t)).sum

/-- Copies of a tile kind recorded as successful discards in the
history. -/
def histDisc (hist : List (Operation × GMState × List Hai)) (t : Hai) :
    Nat :=
  (hist.filter
    (fun ent =>
      decide (ent.1 = Operation.tehai (TehaiOperation.discard t)))).length

/-- The discard contribution a history entry for `op` adds for kind
`t`. -/
def opDiscDelta (op : Operation) (t : Hai) : Nat :=
  match op with
  | .tehai (.discard h) => if h = t then 1 else 0
  | _ => 0

/-- The strict hand-only operations of the amended C8 claim: no raw
wall edits, every wall-sensitive flag on, and chii called with a
well-formed run (three distinct tiles containing the called one). -/
def strictTehaiOp : Operation → Bool
  | .haiyama _ _ => false
  | .tehai (.init _) => true
  | .tehai (.add _ s) => s
  | .tehai (.discard _) => true
  | .tehai (.naku (.chii (Mentsu.juntsu a b c) n) s) =>
    s && decide ([a, b, c].Nodup) && decide (n ∈ [a, b, c])
  | .tehai (.naku (.chii _ _) _) => false
  | .tehai (.naku (.pon _) s) => s
  | .tehai (.naku (.kan _) s) => s

lemma ite_eq_comm_nat (a b : Hai) :
    (if a = b then (1 : Nat) else 0) = if b = a then 1 else 0 := by
  by_cases h : a = b
  · subst h; simp
  · have h2 : ¬(b = a) := fun he => h he.symm
    simp [h, h2]

lemma count_insertHai (h : Hai) (l : List Hai) (t : Hai) :
    (insertHai h l).count t = l.count t + (if t = h then 1 else 0) := by
  induction l with
  | nil =>
    by_cases ht : t = h
    · subst ht; simp [insertHai]
    · have ht2 : ¬(h = t) := fun he => ht he.symm
      simp [insertHai, ht, ht2]
  | cons x xs ih =>
    simp only [insertHai]
    by_cases hle : Hai.le h x = true
    · rw [if_pos hle, List.count_cons, List.count_cons]
      simp only [beq_iff_eq]
      rw [ite_eq_comm_nat h t]
    · rw [if_neg hle, List.count_cons, ih, List.count_cons]
      simp only [beq_iff_eq]
      omega

lemma count_sortHai (l : List Hai) (t : Hai) :
    (sortHai l).count t = l.count t := by
  induction l with
  | nil => rfl
  | cons x xs ih =>
    simp only [sortHai]
    rw [count_insertHai, ih, List.count_cons]
    simp only [beq_iff_eq]
    rw [ite_eq_comm_nat t x]

lemma mem_sortHai (l : List Hai) (t : Hai) : t ∈ sortHai l ↔ t ∈ l := by
  rw [← List.count_pos_iff, ← List.count_pos_iff, count_sortHai]

lemma count_remove_once (l : List Hai) (a : Hai) (ha : a ∈ l) (t : Hai) :
    (remove_once l a).count t + (if a = t then 1 else 0) = l.count t := by
  induction l with
  | nil => simp at ha
  | cons x xs ih =>
    simp only [remove_once]
    by_cases hx : x = a
    · subst hx
      rw [if_pos rfl, List.count_cons]
      simp only [beq_iff_eq]
    · rw [if_neg hx, List.count_cons, List.count_cons]
      simp only [beq_iff_eq]
      rcases List.mem_cons.mp ha with he | hmem
      · exact absurd he.symm hx
      · rw [← ih hmem]
        omega

lemma mem_remove_once {l : List Hai} {a x : Hai}
    (hx : x ∈ remove_once l a) : x ∈ l := by
  induction l with
  | nil => simp [remove_once] at hx
  | cons y ys ih =>
    simp only [remove_once] at hx
    by_cases hy : y = a
    · rw [if_pos hy] at hx
      exact List.mem_cons_of_mem y hx
    · rw [if_neg hy] at hx
      rcases List.mem_cons.mp hx with he | hmem
      · exact he ▸ List.mem_cons_self y ys
      · exact List.mem_cons_of_mem y (ih hmem)

lemma tehai_discard_ok {te te' : Tehai} {hai : Hai}
    (h : Tehai.discard te hai = .ok te') :
    hai ∈ te.juntehai ∧ te'.juntehai = remove_once te.juntehai hai ∧
    te'.fuuro = te.fuuro := by
  unfold Tehai.discard at h
  by_cases hm : hai ∈ te.juntehai
  · rw [if_pos hm] at h
    simp at h
    exact ⟨hm, by rw [← h], by rw [← h]⟩
  · rw [if_neg hm] at h
    exact absurd h (by simp)

lemma haiyama_discard_ok {hy hy' : Haiyama} {h : Hai}
    (hd : Haiyama.discard hy h = some (Except.ok hy')) :
    ∃ n, alookup hy.map h = some n ∧ 0 < n ∧
      ∀ t, alookup hy'.map t =
        if t = h then some (n - 1) else alookup hy.map t := by
  unfold Haiyama.discard at hd
  cases hn : alookup hy.map h with
  | none => rw [hn] at hd; exact absurd hd (by simp)
  | some n =>
    rw [hn] at hd
    dsimp only at hd
    by_cases hpos : n > 0
    · rw [if_pos hpos] at hd
      simp at hd
      refine ⟨n, rfl, hpos, ?_⟩
      intro t
      rw [← hd, alookup_map_insert]
    · rw [if_neg hpos] at hd
      exact absurd hd (by simp)

lemma discardGo_ok_spec (b : Bool) (backup : Haiyama) :
    ∀ (v : List Hai) (cur hy : Haiyama),
      Haiyama.discardGo b backup cur v = some (hy, none) →
      ∀ t : Hai,
        ((alookup hy.map t).isSome = (alookup cur.map t).isSome) ∧
        ((alookup hy.map t).getD 0 + v.count t =
          (alookup cur.map t).getD 0) ∧
        (t ∈ v → (alookup cur.map t).isSome = true) := by
  intro v
  induction v with
  | nil =>
    intro cur hy h t
    simp only [Haiyama.discardGo] at h
    simp at h
    subst h
    exact ⟨rfl, by simp, by simp⟩
  | cons a rest ih =>
    intro cur hy h t
    simp only [Haiyama.discardGo] at h
    cases hda : cur.discard a with
    | none => rw [hda] at h; exact absurd h (by simp)
    | some r =>
      rw [hda] at h
      cases r with
      | error e2 => simp at h
      | ok cur' =>
        obtain ⟨n, hn, hpos, hlook⟩ := haiyama_discard_ok hda
        obtain ⟨hsome, hcnt, hmem⟩ := ih cur' hy h t
        rw [hlook t] at hsome hcnt
        by_cases hta : t = a
        · subst hta
          simp only [if_pos rfl] at hsome hcnt
          refine ⟨by rw [hsome, hn]; simp, ?_, fun _ => by rw [hn]; rfl⟩
          rw [List.count_cons, hn]
          simp at hcnt ⊢
          omega
        · rw [if_neg hta] at hsome hcnt
          have hta2 : ¬(a = t) := fun he => hta he.symm
          refine ⟨hsome, ?_, ?_⟩
          · rw [List.count_cons]
            simp only [beq_iff_eq, if_neg hta2]
            omega
          · intro hmem2
            rcases List.mem_cons.mp hmem2 with he | hr
            · exact absurd he hta
            · have := hmem hr
              rw [hlook t, if_neg hta] at this
              exact this

lemma chiiGo_success (nk : Hai) :
    ∀ (v : List Hai) (te te' : Tehai),
      Tehai.chiiGo nk te v = .ok te' →
      te'.fuuro = te.fuuro ∧
      (∀ x, x ∈ te'.juntehai → x ∈ te.juntehai) ∧
      ∀ x, te'.juntehai.count x +
        (v.filter (fun h => decide ¬(h = nk))).count x =
          te.juntehai.count x := by
  intro v
  induction v with
  | nil =>
    intro te te' h
    simp only [Tehai.chiiGo] at h
    simp at h
    subst h
    exact ⟨rfl, fun x hx => hx, fun x => by simp⟩
  | cons a rest ih =>
    intro te te' h
    simp only [Tehai.chiiGo] at h
    by_cases han : a = nk
    · rw [if_pos han] at h
      subst han
      obtain ⟨hf, hmem, hcnt⟩ := ih te te' h
      refine ⟨hf, hmem, fun x => ?_⟩
      simpa using hcnt x
    · rw [if_neg han] at h
      cases hda : te.discard a with
      | error e2 => rw [hda] at h; exact absurd h (by simp)
      | ok t1 =>
        rw [hda] at h
        obtain ⟨hamem, hj1, hf1⟩ := tehai_discard_ok hda
        obtain ⟨hf, hmem, hcnt⟩ := ih t1 te' h
        refine ⟨by rw [hf, hf1], ?_, fun x => ?_⟩
        · intro x hx
          have := hmem x hx
          rw [hj1] at this
          exact mem_remove_once this
        · have h1 := hcnt x
          have h2 := count_remove_once te.juntehai a hamem x
          rw [hj1] at h1
          have hpa : (decide (¬(a = nk))) = true := by simp [han]
          rw [List.filter_cons, if_pos hpa, List.count_cons]
          simp only [beq_iff_eq]
          omega

lemma findKantsuIdx_isSome_mem :
    ∀ {fuuro : List Mentsu} {hai : Hai},
      (Tehai.findKantsuIdx fuuro hai).isSome = true →
      Mentsu.kantsu hai ∈ fuuro := by
  intro fuuro
  induction fuuro with
  | nil => intro hai h; simp [Tehai.findKantsuIdx] at h
  | cons m rest ih =>
    intro hai h
    cases m with
    | kantsu i =>
      simp only [Tehai.findKantsuIdx] at h
      by_cases hi : i = hai
      · subst hi; exact List.mem_cons_self _ _
      · rw [if_neg hi] at h
        simp at h
        exact List.mem_cons_of_mem _ (ih (by simp [h]))
    | juntsu a b c =>
      simp only [Tehai.findKantsuIdx] at h
      simp at h
      exact List.mem_cons_of_mem _ (ih (by simp [h]))
    | koutsu k =>
      simp only [Tehai.findKantsuIdx] at h
      simp at h
      exact List.mem_cons_of_mem _ (ih (by simp [h]))

lemma histDisc_append (h1 : List (Operation × GMState × List Hai))
    (op : Operation) (st : GMState) (sty : List Hai) (t : Hai) :
    histDisc (h1 ++ [(op, st, sty)]) t =
      histDisc h1 t + opDiscDelta op t := by
  unfold histDisc
  rw [List.filter_append, List.length_append]
  congr 1
  cases op with
  | haiyama k s => simp [opDiscDelta]
  | tehai top =>
    cases top
    all_goals try (simp [opDiscDelta]; done)
    rename_i h2
    by_cases hh : h2 = t
    · subst hh; simp [opDiscDelta]
    · simp [opDiscDelta, hh]

/-- The C8 induction invariant: the wall keys match the player count,
hand tiles are valid, a pre-init manager has no hand, and every valid
kind's copies across wall, free tiles, melds and recorded discards
total 4. -/
def C8Inv (pn : PlayerNumber) (gm : GameManager) : Prop :=
  gm.player_number = pn ∧
  (gm.state = GMState.waitToInit → gm.tehai = none) ∧
  Haiyama.domain_matches pn gm.haiyama ∧
  (∀ te2, gm.tehai = some te2 →
    ∀ h2 ∈ te2.juntehai, Hai.is_valid h2 pn = true) ∧
  (∀ t, Hai.is_valid t pn = true →
    wallOf gm.haiyama t + tehaiFree gm.tehai t + tehaiMeld gm.tehai t +
      histDisc gm.history t = 4)

lemma c8aux2_wait_to_init (pn : PlayerNumber) (ghy : Haiyama)
    (gte : Option Tehai) (gsty : List Hai) (gst : GMState)
    (gpn : PlayerNumber) (ghist : List (Operation × GMState × List Hai))
    (op : Operation) (gm1 : GameManager)
    (hdom : Haiyama.domain_matches pn ghy)
    (hte : gte = none)
    (hop : strictTehaiOp op = true)
    (h : GameManager.operate_wait_to_init ⟨ghy, gte, gsty, gst, gpn, ghist⟩
      op = some (gm1, none)) :
    gm1.player_number = gpn ∧
    gm1.history = ghist ∧
    (gm1.state = GMState.waitToInit → gm1.tehai = none) ∧
    Haiyama.domain_matches pn gm1.haiyama ∧
    (∀ te2, gm1.tehai = some te2 →
      ∀ h2 ∈ te2.juntehai, Hai.is_valid h2 pn = true) ∧
    (∀ t, wallOf gm1.haiyama t + tehaiFree gm1.tehai t +
        tehaiMeld gm1.tehai t + opDiscDelta op t =
        wallOf ghy t + tehaiFree gte t + tehaiMeld gte t) := by
  subst hte
  match op with
  | .haiyama k s => simp [strictTehaiOp] at hop
  | .tehai (.add hai s) =>
    simp only [GameManager.operate_wait_to_init] at h
    simp at h
  | .tehai (.discard hai) =>
    simp only [GameManager.operate_wait_to_init] at h
    simp at h
  | .tehai (.naku k s) =>
    simp only [GameManager.operate_wait_to_init] at h
    simp at h
  | .tehai (.init t) =>
    simp only [GameManager.operate_wait_to_init] at h
    by_cases hf : t.fuuro.length ≠ 0
    · rw [if_pos hf] at h; simp at h
    · rw [if_neg hf] at h
      by_cases hl : t.juntehai.length = 13 ∨ t.juntehai.length = 14
      · rw [if_pos hl] at h
        cases hdw : Haiyama.discard_with_vec ghy t.juntehai true with
        | none => rw [hdw] at h; simp at h
        | some p =>
          obtain ⟨hy2, e2⟩ := p
          rw [hdw] at h
          cases e2 with
          | some msg => simp at h
          | none =>
            simp at h
            have hspec := discardGo_ok_spec true ghy t.juntehai ghy hy2 hdw
            have hfu : t.fuuro = [] := by simpa using hf
            rw [← h]
            refine ⟨rfl, rfl, ?_, ?_, ?_, ?_⟩
            · intro hst
              by_cases h13 : t.juntehai.length = 13 <;>
                simp [h13] at hst
            · intro q
              have hq := (hspec q).1
              constructor
              · intro hq2
                exact (hdom q).mp (by rw [← hq]; exact hq2)
              · intro hq2
                rw [hq]
                exact (hdom q).mpr hq2
            · intro te2 hte2 h2 hmem
              simp at hte2
              subst hte2
              exact (hdom h2).mp ((hspec h2).2.2 hmem)
            · intro q
              have hq := (hspec q).2.1
              simp [wallOf, tehaiFree, tehaiMeld, opDiscDelta, hfu]
              omega
      · rw [if_neg hl] at h
        simp at h

lemma c8aux2_wait_for_rinshanhai (pn : PlayerNumber) (ghy : Haiyama)
    (gte : Option Tehai) (gsty : List Hai) (gst : GMState)
    (gpn : PlayerNumber) (ghist : List (Operation × GMState × List Hai))
    (op : Operation) (gm1 : GameManager)
    (hdom : Haiyama.domain_matches pn ghy)
    (hval : ∀ te2, gte = some te2 →
      ∀ h2 ∈ te2.juntehai, Hai.is_valid h2 pn = true)
    (hop : strictTehaiOp op = true)
    (h : GameManager.operate_wait_for_rinshanhai
      ⟨ghy, gte, gsty, gst, gpn, ghist⟩ op = some (gm1, none)) :
    gm1.player_number = gpn ∧
    gm1.history = ghist ∧
    (gm1.state = GMState.waitToInit → gm1.tehai = none) ∧
    Haiyama.domain_matches pn gm1.haiyama ∧
    (∀ te2, gm1.tehai = some te2 →
      ∀ h2 ∈ te2.juntehai, Hai.is_valid h2 pn = true) ∧
    (∀ t, wallOf gm1.haiyama t + tehaiFree gm1.tehai t +
        tehaiMeld gm1.tehai t + opDiscDelta op t =
        wallOf ghy t + tehaiFree gte t + tehaiMeld gte t) := by
  match op with
  | .haiyama k s => simp [strictTehaiOp] at hop
  | .tehai (.init t) =>
    simp only [GameManager.operate_wait_for_rinshanhai] at h
    simp at h
  | .tehai (.discard hai) =>
    simp only [GameManager.operate_wait_for_rinshanhai] at h
    simp at h
  | .tehai (.naku k s) =>
    simp only [GameManager.operate_wait_for_rinshanhai] at h
    simp at h
  | .tehai (.add hai s) =>
    have hs : s = true := by simpa [strictTehaiOp] using hop
    subst hs
    simp only [GameManager.operate_wait_for_rinshanhai] at h
    cases hdr : Haiyama.discard ghy hai with
    | none => rw [hdr] at h; simp at h
    | some res =>
      rw [hdr] at h
      cases res with
      | error e2 => simp at h
      | ok hy' =>
        cases gte with
        | none => exact absurd h (by simp)
        | some t =>
          dsimp only at h
          simp at h
          obtain ⟨n, hn, hpos, hlook⟩ := haiyama_discard_ok hdr
          rw [← h]
          refine ⟨rfl, rfl, by simp, ?_, ?_, ?_⟩
          · intro q
            rw [show (alookup hy'.map q) =
                if q = hai then some (n - 1) else alookup ghy.map q from
              hlook q]
            by_cases hq : q = hai
            · subst hq
              simp only [if_pos rfl]
              constructor
              · intro _
                exact (hdom q).mp (by rw [hn]; rfl)
              · intro _
                rfl
            · rw [if_neg hq]
              exact hdom q
          · intro te2 hte2 h2 hmem
            simp at hte2
            subst hte2
            simp only at hmem
            rw [mem_sortHai] at hmem
            rcases List.mem_append.mp hmem with hm | hm
            · exact hval t rfl h2 hm
            · simp at hm
              subst hm
              exact (hdom h2).mp (by rw [hn]; rfl)
          · intro q
            simp only [wallOf, tehaiFree, tehaiMeld, opDiscDelta]
            rw [hlook q, count_sortHai, List.count_append]
            by_cases hq : q = hai
            · subst hq
              simp only [if_pos rfl, Option.getD_some]
              rw [hn]
              simp
              omega
            · rw [if_neg hq]
              have : List.count q [hai] = 0 := by
                simp [List.count_singleton]
                exact fun he => hq he.symm
              rw [this]
              omega

/-- Hand gain from the replacement tile of a kan. -/
def rinDelta (rin : Option Hai) (q : Hai) : Nat :=
  match rin with
  | none => 0
  | some r => if r = q then 1 else 0

lemma count_chii_filter (v : List Hai) (nk q : Hai) :
    List.count q (v.filter (fun h => decide (¬(h = nk)))) +
      (if q = nk then List.count nk v else 0) = List.count q v := by
  by_cases hq : q = nk
  · subst hq
    rw [if_pos rfl]
    have h0 : List.count q (v.filter (fun h => decide (¬(h = q)))) = 0 :=
      List.count_eq_zero.mpr (fun hm => by simp at hm)
    rw [h0]
    omega
  · rw [if_neg hq]
    rw [List.count_filter (by simp [hq])]
    omega

lemma meld_sum_ge_kantsu {f : List Mentsu} {hai : Hai}
    (hm : Mentsu.kantsu hai ∈ f) :
    4 ≤ (f.map (fun m => (mentsuTiles m).count hai)).sum := by
  induction f with
  | nil => simp at hm
  | cons m rest ih =>
    rcases List.mem_cons.mp hm with he | hmem
    · rw [← he]
      simp [mentsuTiles]
    · have := ih hmem
      simp
      omega

lemma pushRinshan_count (t : Tehai) (rin : Option Hai) (q : Hai) :
    (Tehai.pushRinshan t rin).juntehai.count q =
      t.juntehai.count q + rinDelta rin q ∧
    (Tehai.pushRinshan t rin).fuuro = t.fuuro ∧
    (∀ x ∈ (Tehai.pushRinshan t rin).juntehai,
      x ∈ t.juntehai ∨ rin = some x) := by
  cases rin with
  | none => exact ⟨by simp [Tehai.pushRinshan, rinDelta], rfl,
      fun x hx => Or.inl hx⟩
  | some r =>
    refine ⟨?_, rfl, ?_⟩
    · simp only [Tehai.pushRinshan]
      rw [count_sortHai, List.count_append, rinDelta]
      by_cases hq : r = q
      · subst hq
        simp
      · have h2 : ¬(q = r) := fun he => hq he.symm
        simp [List.count_singleton, hq, h2]
    · intro x hx
      simp only [Tehai.pushRinshan] at hx
      rw [mem_sortHai] at hx
      rcases List.mem_append.mp hx with hm | hm
      · exact Or.inl hm
      · simp at hm
        subst hm
        exact Or.inr rfl

lemma kan_daiminkan_spec {t t' : Tehai} {hai : Hai} {rin : Option Hai}
    {m : Mentsu} {r2 : Option Hai}
    (hk : t.kan (Mentsu.kantsu hai) rin = .ok (t', Kan.daiminkan m r2)) :
    t'.fuuro = t.fuuro ++ [Mentsu.kantsu hai] ∧
    (∀ q, List.count q t'.juntehai + 3 * (if hai = q then 1 else 0) =
      List.count q t.juntehai + rinDelta rin q) ∧
    (∀ x ∈ t'.juntehai, x ∈ t.juntehai ∨ rin = some x) := by
  simp only [Tehai.kan] at hk
  by_cases h2 : t.juntehai.length % 3 = 2
  · rw [if_pos h2] at hk
    by_cases hb1 : t.juntehai.count hai = 1 ∧
        (Tehai.findKantsuIdx t.fuuro hai).isSome = true
    · rw [if_pos hb1] at hk
      repeat' split at hk
      all_goals simp at hk
    · rw [if_neg hb1] at hk
      by_cases hb2 : t.juntehai.count hai = 4 ∧
          (Tehai.findKantsuIdx t.fuuro hai).isNone = true
      · rw [if_pos hb2] at hk
        repeat' split at hk
        all_goals simp at hk
      · rw [if_neg hb2] at hk
        simp at hk
  · rw [if_neg h2] at hk
    by_cases h1 : t.juntehai.length % 3 = 1
    · rw [if_pos h1] at hk
      by_cases hb3 : t.juntehai.count hai = 3 ∧
          (Tehai.findKantsuIdx t.fuuro hai).isNone = true
      · rw [if_pos hb3] at hk
        cases hd1 : t.discard hai with
        | error e => rw [hd1] at hk; simp at hk
        | ok t1 =>
          rw [hd1] at hk
          dsimp only at hk
          cases hd2 : t1.discard hai with
          | error e => rw [hd2] at hk; simp at hk
          | ok t2 =>
            rw [hd2] at hk
            dsimp only at hk
            cases hd3 : t2.discard hai with
            | error e => rw [hd3] at hk; simp at hk
            | ok t3 =>
              rw [hd3] at hk
              simp at hk
              obtain ⟨hm1, hj1, hf1⟩ := tehai_discard_ok hd1
              obtain ⟨hm2, hj2, hf2⟩ := tehai_discard_ok hd2
              obtain ⟨hm3, hj3, hf3⟩ := tehai_discard_ok hd3
              obtain ⟨ht', _⟩ := hk
              subst ht'
              set t4 : Tehai := { t3 with fuuro := t3.fuuro ++ [Mentsu.kantsu hai] } with ht4
              refine ⟨?_, ?_, ?_⟩
              · rw [(pushRinshan_count t4 rin hai).2.1, ht4]
                simp [hf3, hf2, hf1]
              · intro q
                rw [(pushRinshan_count t4 rin q).1]
                have c1 := count_remove_once t.juntehai hai hm1 q
                have c2 := count_remove_once t1.juntehai hai hm2 q
                have c3 := count_remove_once t2.juntehai hai hm3 q
                rw [hj1] at c2
                rw [hj2, hj1] at c3
                have hj4 : t4.juntehai = t3.juntehai := rfl
                rw [hj4, hj3, hj2, hj1]
                omega
              · intro x hx
                rcases (pushRinshan_count t4 rin x).2.2 x hx with hm | hm
                · left
                  have : x ∈ t3.juntehai := hm
                  rw [hj3] at this
                  have := mem_remove_once this
                  rw [hj2] at this
                  have := mem_remove_once this
                  rw [hj1] at this
                  exact mem_remove_once this
                · right; exact hm
      · rw [if_neg hb3] at hk
        simp at hk
    · rw [if_neg h1] at hk
      simp at hk

lemma kan_ankan_spec {t t' : Tehai} {hai : Hai} {rin : Option Hai}
    {m : Mentsu} {r2 : Option Hai}
    (hk : t.kan (Mentsu.kantsu hai) rin = .ok (t', Kan.ankan m r2)) :
    t'.fuuro = t.fuuro ++ [Mentsu.kantsu hai] ∧
    (∀ q, List.count q t'.juntehai + 4 * (if hai = q then 1 else 0) =
      List.count q t.juntehai + rinDelta rin q) ∧
    (∀ x ∈ t'.juntehai, x ∈ t.juntehai ∨ rin = some x) := by
  simp only [Tehai.kan] at hk
  by_cases h2 : t.juntehai.length % 3 = 2
  · rw [if_pos h2] at hk
    by_cases hb1 : t.juntehai.count hai = 1 ∧
        (Tehai.findKantsuIdx t.fuuro hai).isSome = true
    · rw [if_pos hb1] at hk
      repeat' split at hk
      all_goals simp at hk
    · rw [if_neg hb1] at hk
      by_cases hb2 : t.juntehai.count hai = 4 ∧
          (Tehai.findKantsuIdx t.fuuro hai).isNone = true
      · rw [if_pos hb2] at hk
        cases hd1 : t.discard hai with
        | error e => rw [hd1] at hk; simp at hk
        | ok t1 =>
          rw [hd1] at hk
          dsimp only at hk
          cases hd2 : t1.discard hai with
          | error e => rw [hd2] at hk; simp at hk
          | ok t2 =>
            rw [hd2] at hk
            dsimp only at hk
            cases hd3 : t2.discard hai with
            | error e => rw [hd3] at hk; simp at hk
            | ok t3 =>
              rw [hd3] at hk
              dsimp only at hk
              cases hd4 : t3.discard hai with
              | error e => rw [hd4] at hk; simp at hk
              | ok t4 =>
                rw [hd4] at hk
                simp at hk
                obtain ⟨hm1, hj1, hf1⟩ := tehai_discard_ok hd1
                obtain ⟨hm2, hj2, hf2⟩ := tehai_discard_ok hd2
                obtain ⟨hm3, hj3, hf3⟩ := tehai_discard_ok hd3
                obtain ⟨hm4, hj4, hf4⟩ := tehai_discard_ok hd4
                obtain ⟨ht', _⟩ := hk
                subst ht'
                set t5 : Tehai :=
                  { t4 with fuuro := t4.fuuro ++ [Mentsu.kantsu hai] } with ht5
                refine ⟨?_, ?_, ?_⟩
                · rw [(pushRinshan_count t5 rin hai).2.1, ht5]
                  simp [hf4, hf3, hf2, hf1]
                · intro q
                  rw [(pushRinshan_count t5 rin q).1]
                  have c1 := count_remove_once t.juntehai hai hm1 q
                  have c2 := count_remove_once t1.juntehai hai hm2 q
                  have c3 := count_remove_once t2.juntehai hai hm3 q
                  have c4 := count_remove_once t3.juntehai hai hm4 q
                  rw [hj1] at c2
                  rw [hj2, hj1] at c3
                  rw [hj3, hj2, hj1] at c4
                  have hj5 : t5.juntehai = t4.juntehai := rfl
                  rw [hj5, hj4, hj3, hj2, hj1]
                  omega
                · intro x hx
                  rcases (pushRinshan_count t5 rin x).2.2 x hx with hm | hm
                  · left
                    have hx2 : x ∈ t4.juntehai := hm
                    rw [hj4] at hx2
                    have hx3 := mem_remove_once hx2
                    rw [hj3] at hx3
                    have hx4 := mem_remove_once hx3
                    rw [hj2] at hx4
                    have hx5 := mem_remove_once hx4
                    rw [hj1] at hx5
                    exact mem_remove_once hx5
                  · right; exact hm
      · rw [if_neg hb2] at hk
        simp at hk
  · rw [if_neg h2] at hk
    by_cases h1 : t.juntehai.length % 3 = 1
    · rw [if_pos h1] at hk
      by_cases hb3 : t.juntehai.count hai = 3 ∧
          (Tehai.findKantsuIdx t.fuuro hai).isNone = true
      · rw [if_pos hb3] at hk
        repeat' split at hk
        all_goals simp at hk
      · rw [if_neg hb3] at hk
        simp at hk
    · rw [if_neg h1] at hk
      simp at hk

lemma kan_kakan_spec {t t' : Tehai} {hai : Hai} {rin : Option Hai}
    {m : Mentsu} {r2 : Option Hai}
    (hk : t.kan (Mentsu.kantsu hai) rin = .ok (t', Kan.kakan m r2)) :
    t.juntehai.count hai = 1 ∧
    (Tehai.findKantsuIdx t.fuuro hai).isSome = true := by
  simp only [Tehai.kan] at hk
  by_cases h2 : t.juntehai.length % 3 = 2
  · rw [if_pos h2] at hk
    by_cases hb1 : t.juntehai.count hai = 1 ∧
        (Tehai.findKantsuIdx t.fuuro hai).isSome = true
    · exact hb1
    · rw [if_neg hb1] at hk
      by_cases hb2 : t.juntehai.count hai = 4 ∧
          (Tehai.findKantsuIdx t.fuuro hai).isNone = true
      · rw [if_pos hb2] at hk
        repeat' split at hk
        all_goals simp at hk
      · rw [if_neg hb2] at hk
        simp at hk
  · rw [if_neg h2] at hk
    by_cases h1 : t.juntehai.length % 3 = 1
    · rw [if_pos h1] at hk
      by_cases hb3 : t.juntehai.count hai = 3 ∧
          (Tehai.findKantsuIdx t.fuuro hai).isNone = true
      · rw [if_pos hb3] at hk
        repeat' split at hk
        all_goals simp at hk
      · rw [if_neg hb3] at hk
        simp at hk
    · rw [if_neg h1] at hk
      simp at hk

lemma c8aux3_lack_kan_cont {ghy : Haiyama} {gte : Option Tehai}
    {gsty : List Hai} {gst : GMState} {gpn : PlayerNumber}
    {ghist : List (Operation × GMState × List Hai)}
    {hai : Hai} {rin : Option Hai} {s : Bool} {op : Operation}
    {hy : Haiyama} {st : GMState} {gm1 : GameManager} {op2 : Operation}
    (h : GameManager.lack_kan_cont ⟨ghy, gte, gsty, gst, gpn, ghist⟩
      hai rin s op ghy gst gte hy st = some (gm1, op2, none)) :
    ∃ t t' m r2, gte = some t ∧
      t.kan (Mentsu.kantsu hai) rin = .ok (t', Kan.daiminkan m r2) ∧
      gm1 = ⟨hy, some t', gsty, st, gpn, ghist⟩ ∧
      op2 = Operation.tehai
        (TehaiOperation.naku (Naku.kan (Kan.daiminkan m r2)) s) := by
  simp only [GameManager.lack_kan_cont] at h
  cases gte with
  | none => exact absurd h (by simp)
  | some t =>
    dsimp only at h
    cases hk : t.kan (Mentsu.kantsu hai) rin with
    | error e => rw [hk] at h; simp at h
    | ok pr =>
      obtain ⟨t', kv⟩ := pr
      rw [hk] at h
      cases kv with
      | daiminkan m r2 =>
        simp at h
        exact ⟨t, t', m, r2, rfl, hk, h.1.symm, h.2.symm⟩
      | kakan m r2 => simp at h
      | ankan m r2 => simp at h
      | unknown m r2 => simp at h

lemma domain_after_discard {pn : PlayerNumber} {ghy hy' : Haiyama}
    {hai : Hai} (hdom : Haiyama.domain_matches pn ghy)
    (hdr : Haiyama.discard ghy hai = some (Except.ok hy')) :
    Haiyama.domain_matches pn hy' := by
  obtain ⟨n, hn, hpos, hlook⟩ := haiyama_discard_ok hdr
  intro q
  rw [hlook q]
  by_cases hq : q = hai
  · subst hq
    rw [if_pos rfl]
    constructor
    · intro _
      exact (hdom q).mp (by rw [hn]; rfl)
    · intro _
      rfl
  · rw [if_neg hq]
    exact hdom q

lemma valid_of_discard_ok {pn : PlayerNumber} {ghy hy' : Haiyama}
    {hai : Hai} (hdom : Haiyama.domain_matches pn ghy)
    (hdr : Haiyama.discard ghy hai = some (Except.ok hy')) :
    Hai.is_valid hai pn = true := by
  obtain ⟨n, hn, _, _⟩ := haiyama_discard_ok hdr
  exact (hdom hai).mp (by rw [hn]; rfl)

lemma wall_after_discard {ghy hy' : Haiyama} {hai : Hai}
    (hdr : Haiyama.discard ghy hai = some (Except.ok hy')) (q : Hai) :
    wallOf hy' q + (if q = hai then 1 else 0) = wallOf ghy q := by
  obtain ⟨n, hn, hpos, hlook⟩ := haiyama_discard_ok hdr
  unfold wallOf
  rw [hlook q]
  by_cases hq : q = hai
  · subst hq
    rw [if_pos rfl, if_pos rfl, hn]
    simp
    omega
  · rw [if_neg hq, if_neg hq]
    omega

lemma count_rep3 (hai q : Hai) :
    List.count q [hai, hai, hai] = 3 * (if q = hai then 1 else 0) := by
  by_cases hq : q = hai
  · subst hq; simp
  · have h2 : ¬(hai = q) := fun he => hq he.symm
    simp [hq, h2]

lemma count_rep4 (hai q : Hai) :
    List.count q [hai, hai, hai, hai] = 4 * (if q = hai then 1 else 0) := by
  by_cases hq : q = hai
  · subst hq; simp
  · have h2 : ¬(hai = q) := fun he => hq he.symm
    simp [hq, h2]

lemma tehaiMeld_append (j : List Hai) (f : List Mentsu) (m : Mentsu)
    (q : Hai) :
    tehaiMeld (some ⟨j, f ++ [m]⟩) q =
      tehaiMeld (some ⟨j, f⟩) q + (mentsuTiles m).count q := by
  simp [tehaiMeld]

lemma c8aux2_lack_one_hai (pn : PlayerNumber) (ghy : Haiyama)
    (gte : Option Tehai) (gsty : List Hai) (gst : GMState)
    (gpn : PlayerNumber) (ghist : List (Operation × GMState × List Hai))
    (op : Operation) (gm1 : GameManager) (op2 : Operation)
    (hdom : Haiyama.domain_matches pn ghy)
    (hval : ∀ te2, gte = some te2 →
      ∀ h2 ∈ te2.juntehai, Hai.is_valid h2 pn = true)
    (hop : strictTehaiOp op = true)
    (h : GameManager.operate_lack_one_hai ⟨ghy, gte, gsty, gst, gpn, ghist⟩
      op = some (gm1, op2, none)) :
    gm1.player_number = gpn ∧
    gm1.history = ghist ∧
    (gm1.state = GMState.waitToInit → gm1.tehai = none) ∧
    Haiyama.domain_matches pn gm1.haiyama ∧
    (∀ te2, gm1.tehai = some te2 →
      ∀ h2 ∈ te2.juntehai, Hai.is_valid h2 pn = true) ∧
    (∀ t, wallOf gm1.haiyama t + tehaiFree gm1.tehai t +
        tehaiMeld gm1.tehai t + opDiscDelta op2 t =
        wallOf ghy t + tehaiFree gte t + tehaiMeld gte t) := by
  match op with
  | .haiyama k s => simp [strictTehaiOp] at hop
  | .tehai (.init t) =>
    simp only [GameManager.operate_lack_one_hai] at h
    simp at h
  | .tehai (.discard hai) =>
    simp only [GameManager.operate_lack_one_hai] at h
    simp at h
  | .tehai (.naku (.chii (Mentsu.koutsu k) nk) s) =>
    simp [strictTehaiOp] at hop
  | .tehai (.naku (.chii (Mentsu.kantsu k) nk) s) =>
    simp [strictTehaiOp] at hop
  | .tehai (.naku (.pon (Mentsu.juntsu a b c)) s) =>
    simp only [GameManager.operate_lack_one_hai] at h
    simp at h
  | .tehai (.naku (.pon (Mentsu.kantsu k)) s) =>
    simp only [GameManager.operate_lack_one_hai] at h
    simp at h
  | .tehai (.naku (.kan (.unknown (Mentsu.juntsu a b c) rin)) s) =>
    simp only [GameManager.operate_lack_one_hai] at h
    simp at h
  | .tehai (.naku (.kan (.unknown (Mentsu.koutsu k) rin)) s) =>
    simp only [GameManager.operate_lack_one_hai] at h
    simp at h
  | .tehai (.naku (.kan (.daiminkan m r)) s) =>
    simp only [GameManager.operate_lack_one_hai] at h
    simp at h
  | .tehai (.naku (.kan (.kakan m r)) s) =>
    simp only [GameManager.operate_lack_one_hai] at h
    simp at h
  | .tehai (.naku (.kan (.ankan m r)) s) =>
    simp only [GameManager.operate_lack_one_hai] at h
    simp at h
  | .tehai (.naku (.chii (Mentsu.juntsu a b c) nk) s) =>
    have hflags : (s = true ∧ [a, b, c].Nodup) ∧ nk ∈ [a, b, c] := by
      simpa [strictTehaiOp, Bool.and_eq_true] using hop
    obtain ⟨⟨hs, hnd⟩, hnk⟩ := hflags
    subst hs
    simp only [GameManager.operate_lack_one_hai] at h
    cases hdr : Haiyama.discard ghy nk with
    | none => rw [hdr] at h; simp at h
    | some res =>
      rw [hdr] at h
      cases res with
      | error e2 => simp at h
      | ok hy' =>
        cases gte with
        | none => exact absurd h (by simp)
        | some t =>
          dsimp only at h
          cases hc : t.chii (Mentsu.juntsu a b c) nk with
          | error e3 => rw [hc] at h; simp at h
          | ok t' =>
            rw [hc] at h
            simp at h
            simp only [Tehai.chii] at hc
            cases hcg : Tehai.chiiGo nk t [a, b, c] with
            | error e4 => rw [hcg] at hc; simp at hc
            | ok t1 =>
              rw [hcg] at hc
              simp at hc
              obtain ⟨hfuu, hsub, hcnt⟩ := chiiGo_success nk [a, b, c] t t1 hcg
              obtain ⟨hgm, hopeq⟩ := h
              subst hopeq
              rw [← hgm]
              refine ⟨rfl, rfl, by simp, domain_after_discard hdom hdr, ?_, ?_⟩
              · intro te2 hte2 h2 hmem
                simp at hte2
                subst hte2
                rw [← hc] at hmem
                simp only at hmem
                exact hval t rfl h2 (hsub h2 hmem)
              · intro q
                have hw := wall_after_discard hdr q
                have hc1 := hcnt q
                have hfil := count_chii_filter [a, b, c] nk q
                have h1cnt : List.count nk [a, b, c] = 1 :=
                  List.count_eq_one_of_mem hnd hnk
                rw [h1cnt] at hfil
                have hfree : tehaiFree (some t') q =
                    List.count q t1.juntehai := by
                  rw [← hc]
                  rfl
                have hmld : tehaiMeld (some t') q =
                    tehaiMeld (some t) q + List.count q [a, b, c] := by
                  rw [← hc]
                  rw [show ({ t1 with
                        fuuro := t1.fuuro ++ [Mentsu.juntsu a b c] } : Tehai) =
                      (⟨t1.juntehai,
                        t1.fuuro ++ [Mentsu.juntsu a b c]⟩ : Tehai) from rfl]
                  rw [tehaiMeld_append]
                  simp [tehaiMeld, hfuu, mentsuTiles]
                have hft : tehaiFree (some t) q = List.count q t.juntehai :=
                  rfl
                rw [hfree, hmld]
                simp only [opDiscDelta]
                omega
  | .tehai (.naku (.pon (Mentsu.koutsu k)) s) =>
    have hs : s = true := by simpa [strictTehaiOp] using hop
    subst hs
    simp only [GameManager.operate_lack_one_hai] at h
    cases hdr : Haiyama.discard ghy k with
    | none => rw [hdr] at h; simp at h
    | some res =>
      rw [hdr] at h
      cases res with
      | error e2 => simp at h
      | ok hy' =>
        cases gte with
        | none => exact absurd h (by simp)
        | some t =>
          dsimp only at h
          cases hp : t.pon (Mentsu.koutsu k) with
          | error e3 => rw [hp] at h; simp at h
          | ok t' =>
            rw [hp] at h
            simp at h
            simp only [Tehai.pon] at hp
            cases hd1 : t.discard k with
            | error e4 => rw [hd1] at hp; simp at hp
            | ok t1 =>
              rw [hd1] at hp
              dsimp only at hp
              cases hd2 : t1.discard k with
              | error e4 => rw [hd2] at hp; simp at hp
              | ok t2 =>
                rw [hd2] at hp
                simp at hp
                obtain ⟨hm1, hj1, hf1⟩ := tehai_discard_ok hd1
                obtain ⟨hm2, hj2, hf2⟩ := tehai_discard_ok hd2
                obtain ⟨hgm, hopeq⟩ := h
                subst hopeq
                rw [← hgm]
                refine ⟨rfl, rfl, by simp,
                  domain_after_discard hdom hdr, ?_, ?_⟩
                · intro te2 hte2 h2 hmem
                  simp at hte2
                  subst hte2
                  rw [← hp] at hmem
                  simp only at hmem
                  rw [hj2] at hmem
                  have hmem2 := mem_remove_once hmem
                  rw [hj1] at hmem2
                  exact hval t rfl h2 (mem_remove_once hmem2)
                · intro q
                  have hw := wall_after_discard hdr q
                  have c1 := count_remove_once t.juntehai k hm1 q
                  have c2 := count_remove_once t1.juntehai k hm2 q
                  rw [hj1] at c2
                  have hfree : tehaiFree (some t') q =
                      List.count q (remove_once (remove_once t.juntehai k) k)
                      := by
                    rw [← hp]
                    simp only [tehaiFree]
                    rw [hj2, hj1]
                  have hmld : tehaiMeld (some t') q =
                      tehaiMeld (some t) q + List.count q [k, k, k] := by
                    rw [← hp]
                    rw [show ({ t2 with
                          fuuro := t2.fuuro ++ [Mentsu.koutsu k] } : Tehai) =
                        (⟨t2.juntehai,
                          t2.fuuro ++ [Mentsu.koutsu k]⟩ : Tehai) from rfl]
                    rw [tehaiMeld_append]
                    simp [tehaiMeld, hf2, hf1, mentsuTiles]
                  have hft : tehaiFree (some t) q =
                      List.count q t.juntehai := rfl
                  rw [hfree, hmld, count_rep3]
                  simp only [opDiscDelta]
                  rw [ite_eq_comm_nat k q] at c1 c2
                  omega
  | .tehai (.naku (.kan (.unknown (Mentsu.kantsu hai) rin)) s) =>
    have hs : s = true := by simpa [strictTehaiOp] using hop
    subst hs
    simp only [GameManager.operate_lack_one_hai] at h
    cases hdr1 : Haiyama.discard ghy hai with
    | none => rw [hdr1] at h; simp at h
    | some res1 =>
      rw [hdr1] at h
      cases res1 with
      | error e2 => simp at h
      | ok hy1 =>
        simp only [GameManager.lack_kan_step2] at h
        cases rin with
        | none =>
          obtain ⟨t, t', m, r2, hgte, hk, hgm1, hop2⟩ :=
            c8aux3_lack_kan_cont h
          subst hgte
          subst hgm1
          subst hop2
          obtain ⟨hfuu, hcnt, hsub⟩ := kan_daiminkan_spec hk
          refine ⟨rfl, rfl, by simp,
            domain_after_discard hdom hdr1, ?_, ?_⟩
          · intro te2 hte2 h2 hmem
            simp at hte2
            subst hte2
            rcases hsub h2 hmem with hm | hm
            · exact hval t rfl h2 hm
            · exact absurd hm (by simp)
          · intro q
            have hw := wall_after_discard hdr1 q
            have hc1 := hcnt q
            simp only [rinDelta] at hc1
            have hmld : tehaiMeld (some t') q =
                tehaiMeld (some t) q + List.count q [hai, hai, hai, hai]
                := by
              simp only [tehaiMeld]
              rw [hfuu]
              simp [mentsuTiles]
            simp only [tehaiFree, tehaiMeld, opDiscDelta] at hmld ⊢
            rw [hmld, count_rep4]
            rw [ite_eq_comm_nat hai q] at hc1
            omega
        | some r =>
          dsimp only at h
          cases hdr2 : Haiyama.discard hy1 r with
          | none => rw [hdr2] at h; simp at h
          | some res2 =>
            rw [hdr2] at h
            cases res2 with
            | error e3 => simp at h
            | ok hy2 =>
              obtain ⟨t, t', m, r2, hgte, hk, hgm1, hop2⟩ :=
                c8aux3_lack_kan_cont h
              subst hgte
              subst hgm1
              subst hop2
              obtain ⟨hfuu, hcnt, hsub⟩ := kan_daiminkan_spec hk
              have hdom1 := domain_after_discard hdom hdr1
              refine ⟨rfl, rfl, by simp,
                domain_after_discard hdom1 hdr2, ?_, ?_⟩
              · intro te2 hte2 h2 hmem
                simp at hte2
                subst hte2
                rcases hsub h2 hmem with hm | hm
                · exact hval t rfl h2 hm
                · have hr : h2 = r := by
                    simpa using hm.symm
                  subst hr
                  exact valid_of_discard_ok hdom1 hdr2
              · intro q
                have hw1 := wall_after_discard hdr1 q
                have hw2 := wall_after_discard hdr2 q
                have hc1 := hcnt q
                simp only [rinDelta] at hc1
                rw [ite_eq_comm_nat hai q, ite_eq_comm_nat r q] at hc1
                have hmld : tehaiMeld (some t') q =
                    tehaiMeld (some t) q + List.count q [hai, hai, hai, hai]
                    := by
                  simp only [tehaiMeld]
                  rw [hfuu]
                  simp [mentsuTiles]
                simp only [tehaiFree, tehaiMeld, opDiscDelta] at hmld ⊢
                rw [hmld, count_rep4]
                omega
  | .tehai (.add hai s) =>
    have hs : s = true := by simpa [strictTehaiOp] using hop
    subst hs
    simp only [GameManager.operate_lack_one_hai] at h
    cases hdr : Haiyama.discard ghy hai with
    | none => rw [hdr] at h; simp at h
    | some res =>
      rw [hdr] at h
      cases res with
      | error e2 => simp at h
      | ok hy' =>
        cases gte with
        | none => exact absurd h (by simp)
        | some t =>
          dsimp only at h
          simp at h
          obtain ⟨n, hn, hpos, hlook⟩ := haiyama_discard_ok hdr
          obtain ⟨hgm, hopeq⟩ := h
          subst hopeq
          rw [← hgm]
          refine ⟨rfl, rfl, by simp, domain_after_discard hdom hdr, ?_, ?_⟩
          · intro te2 hte2 h2 hmem
            simp at hte2
            subst hte2
            simp only at hmem
            rw [mem_sortHai] at hmem
            rcases List.mem_append.mp hmem with hm | hm
            · exact hval t rfl h2 hm
            · simp at hm
              subst hm
              exact valid_of_discard_ok hdom hdr
          · intro q
            have hw := wall_after_discard hdr q
            simp only [wallOf, tehaiFree, tehaiMeld, opDiscDelta] at hw ⊢
            rw [count_sortHai, List.count_append]
            by_cases hq : q = hai
            · subst hq
              simp at hw ⊢
              omega
            · have h2 : ¬(q = hai) := hq
              have h3 : List.count q [hai] = 0 := by
                simp [List.count_singleton]
                exact fun he => hq he.symm
              rw [h3]
              rw [if_neg hq] at hw
              omega

lemma c8aux3_full_kan_cont {ghy : Haiyama} {gte : Option Tehai}
    {gsty : List Hai} {gst : GMState} {gpn : PlayerNumber}
    {ghist : List (Operation × GMState × List Hai)}
    {kantsu : Mentsu} {rin : Option Hai} {s : Bool} {op : Operation}
    {hy : Haiyama} {st : GMState} {gm1 : GameManager} {op2 : Operation}
    (h : GameManager.full_hai_kan_cont ⟨ghy, gte, gsty, gst, gpn, ghist⟩
      kantsu rin s op ghy gst gte hy st = some (gm1, op2, none)) :
    ∃ t t' kv, gte = some t ∧
      t.kan kantsu rin = .ok (t', kv) ∧
      ((∃ m r2, kv = Kan.ankan m r2) ∨ (∃ m r2, kv = Kan.kakan m r2)) ∧
      gm1 = ⟨hy, some t', gsty, st, gpn, ghist⟩ ∧
      op2 = Operation.tehai (TehaiOperation.naku (Naku.kan kv) s) := by
  simp only [GameManager.full_hai_kan_cont] at h
  cases gte with
  | none => exact absurd h (by simp)
  | some t =>
    dsimp only at h
    cases hk : t.kan kantsu rin with
    | error e => rw [hk] at h; simp at h
    | ok pr =>
      obtain ⟨t', kv⟩ := pr
      rw [hk] at h
      cases kv with
      | daiminkan m r2 => simp at h
      | unknown m r2 => simp at h
      | ankan m r2 =>
        simp at h
        exact ⟨t, t', Kan.ankan m r2, rfl, hk, Or.inl ⟨m, r2, rfl⟩,
          h.1.symm, h.2.symm⟩
      | kakan m r2 =>
        simp at h
        exact ⟨t, t', Kan.kakan m r2, rfl, hk, Or.inr ⟨m, r2, rfl⟩,
          h.1.symm, h.2.symm⟩

lemma c8aux2_full_hai (pn : PlayerNumber) (ghy : Haiyama)
    (gte : Option Tehai) (gsty : List Hai) (gst : GMState)
    (gpn : PlayerNumber) (ghist : List (Operation × GMState × List Hai))
    (op : Operation) (gm1 : GameManager) (op2 : Operation)
    (hdom : Haiyama.domain_matches pn ghy)
    (hval : ∀ te2, gte = some te2 →
      ∀ h2 ∈ te2.juntehai, Hai.is_valid h2 pn = true)
    (hbound : ∀ q, Hai.is_valid q pn = true →
      tehaiFree gte q + tehaiMeld gte q ≤ 4)
    (hop : strictTehaiOp op = true)
    (h : GameManager.operate_full_hai ⟨ghy, gte, gsty, gst, gpn, ghist⟩
      op = some (gm1, op2, none)) :
    gm1.player_number = gpn ∧
    gm1.history = ghist ∧
    (gm1.state = GMState.waitToInit → gm1.tehai = none) ∧
    Haiyama.domain_matches pn gm1.haiyama ∧
    (∀ te2, gm1.tehai = some te2 →
      ∀ h2 ∈ te2.juntehai, Hai.is_valid h2 pn = true) ∧
    (∀ t, wallOf gm1.haiyama t + tehaiFree gm1.tehai t +
        tehaiMeld gm1.tehai t + opDiscDelta op2 t =
        wallOf ghy t + tehaiFree gte t + tehaiMeld gte t) := by
  match op with
  | .haiyama k s => simp [strictTehaiOp] at hop
  | .tehai (.init t) =>
    simp only [GameManager.operate_full_hai] at h
    simp at h
  | .tehai (.add hai s) =>
    simp only [GameManager.operate_full_hai] at h
    simp at h
  | .tehai (.naku (.chii m n) s) =>
    simp only [GameManager.operate_full_hai] at h
    simp at h
  | .tehai (.naku (.pon m) s) =>
    simp only [GameManager.operate_full_hai] at h
    simp at h
  | .tehai (.naku (.kan (.daiminkan m r)) s) =>
    simp only [GameManager.operate_full_hai] at h
    simp at h
  | .tehai (.naku (.kan (.kakan m r)) s) =>
    simp only [GameManager.operate_full_hai] at h
    simp at h
  | .tehai (.naku (.kan (.ankan m r)) s) =>
    simp only [GameManager.operate_full_hai] at h
    simp at h
  | .tehai (.discard hai) =>
    simp only [GameManager.operate_full_hai] at h
    cases gte with
    | none => exact absurd h (by simp)
    | some t =>
      dsimp only at h
      cases hd : t.discard hai with
      | error e2 => rw [hd] at h; simp at h
      | ok t' =>
        rw [hd] at h
        simp at h
        obtain ⟨hgm, hopeq⟩ := h
        subst hopeq
        rw [← hgm]
        obtain ⟨hmem0, hj, hf⟩ := tehai_discard_ok hd
        refine ⟨rfl, rfl, by simp, hdom, ?_, ?_⟩
        · intro te2 hte2 h2 hmem
          simp at hte2
          subst hte2
          rw [hj] at hmem
          exact hval t rfl h2 (mem_remove_once hmem)
        · intro q
          have c1 := count_remove_once t.juntehai hai hmem0 q
          have hfree : tehaiFree (some t') q =
              List.count q (remove_once t.juntehai hai) := by
            simp only [tehaiFree]
            rw [hj]
          have hmld : tehaiMeld (some t') q = tehaiMeld (some t) q := by
            simp only [tehaiMeld]
            rw [hf]
          have hft : tehaiFree (some t) q = List.count q t.juntehai := rfl
          rw [hfree, hmld]
          simp only [opDiscDelta]
          omega
  | .tehai (.naku (.kan (.unknown kantsu rin)) s) =>
    have hs : s = true := by simpa [strictTehaiOp] using hop
    subst hs
    simp only [GameManager.operate_full_hai] at h
    cases rin with
    | none =>
      obtain ⟨t, t', kv, hgte, hk, hkind, hgm1, hop2⟩ :=
        c8aux3_full_kan_cont h
      subst hgte
      subst hgm1
      subst hop2
      cases kantsu with
      | juntsu a b c => simp [Tehai.kan] at hk
      | koutsu k2 => simp [Tehai.kan] at hk
      | kantsu hai =>
        rcases hkind with ⟨m, r2, hkv⟩ | ⟨m, r2, hkv⟩
        · subst hkv
          obtain ⟨hfuu, hcnt, hsub⟩ := kan_ankan_spec hk
          refine ⟨rfl, rfl, by simp, hdom, ?_, ?_⟩
          · intro te2 hte2 h2 hmem
            simp at hte2
            subst hte2
            rcases hsub h2 hmem with hm | hm
            · exact hval t rfl h2 hm
            · exact absurd hm (by simp)
          · intro q
            have hc1 := hcnt q
            simp only [rinDelta] at hc1
            rw [ite_eq_comm_nat hai q] at hc1
            have hmld : tehaiMeld (some t') q =
                tehaiMeld (some t) q +
                  List.count q [hai, hai, hai, hai] := by
              simp only [tehaiMeld]
              rw [hfuu]
              simp [mentsuTiles]
            simp only [tehaiFree, tehaiMeld, opDiscDelta] at hmld ⊢
            rw [hmld, count_rep4]
            omega
        · subst hkv
          obtain ⟨hc1, hidx⟩ := kan_kakan_spec hk
          exfalso
          have hmeld := meld_sum_ge_kantsu (findKantsuIdx_isSome_mem hidx)
          have hhv : Hai.is_valid hai pn = true := by
            have hmem2 : hai ∈ t.juntehai := by
              rw [← List.count_pos_iff]
              omega
            exact hval t rfl hai hmem2
          have hb := hbound hai hhv
          simp only [tehaiFree, tehaiMeld] at hb
          omega
    | some r =>
      dsimp only at h
      cases hdr : Haiyama.discard ghy r with
      | none => rw [hdr] at h; simp at h
      | some res =>
        rw [hdr] at h
        cases res with
        | error e2 => simp at h
        | ok hy' =>
          obtain ⟨t, t', kv, hgte, hk, hkind, hgm1, hop2⟩ :=
            c8aux3_full_kan_cont h
          subst hgte
          subst hgm1
          subst hop2
          cases kantsu with
          | juntsu a b c => simp [Tehai.kan] at hk
          | koutsu k2 => simp [Tehai.kan] at hk
          | kantsu hai =>
            rcases hkind with ⟨m, r2, hkv⟩ | ⟨m, r2, hkv⟩
            · subst hkv
              obtain ⟨hfuu, hcnt, hsub⟩ := kan_ankan_spec hk
              refine ⟨rfl, rfl, by simp,
                domain_after_discard hdom hdr, ?_, ?_⟩
              · intro te2 hte2 h2 hmem
                simp at hte2
                subst hte2
                rcases hsub h2 hmem with hm | hm
                · exact hval t rfl h2 hm
                · have hr : h2 = r := by simpa using hm.symm
                  subst hr
                  exact valid_of_discard_ok hdom hdr
              · intro q
                have hw := wall_after_discard hdr q
                have hc1 := hcnt q
                simp only [rinDelta] at hc1
                rw [ite_eq_comm_nat hai q, ite_eq_comm_nat r q] at hc1
                have hmld : tehaiMeld (some t') q =
                    tehaiMeld (some t) q +
                      List.count q [hai, hai, hai, hai] := by
                  simp only [tehaiMeld]
                  rw [hfuu]
                  simp [mentsuTiles]
                simp only [tehaiFree, tehaiMeld, opDiscDelta] at hmld ⊢
                rw [hmld, count_rep4]
                omega
            · subst hkv
              obtain ⟨hc1, hidx⟩ := kan_kakan_spec hk
              exfalso
              have hmeld := meld_sum_ge_kantsu (findKantsuIdx_isSome_mem hidx)
              have hhv : Hai.is_valid hai pn = true := by
                have hmem2 : hai ∈ t.juntehai := by
                  rw [← List.count_pos_iff]
                  omega
                exact hval t rfl hai hmem2
              have hb := hbound hai hhv
              simp only [tehaiFree, tehaiMeld] at hb
              omega

lemma c8_step (pn : PlayerNumber) (gm gm' : GameManager) (op : Operation)
    (hinv : C8Inv pn gm) (hop : strictTehaiOp op = true)
    (hsucc : GameManager.operate gm op = some (gm', none)) :
    C8Inv pn gm' := by
  obtain ⟨ghy, gte, gsty, gst, gpn, ghist⟩ := gm
  obtain ⟨hpn, hwti, hdom, hval, htot⟩ := hinv
  simp only at hpn hwti hdom hval htot
  simp only [GameManager.operate] at hsucc
  cases gst with
  | waitToInit =>
    dsimp only at hsucc
    cases hw : GameManager.operate_wait_to_init
        ⟨ghy, gte, gsty, .waitToInit, gpn, ghist⟩ op with
    | none => rw [hw] at hsucc; simp at hsucc
    | some p =>
      obtain ⟨g2, e2⟩ := p
      rw [hw] at hsucc
      cases e2 with
      | some msg => simp at hsucc
      | none =>
        simp at hsucc
        have hte : gte = none := hwti rfl
        obtain ⟨hq1, hq2, hq3, hq4, hq5, hq6⟩ :=
          c8aux2_wait_to_init pn ghy gte gsty _ gpn ghist op g2
            hdom hte hop hw
        rw [← hsucc]
        refine ⟨by simpa using hq1 ▸ hpn, by simpa using hq3, by simpa using hq4,
          by simpa using hq5, ?_⟩
        intro q hqv
        simp only [C8Inv]
        have h6 := hq6 q
        have ht := htot q hqv
        simp only at ht ⊢
        rw [hq2, histDisc_append]
        omega
  | fullHai =>
    dsimp only at hsucc
    cases hw : GameManager.operate_full_hai
        ⟨ghy, gte, gsty, .fullHai, gpn, ghist⟩ op with
    | none => rw [hw] at hsucc; simp at hsucc
    | some p =>
      obtain ⟨g2, op2, e2⟩ := p
      rw [hw] at hsucc
      cases e2 with
      | some msg => simp at hsucc
      | none =>
        simp at hsucc
        have hbound : ∀ q, Hai.is_valid q pn = true →
            tehaiFree gte q + tehaiMeld gte q ≤ 4 := by
          intro q hv
          have := htot q hv
          omega
        obtain ⟨hq1, hq2, hq3, hq4, hq5, hq6⟩ :=
          c8aux2_full_hai pn ghy gte gsty _ gpn ghist op g2 op2
            hdom hval hbound hop hw
        rw [← hsucc]
        refine ⟨by simpa using hq1 ▸ hpn, by simpa using hq3,
          by simpa using hq4, by simpa using hq5, ?_⟩
        intro q hqv
        have h6 := hq6 q
        have ht := htot q hqv
        simp only at ht ⊢
        rw [hq2, histDisc_append]
        omega
  | lackOneHai =>
    dsimp only at hsucc
    cases hw : GameManager.operate_lack_one_hai
        ⟨ghy, gte, gsty, .lackOneHai, gpn, ghist⟩ op with
    | none => rw [hw] at hsucc; simp at hsucc
    | some p =>
      obtain ⟨g2, op2, e2⟩ := p
      rw [hw] at hsucc
      cases e2 with
      | some msg => simp at hsucc
      | none =>
        simp at hsucc
        obtain ⟨hq1, hq2, hq3, hq4, hq5, hq6⟩ :=
          c8aux2_lack_one_hai pn ghy gte gsty _ gpn ghist op g2 op2
            hdom hval hop hw
        rw [← hsucc]
        refine ⟨by simpa using hq1 ▸ hpn, by simpa using hq3,
          by simpa using hq4, by simpa using hq5, ?_⟩
        intro q hqv
        have h6 := hq6 q
        have ht := htot q hqv
        simp only at ht ⊢
        rw [hq2, histDisc_append]
        omega
  | waitForRinshanhai =>
    dsimp only at hsucc
    cases hw : GameManager.operate_wait_for_rinshanhai
        ⟨ghy, gte, gsty, .waitForRinshanhai, gpn, ghist⟩ op with
    | none => rw [hw] at hsucc; simp at hsucc
    | some p =>
      obtain ⟨g2, e2⟩ := p
      rw [hw] at hsucc
      cases e2 with
      | some msg => simp at hsucc
      | none =>
        simp at hsucc
        obtain ⟨hq1, hq2, hq3, hq4, hq5, hq6⟩ :=
          c8aux2_wait_for_rinshanhai pn ghy gte gsty _ gpn ghist op g2
            hdom hval hop hw
        rw [← hsucc]
        refine ⟨by simpa using hq1 ▸ hpn, by simpa using hq3,
          by simpa using hq4, by simpa using hq5, ?_⟩
        intro q hqv
        have h6 := hq6 q
        have ht := htot q hqv
        simp only at ht ⊢
        rw [hq2, histDisc_append]
        omega

lemma c8_runOps (pn : PlayerNumber) :
    ∀ (ops : List Operation) (gm gm' : GameManager),
      C8Inv pn gm → (∀ op ∈ ops, strictTehaiOp op = true) →
      runOps gm ops = some gm' → C8Inv pn gm' := by
  intro ops
  induction ops with
  | nil =>
    intro gm gm' hinv _ hrun
    simp [runOps] at hrun
    rw [← hrun]
    exact hinv
  | cons op rest ih =>
    intro gm gm' hinv hops hrun
    simp only [runOps] at hrun
    cases ho : GameManager.operate gm op with
    | none => rw [ho] at hrun; simp at hrun
    | some p =>
      obtain ⟨g2, e2⟩ := p
      rw [ho] at hrun
      cases e2 with
      | some msg => simp at hrun
      | none =>
        exact ih g2 gm'
          (c8_step pn gm g2 op hinv (hops op (List.mem_cons_self _ _)) ho)
          (fun o hm => hops o (List.mem_cons_of_mem _ hm)) hrun

lemma c8_init (pn : PlayerNumber) : C8Inv pn (GameManager.new pn) := by
  refine ⟨rfl, fun _ => rfl, haiyama_new_domain_matches pn, ?_, ?_⟩
  · intro te2 hte2
    simp [GameManager.new] at hte2
  · intro t ht
    simp only [GameManager.new, wallOf, tehaiFree, tehaiMeld, histDisc]
    rw [haiyama_new_lookup]
    simp [ht]

/-- C8 (amended): on a fresh session, after any successful sequence of
strict hand operations (no raw wall edits, wall-sensitive flags on,
chii called with three distinct run tiles containing the called tile),
every valid tile kind's copies across the wall, the free tiles, the
fixed melds (3 per run/triplet, 4 per quad) and the recorded discards
total exactly 4 — discarded copies leave wall+hand+melds, so the
original claim's three-term sum is 4 only when the kind was never
discarded. -/
theorem c8_tile_conservation (pn : PlayerNumber) (ops : List Operation)
    (gm : GameManager) (t : Hai)
    (hops : ∀ op ∈ ops, strictTehaiOp op = true)
    (hrun : runOps (GameManager.new pn) ops = some gm)
    (ht : Hai.is_valid t pn = true) :
    wallOf gm.haiyama t + tehaiFree gm.tehai t + tehaiMeld gm.tehai t +
      histDisc gm.history t = 4 :=
  (c8_runOps pn ops (GameManager.new pn) gm (c8_init pn) hops
    hrun).2.2.2.2 t ht

/-- A 14-tile starting hand containing one east wind (1z). -/
def c8_t14 : Tehai :=
  ⟨[Hai.manzu 1, Hai.manzu 2, Hai.manzu 3, Hai.pinzu 4, Hai.pinzu 5,
    Hai.pinzu 6, Hai.souzu 7, Hai.souzu 8, Hai.souzu 9, Hai.jihai 1,
    Hai.jihai 2, Hai.jihai 2, Hai.jihai 3, Hai.jihai 3], []⟩

/-- Initialize with 14 tiles, then discard 1z (both strict). -/
def c8_ops : List Operation :=
  [Operation.tehai (.init c8_t14),
   Operation.tehai (.discard (Hai.jihai 1))]

/-- C8 counterexample: after a successful strict Initialize followed by
a successful Discard of 1z, the wall holds 3 copies of 1z and the hand
none, so wall + free + melds = 3, not 4: the discarded copy is in no
tracked pool. -/
theorem c8_counterexample :
    (∀ op ∈ c8_ops, strictTehaiOp op = true) ∧
    (runOps (GameManager.new .four) c8_ops).map
        (fun gm => wallOf gm.haiyama (Hai.jihai 1) +
          tehaiFree gm.tehai (Hai.jihai 1) +
          tehaiMeld gm.tehai (Hai.jihai 1)) = some 3 ∧
    (3 : Nat) ≠ 4 :=
  ⟨by decide, by rfl, by decide⟩

theorem c8_witness :
    wallOf ((runOps (GameManager.new .four) c8_ops).getD
        (GameManager.new .four)).haiyama (Hai.jihai 1) +
      tehaiFree ((runOps (GameManager.new .four) c8_ops).getD
        (GameManager.new .four)).tehai (Hai.jihai 1) +
      tehaiMeld ((runOps (GameManager.new .four) c8_ops).getD
        (GameManager.new .four)).tehai (Hai.jihai 1) +
      histDisc ((runOps (GameManager.new .four) c8_ops).getD
        (GameManager.new .four)).history (Hai.jihai 1) = 4 :=
  c8_tile_conservation .four c8_ops _ (Hai.jihai 1) (by decide) (by rfl)
    (by decide)
